import Mathlib

/-!
# DeepLearning_Framework: tensor algebra, layers, loss, optimiser, network

A shallow embedding of the C sources (`tensor.c`, `activations.c`, `loss.c`,
`layer.c`, `optimiser.c`, `network.c`) and theorems about it.

Conventions of the embedding

* `float` is an abstract scalar type `α`; every definition asks only for the
  operations the C function uses (`+`, `*`, `0`, ...), applied in the order the
  C code applies them. Theorems that need algebra are stated over a linearly
  ordered field, and evaluated on `ℚ`. The type `F32` puts the IEEE 754
  binary32 values and their rounded operations in the place of `α`; theorems
  whose truth depends on rounding, infinities or NaNs are stated over it.
* A `Tensor*` that may be `NULL` is an `Option (Tensor α)`; a function that
  returns `NULL` returns `none`. `malloc`/`realloc` are assumed to succeed.
* A C function that writes through a pointer returns the new value of the
  pointee next to its C return value.
* `for (int i = 0; i < n; i++) body` is `for_range n body`; a write
  `t->data[i*t->cols + j] = v` is `Tensor.setCell t i j v`; a read
  `t->data[i*t->cols + j]` is `Tensor.cell t i j`. A read past the end of the
  buffer (undefined in C) yields `default`, a write past the end is dropped;
  neither happens on a tensor that satisfies `Tensor.WF`.
* A loop that can `return` early carries a flag in its state: once the flag is
  set the remaining iterations leave the state as it is.
* `printf` diagnostics and `free` are not modelled. Extents and indices are
  exact integers; the 32-bit product of `_create_tensor` is modelled in
  `_create_tensor_int32` and `create_tensor_value_int32`.
-/

namespace DLF

/-! ## tensor.h / tensor.c -/

/-- The C struct Tensor: a flat row-major buffer and its extents. The extents are C ints
that `_create_tensor` only ever sets to positive values. -/
structure Tensor (α : Type) where
  data : List α
  rows : Nat
  cols : Nat
  deriving DecidableEq, Repr

/-- The loop `for (int i = 0; i < n; i++) s = body i s`. -/
def for_range {σ : Type} (n : Nat) (body : Nat → σ → σ) (s : σ) : σ :=
  match n with
  | 0 => s
  | k + 1 => body k (for_range k body s)

/-- The read `t->data[idx]`. -/
def Tensor.read {α : Type} [Inhabited α] (t : Tensor α) (idx : Nat) : α :=
  t.data.getD idx default

/-- The read `t->data[i*t->cols + j]`. -/
def Tensor.cell {α : Type} [Inhabited α] (t : Tensor α) (i j : Nat) : α :=
  t.read (i * t.cols + j)

/-- The write `t->data[idx] = v`. -/
def Tensor.write {α : Type} (t : Tensor α) (idx : Nat) (v : α) : Tensor α :=
  { t with data := t.data.set idx v }

/-- The write `t->data[i*t->cols + j] = v`. -/
def Tensor.setCell {α : Type} (t : Tensor α) (i j : Nat) (v : α) : Tensor α :=
  t.write (i * t.cols + j) v

/-- Allocation of a rows × cols tensor with unspecified contents (`default` stands for the
garbage); `none` when an extent is not positive. The product rows*cols is taken exactly
here: this is the C function on the extents whose product fits an int.
`_create_tensor_int32` below takes the product in 32-bit int as tensor.c:55 does, and agrees
with this function whenever rows*cols ≤ INT_MAX. -/
def _create_tensor {α : Type} [Inhabited α] (rows cols : Int) : Option (Tensor α) :=
  if rows ≤ 0 ∨ cols ≤ 0 then none
  else some { data := List.replicate (rows.toNat * cols.toNat) default,
              rows := rows.toNat, cols := cols.toNat }

/-- C function create_tensor_value. -/
def create_tensor_value {α : Type} [Inhabited α] (rows cols : Int) (value : α) :
    Option (Tensor α) :=
  match (_create_tensor rows cols : Option (Tensor α)) with
  | none => none
  | some uninit_tensor =>
    some (for_range uninit_tensor.rows (fun i t =>
      for_range uninit_tensor.cols (fun j t => t.write (i * cols.toNat + j) value) t)
      uninit_tensor)

/-- The C constant INT_MAX of a 32-bit int. -/
def INT_MAX : Int := 2147483647

/-- The value the compiled code holds for an int expression of exact value `x`: `x` reduced
into the range -2^31 .. 2^31 - 1 (two's complement wrap-around; the C standard leaves signed
overflow undefined). -/
def int32 (x : Int) : Int := (x + 2147483648) % 4294967296 - 2147483648

/-- C function _create_tensor with the product `rows * cols` of tensor.c:55 taken in 32-bit
int. A product that wraps to a negative int becomes, converted to size_t and multiplied by
sizeof(float), a request of more than 2^63 bytes: malloc returns NULL and so does the
function. A product that wraps to a non-negative int allocates that many cells, fewer than
rows*cols, and the tensor is returned with the extents it was asked for. -/
def _create_tensor_int32 {α : Type} [Inhabited α] (rows cols : Int) : Option (Tensor α) :=
  if rows ≤ 0 ∨ cols ≤ 0 then none
  else
    let cells := int32 (rows * cols)
    if cells < 0 then none
    else some { data := List.replicate cells.toNat default,
                rows := rows.toNat, cols := cols.toNat }

/-- C function create_tensor_value over `_create_tensor_int32`; the index `i*cols + j` is an
int expression. A write at an index outside the buffer (undefined in C) is dropped. -/
def create_tensor_value_int32 {α : Type} [Inhabited α] (rows cols : Int) (value : α) :
    Option (Tensor α) :=
  match (_create_tensor_int32 rows cols : Option (Tensor α)) with
  | none => none
  | some uninit_tensor =>
    some (for_range uninit_tensor.rows (fun i t =>
      for_range uninit_tensor.cols (fun j t =>
        if int32 (int32 ((i : Int) * cols) + (j : Int)) < 0 then t
        else t.write (int32 (int32 ((i : Int) * cols) + (j : Int))).toNat value) t)
      uninit_tensor)

/-- C function tensor_deepcopy. -/
def tensor_deepcopy {α : Type} [Inhabited α] (tensor : Tensor α) : Option (Tensor α) :=
  match (_create_tensor tensor.rows tensor.cols : Option (Tensor α)) with
  | none => none
  | some new_tensor =>
    some (for_range new_tensor.rows (fun i t =>
      for_range new_tensor.cols (fun j t =>
        t.write (i * tensor.cols + j) (tensor.read (i * tensor.cols + j))) t)
      new_tensor)

/-- C function tensor_transpose. The C code does not test the allocation; on a tensor
with a zero extent (which no constructor produces) the model returns `none`. -/
def tensor_transpose {α : Type} [Inhabited α] (tensor : Tensor α) : Option (Tensor α) :=
  match (_create_tensor tensor.cols tensor.rows : Option (Tensor α)) with
  | none => none
  | some t_new =>
    some (for_range t_new.rows (fun i t =>
      for_range t_new.cols (fun j t => t.setCell i j (tensor.cell j i)) t)
      t_new)

/-- C function tensor_addition. The C code does not test the allocation; on a zero extent
the model returns `none`. -/
def tensor_addition {α : Type} [Inhabited α] [Add α] (t1 t2 : Tensor α) :
    Option (Tensor α) :=
  if t1.rows ≠ t2.rows ∨ t1.cols ≠ t2.cols then none
  else
    match (_create_tensor t1.rows t1.cols : Option (Tensor α)) with
    | none => none
    | some t_new =>
      some (for_range t_new.rows (fun i t =>
        for_range t_new.cols (fun j t => t.setCell i j (t1.cell i j + t2.cell i j)) t)
        t_new)

/-- C function tensor_subtraction. The C code does not test the allocation; on a zero
extent the model returns `none`. -/
def tensor_subtraction {α : Type} [Inhabited α] [Sub α] (t1 t2 : Tensor α) :
    Option (Tensor α) :=
  if t1.rows ≠ t2.rows ∨ t1.cols ≠ t2.cols then none
  else
    match (_create_tensor t1.rows t1.cols : Option (Tensor α)) with
    | none => none
    | some t_new =>
      some (for_range t_new.rows (fun i t =>
        for_range t_new.cols (fun j t => t.setCell i j (t1.cell i j - t2.cell i j)) t)
        t_new)

/-- C function tensor_multiplication_v1: the naive triple loop, accumulating into the
result cell. The C code does not test the allocation; on a zero extent the model returns
`none`. -/
def tensor_multiplication_v1 {α : Type} [Inhabited α] [Zero α] [Add α] [Mul α]
    (t1 t2 : Tensor α) : Option (Tensor α) :=
  if t1.cols ≠ t2.rows then none
  else
    match create_tensor_value (t1.rows : Int) (t2.cols : Int) (0 : α) with
    | none => none
    | some t_new =>
      some (for_range t1.rows (fun i t =>
        for_range t2.cols (fun j t =>
          for_range t1.cols (fun k t =>
            t.setCell i j (t.cell i j + t1.cell i k * t2.cell k j)) t) t)
        t_new)

/-- C function tensor_multiplication: dot products of the rows of `t1` with the rows of a
transposed copy of `t2`. The C code does not test the two allocations; on a zero extent
(which no constructor produces) the model returns `none`. -/
def tensor_multiplication {α : Type} [Inhabited α] [Zero α] [Add α] [Mul α]
    (t1 t2 : Tensor α) : Option (Tensor α) :=
  if t1.cols ≠ t2.rows then none
  else
    match create_tensor_value (t1.rows : Int) (t2.cols : Int) (0 : α), tensor_transpose t2 with
    | some result, some t2_t =>
      some (for_range t1.rows (fun i r =>
        for_range t2.cols (fun j r =>
          let sum := for_range t1.cols (fun k sum => sum + t1.cell i k * t2_t.cell j k) (0 : α)
          r.setCell i j sum) r)
        result)
    | _, _ => none

/-- C function tensor_multiplication_hadamard. The C code does not test the allocation; on
a zero extent the model returns `none`. -/
def tensor_multiplication_hadamard {α : Type} [Inhabited α] [Mul α]
    (t1 t2 : Tensor α) : Option (Tensor α) :=
  if t1.rows ≠ t2.rows ∨ t1.cols ≠ t2.cols then none
  else
    match (_create_tensor t1.rows t1.cols : Option (Tensor α)) with
    | none => none
    | some t_new =>
      some (for_range t_new.rows (fun i t =>
        for_range t_new.cols (fun j t => t.setCell i j (t1.cell i j * t2.cell i j)) t)
        t_new)

/-- C function tensor_add_cols. The C code does not test the allocation; on a zero extent
the model returns `none`. -/
def tensor_add_cols {α : Type} [Inhabited α] [Zero α] [Add α]
    (tensor : Tensor α) : Option (Tensor α) :=
  match (_create_tensor 1 tensor.cols : Option (Tensor α)) with
  | none => none
  | some t_new =>
    some (for_range tensor.cols (fun i t =>
      let sum := for_range tensor.rows (fun j sum => sum + tensor.cell j i) (0 : α)
      t.write i sum)
      t_new)

/-- C function tensor_addition_inplace; the result is the new value of `*t1`. -/
def tensor_addition_inplace {α : Type} [Inhabited α] [Add α] (t1 t2 : Tensor α) :
    Tensor α :=
  if t1.rows ≠ t2.rows ∨ t1.cols ≠ t2.cols then t1
  else
    for_range t1.rows (fun i t =>
      for_range t1.cols (fun j t => t.setCell i j (t.cell i j + t2.cell i j)) t)
      t1

/-- C function tensor_subtraction_inplace; the result is the new value of `*t1`. -/
def tensor_subtraction_inplace {α : Type} [Inhabited α] [Sub α] (t1 t2 : Tensor α) :
    Tensor α :=
  if t1.rows ≠ t2.rows ∨ t1.cols ≠ t2.cols then t1
  else
    for_range t1.rows (fun i t =>
      for_range t1.cols (fun j t => t.setCell i j (t.cell i j - t2.cell i j)) t)
      t1

/-- C function tensor_multiplication_hadamard_inplace; the result is the new value of
`*t1`. -/
def tensor_multiplication_hadamard_inplace {α : Type} [Inhabited α] [Mul α]
    (t1 t2 : Tensor α) : Tensor α :=
  if t1.rows ≠ t2.rows ∨ t1.cols ≠ t2.cols then t1
  else
    for_range t1.rows (fun i t =>
      for_range t1.cols (fun j t => t.setCell i j (t.cell i j * t2.cell i j)) t)
      t1

/-- C function tensor_scale_inplace; the result is the new value of `*t`. -/
def tensor_scale_inplace {α : Type} [Inhabited α] [Mul α] (t : Tensor α) (scaler : α) :
    Tensor α :=
  for_range t.rows (fun i s =>
    for_range t.cols (fun j s => s.setCell i j (s.cell i j * scaler)) s)
    t

/-- C function tensor_add_scaled_inplace; the result is the new value of `*t1`. The second
operand may be `NULL`. -/
def tensor_add_scaled_inplace {α : Type} [Inhabited α] [Add α] [Mul α]
    (t1 : Tensor α) (t2 : Option (Tensor α)) (scaler : α) : Tensor α :=
  match t2 with
  | none => t1
  | some t2 =>
    if t1.rows ≠ t2.rows ∨ t1.cols ≠ t2.cols then t1
    else
      for_range t1.rows (fun i t =>
        for_range t1.cols (fun j t => t.setCell i j (t.cell i j + scaler * t2.cell i j)) t)
        t1

/-- C function tensor_row_addition_inplace; the result is the new value of `*t1`. -/
def tensor_row_addition_inplace {α : Type} [Inhabited α] [Add α]
    (t1 t2 : Tensor α) : Tensor α :=
  if t2.rows ≠ 1 ∨ t1.cols ≠ t2.cols then t1
  else
    for_range t1.rows (fun i t =>
      for_range t1.cols (fun j t => t.setCell i j (t.cell i j + t2.read j)) t)
      t1

/-- C function tensor_apply_func_inplace; the result is the new value of `*t1`. -/
def tensor_apply_func_inplace {α : Type} [Inhabited α]
    (t1 : Tensor α) (func : α → α) : Tensor α :=
  for_range t1.rows (fun i t =>
    for_range t1.cols (fun j t => t.setCell i j (func (t.cell i j))) t)
    t1

/-- The data-model invariant of a tensor: positive extents and a buffer of rows*cols cells,
as `_create_tensor` establishes it. -/
def Tensor.WF {α : Type} (t : Tensor α) : Prop :=
  0 < t.rows ∧ 0 < t.cols ∧ t.data.length = t.rows * t.cols

instance Tensor.decidableWF {α : Type} (t : Tensor α) : Decidable t.WF := by
  unfold Tensor.WF; infer_instance

/-! ## activations.h / activations.c -/

/-- The C enum activation_function. -/
inductive activation_function where
  | RELU
  | SIGMOID
  | SOFTMAX
  | LINEAR
  deriving DecidableEq, Repr

/-- The C struct Activation: two function pointers and the variant tag. -/
structure Activation (α : Type) where
  forward_inplace : Tensor α → Tensor α
  backward : Tensor α → Option (Tensor α)
  func : activation_function

/-- C function _apply_relu_to_element. -/
def _apply_relu_to_element {α : Type} [Zero α] [LT α] [∀ a b : α, Decidable (a < b)]
    [Mul α] [OfScientific α] (x : α) : α :=
  if x > 0 then x else 0.01 * x

/-- C function _apply_d_relu_to_element. -/
def _apply_d_relu_to_element {α : Type} [Zero α] [LT α] [∀ a b : α, Decidable (a < b)]
    [OfScientific α] (x : α) : α :=
  if x > 0 then 1.0 else 0.01

/-- C function _relu_inplace. -/
def _relu_inplace {α : Type} [Inhabited α] [Zero α] [LT α] [∀ a b : α, Decidable (a < b)]
    [Mul α] [OfScientific α] (t : Tensor α) : Tensor α :=
  tensor_apply_func_inplace t _apply_relu_to_element

/-- C function _d_relu. -/
def _d_relu {α : Type} [Inhabited α] [Zero α] [LT α] [∀ a b : α, Decidable (a < b)]
    [OfScientific α] (t : Tensor α) : Option (Tensor α) :=
  match tensor_deepcopy t with
  | none => none
  | some res => some (tensor_apply_func_inplace res _apply_d_relu_to_element)

/-- C function _sigmoid_inplace: prints a notice and leaves the tensor as it is. No case of
create_activation installs it. -/
def _sigmoid_inplace {α : Type} (t : Tensor α) : Tensor α := t

/-- C function _d_sigmoid: prints a notice and returns `NULL`. No case of create_activation
installs it. -/
def _d_sigmoid {α : Type} (_t : Tensor α) : Option (Tensor α) := none

/-- C function _softmax_inplace: prints a notice and leaves the tensor as it is. No case of
create_activation installs it. -/
def _softmax_inplace {α : Type} (t : Tensor α) : Tensor α := t

/-- C function _d_softmax: prints a notice and returns `NULL`. No case of create_activation
installs it. -/
def _d_softmax {α : Type} (_t : Tensor α) : Option (Tensor α) := none

/-- C function _linear_inplace. -/
def _linear_inplace {α : Type} (t : Tensor α) : Tensor α := t

/-- C function _apply_d_linear_element. -/
def _apply_d_linear_element {α : Type} [OfScientific α] (_x : α) : α := 1.0

/-- C function _d_linear. -/
def _d_linear {α : Type} [Inhabited α] [OfScientific α] (t : Tensor α) : Option (Tensor α) :=
  match tensor_deepcopy t with
  | none => none
  | some res => some (tensor_apply_func_inplace res _apply_d_linear_element)

/-- C function create_activation: `RELU` and `LINEAR` have a case of their own, every other
tag takes the `default:` branch, which installs the ReLU pair. -/
def create_activation {α : Type} [Inhabited α] [Zero α] [LT α]
    [∀ a b : α, Decidable (a < b)] [Mul α] [OfScientific α]
    (func : activation_function) : Activation α :=
  match func with
  | .RELU => { forward_inplace := _relu_inplace, backward := _d_relu, func := func }
  | .LINEAR => { forward_inplace := _linear_inplace, backward := _d_linear, func := func }
  | _ => { forward_inplace := _relu_inplace, backward := _d_relu, func := func }

/-! ## loss.h / loss.c -/

/-- The C enum loss_function_type. -/
inductive loss_function_type where
  | MSE
  | CATEGORICAL_CROSSENTROPY
  deriving DecidableEq, Repr

/-- The C struct Loss. -/
structure Loss (α : Type) where
  loss : Tensor α → Tensor α → α
  derivative : Tensor α → Tensor α → Option (Tensor α)
  type : loss_function_type

/-- C function _mse_loss. -/
def _mse_loss {α : Type} [Inhabited α] [Zero α] [Add α] [Sub α] [Mul α] [Div α] [NatCast α]
    (pred target : Tensor α) : α :=
  if pred.cols ≠ target.cols ∨ pred.rows ≠ target.rows then 0
  else
    let error := for_range pred.rows (fun input error =>
      for_range pred.cols (fun output_feature error =>
        error + (target.cell input output_feature - pred.cell input output_feature)
              * (target.cell input output_feature - pred.cell input output_feature)) error)
      (0 : α)
    error / ((pred.cols * pred.rows : Nat) : α)

/-- C function _mse_derivative. -/
def _mse_derivative {α : Type} [Inhabited α] [Sub α] [Mul α] [Div α] [NatCast α]
    [OfScientific α] (pred target : Tensor α) : Option (Tensor α) :=
  if pred.cols ≠ target.cols ∨ pred.rows ≠ target.rows then none
  else
    match tensor_deepcopy pred with
    | none => none
    | some res =>
      let factor : α := 2.0 / ((pred.cols * pred.rows : Nat) : α)
      some (for_range pred.rows (fun input res =>
        for_range pred.cols (fun output_feature res =>
          res.write (input * pred.cols + output_feature)
            (factor * (pred.cell input output_feature - target.cell input output_feature)))
          res)
        res)

/-- C function create_loss: both the `MSE` case and the `default:` branch install the MSE
pair. -/
def create_loss {α : Type} [Inhabited α] [Zero α] [Add α] [Sub α] [Mul α] [Div α]
    [NatCast α] [OfScientific α] (func : loss_function_type) : Loss α :=
  match func with
  | .MSE => { loss := _mse_loss, derivative := _mse_derivative, type := func }
  | _ => { loss := _mse_loss, derivative := _mse_derivative, type := func }

/-! ## layer.h / layer.c -/

/-- The C struct Layer. -/
structure Layer (α : Type) where
  n_neurons : Int
  n_neurons_prev : Int
  weights : Tensor α
  biases : Tensor α
  activation : Activation α
  d_weights : Option (Tensor α)
  d_biases : Option (Tensor α)
  input_transpose_cache : Option (Tensor α)
  z_cache : Option (Tensor α)

/-- C function _random_float_range; `scale` is the value of `(float)rand() / (float)RAND_MAX`
for this draw. -/
def _random_float_range {α : Type} [Add α] [Sub α] [Mul α] (scale min max : α) : α :=
  min + scale * (max - min)

/-- C function create_tensor_random; `rand n` is the value of
`(float)rand() / (float)RAND_MAX` at the n-th draw of this call. -/
def create_tensor_random {α : Type} [Inhabited α] [LT α] [∀ a b : α, Decidable (a < b)]
    [Add α] [Sub α] [Mul α] (rand : Nat → α) (rows cols : Int) (min max : α) :
    Option (Tensor α) :=
  if min > max then none
  else
    match (_create_tensor rows cols : Option (Tensor α)) with
    | none => none
    | some uninit_tensor =>
      some (for_range uninit_tensor.rows (fun i t =>
        for_range uninit_tensor.cols (fun j t =>
          t.write (i * cols.toNat + j)
            (_random_float_range (rand (i * uninit_tensor.cols + j)) min max)) t)
        uninit_tensor)

/-- C function create_layer; `sqrt` is the C library function and `rand` the random source
of this call. -/
def create_layer {α : Type} [Inhabited α] [Zero α] [LT α] [∀ a b : α, Decidable (a < b)]
    [Add α] [Sub α] [Mul α] [Div α] [Neg α] [IntCast α] [OfScientific α]
    (sqrt : α → α) (rand : Nat → α)
    (n_neurons prev_n_neurons : Int) (act_func_name : activation_function) :
    Option (Layer α) :=
  if n_neurons ≤ 0 ∨ prev_n_neurons ≤ 0 then none
  else
    let limit : α := sqrt (6.0 / (prev_n_neurons : α))
    match create_tensor_random rand prev_n_neurons n_neurons (-limit) limit with
    | none => none
    | some weights =>
      match create_tensor_value 1 n_neurons (0.01 : α) with
      | none => none
      | some biases =>
        some { n_neurons := n_neurons, n_neurons_prev := prev_n_neurons,
               weights := weights, biases := biases,
               d_weights := none, d_biases := none,
               input_transpose_cache := none, z_cache := none,
               activation := create_activation act_func_name }

/-- C function forward_pass: the returned tensor (or `none` for `NULL`) and the new value of
`*layer`. -/
def forward_pass {α : Type} [Inhabited α] [Zero α] [Add α] [Mul α]
    (layer : Layer α) (input : Tensor α) : Option (Tensor α) × Layer α :=
  match tensor_transpose input with
  | none => (none, { layer with input_transpose_cache := none })
  | some input_transpose =>
    let layer := { layer with input_transpose_cache := some input_transpose }
    match tensor_multiplication input layer.weights with
    | none => (none, layer)
    | some z =>
      let z := tensor_row_addition_inplace z layer.biases
      let layer := { layer with z_cache := some z }
      match tensor_deepcopy z with
      | none => (none, layer)
      | some res => (some (layer.activation.forward_inplace res), layer)

/-- C function backward_pass: the returned tensor (or `none` for `NULL`) and the new value of
`*layer`. -/
def backward_pass {α : Type} [Inhabited α] [Zero α] [Add α] [Mul α]
    (layer : Layer α) (output_gradient : Tensor α) : Option (Tensor α) × Layer α :=
  match layer.z_cache with
  | none => (none, layer)
  | some z_cache =>
    match layer.activation.backward z_cache with
    | none => (none, layer)
    | some a_prime_z =>
      match tensor_multiplication_hadamard output_gradient a_prime_z with
      | none => (none, layer)
      | some dz =>
        match layer.input_transpose_cache with
        | none => (none, layer)
        | some input_transpose_cache =>
          let layer := { layer with d_weights := tensor_multiplication input_transpose_cache dz }
          let layer := { layer with d_biases := tensor_add_cols dz }
          match tensor_transpose layer.weights with
          | none => (none, layer)
          | some wt =>
            match tensor_multiplication dz wt with
            | none => (none, layer)
            | some dx => (some dx, layer)

/-- The data-model invariant of a layer: weights of shape n_neurons_prev × n_neurons and
biases of shape 1 × n_neurons, as create_layer establishes it. -/
def Layer.WF {α : Type} (l : Layer α) : Prop :=
  l.weights.WF ∧ l.biases.WF ∧ (l.weights.rows : Int) = l.n_neurons_prev ∧
  (l.weights.cols : Int) = l.n_neurons ∧ l.biases.rows = 1 ∧
  (l.biases.cols : Int) = l.n_neurons

/-! ## optimiser.h / optimiser.c -/

/-- The C enum OptimiserType. -/
inductive OptimiserType where
  | SGD
  | SGD_MOMENTUM
  | ADAM
  deriving DecidableEq, Repr

/-- The C struct Optimiser. -/
structure Optimiser (α : Type) where
  type : OptimiserType
  learning_rate : α
  beta1 : α
  beta2 : α
  epsilon : α
  time_step : Int

/-- C function create_optimiser. -/
def create_optimiser {α : Type} [Zero α] [LT α] [∀ a b : α, Decidable (a < b)]
    (type : OptimiserType) (lr : α) : Option (Optimiser α) :=
  if lr < 0 then none
  else some { type := type, learning_rate := lr, beta1 := 0, beta2 := 0, epsilon := 0,
              time_step := 0 }

/-- C function _sgd_update; the result is the new value of `*layer`. -/
def _sgd_update {α : Type} [Inhabited α] [Add α] [Mul α] [Neg α]
    (opt : Optimiser α) (layer : Layer α) : Layer α :=
  let layer := { layer with
    weights := tensor_add_scaled_inplace layer.weights layer.d_weights (-opt.learning_rate) }
  { layer with
    biases := tensor_add_scaled_inplace layer.biases layer.d_biases (-opt.learning_rate) }

/-- C function _sgd_m_update. -/
def _sgd_m_update {α : Type} (_opt : Optimiser α) (layer : Layer α) (_layer_idx : Int) :
    Layer α := layer

/-- C function _adam_update. -/
def _adam_update {α : Type} (_opt : Optimiser α) (layer : Layer α) (_layer_idx : Int) :
    Layer α := layer

/-- C function optimiser_update; the result is the new value of `*layer`. -/
def optimiser_update {α : Type} [Inhabited α] [Add α] [Mul α] [Neg α]
    (opt : Optimiser α) (layer : Layer α) (layer_index : Int) : Layer α :=
  match opt.type with
  | .SGD => _sgd_update opt layer
  | .SGD_MOMENTUM => _sgd_m_update opt layer layer_index
  | .ADAM => _adam_update opt layer layer_index

/-! ## network.h / network.c -/

/-- The C macro INITIAL_NETWORK_SIZE. -/
def INITIAL_NETWORK_SIZE : Int := 4

/-- The C struct Network. The array `layers` is the list of its first `n_layers` slots, so
`n_layers` is the length of the list. -/
structure Network (α : Type) where
  layers : List (Layer α)
  input_feature_size : Int
  capacity : Int
  loss_func : Loss α
  optimiser : Optimiser α

/-- The C field n_layers. -/
def Network.n_layers {α : Type} (net : Network α) : Nat := net.layers.length

/-- The write `net->layers[i] = layer`. -/
def Network.setLayer {α : Type} (net : Network α) (i : Nat) (layer : Layer α) : Network α :=
  { net with layers := net.layers.set i layer }

/-- C function create_network. -/
def create_network {α : Type} [Inhabited α] [Zero α] [LT α] [∀ a b : α, Decidable (a < b)]
    [Add α] [Sub α] [Mul α] [Div α] [NatCast α] [OfScientific α]
    (input_feature_size : Int) (loss_type : loss_function_type) (opt_type : OptimiserType)
    (lr : α) : Option (Network α) :=
  if input_feature_size ≤ 0 then none
  else
    match create_optimiser opt_type lr with
    | none => none
    | some optimiser =>
      some { layers := [], input_feature_size := input_feature_size,
             capacity := INITIAL_NETWORK_SIZE,
             loss_func := create_loss loss_type, optimiser := optimiser }

/-- C function network_add_layer: the returned flag and the new value of `*net`. The product
`capacity * 1.5` is exact in double precision and the cast to int truncates toward zero. -/
def network_add_layer {α : Type} [Inhabited α] [Zero α] [LT α] [∀ a b : α, Decidable (a < b)]
    [Add α] [Sub α] [Mul α] [Div α] [Neg α] [IntCast α] [OfScientific α]
    (sqrt : α → α) (rand : Nat → α)
    (net : Network α) (n_neurons : Int) (func : activation_function) : Int × Network α :=
  let idx_layer := net.n_layers
  let n_prev_neurons : Int :=
    if idx_layer = 0 then net.input_feature_size
    else match net.layers.get? (idx_layer - 1) with
      | some prev => prev.n_neurons
      | none => 0
  match create_layer sqrt rand n_neurons n_prev_neurons func with
  | none => (0, net)
  | some new_layer =>
    let net :=
      if (idx_layer : Int) = net.capacity then
        let new_capacity := Int.tdiv (net.capacity * 3) 2
        { net with capacity := new_capacity }
      else net
    (1, { net with layers := net.layers ++ [new_layer] })

/-- C function network_predict: the returned tensor (or `none` for `NULL`) and the new value
of `*net`. The loop state is the pending input (`none` once the loop has returned `NULL`)
and the network. -/
def network_predict {α : Type} [Inhabited α] [Zero α] [Add α] [Mul α]
    (net : Network α) (input : Tensor α) : Option (Tensor α) × Network α :=
  if net.n_layers = 0 ∨ (input.cols : Int) ≠ net.input_feature_size then (none, net)
  else
    for_range net.n_layers (fun layer_idx st =>
      match st with
      | (none, net) => (none, net)
      | (some input_for_current_layer, net) =>
        match net.layers.get? layer_idx with
        | none => (none, net)
        | some layer =>
          match forward_pass layer input_for_current_layer with
          | (none, layer) => (none, net.setLayer layer_idx layer)
          | (some input_for_next_layer, layer) =>
            (some input_for_next_layer, net.setLayer layer_idx layer))
      (some input, net)

/-- The backward loop of network_train, `for (i = n_layers - 1; i >= 0; i--)`: the state is
the pending gradient (`none` once a backward_pass has failed) and the network. -/
def backward_loop {α : Type} [Inhabited α] [Zero α] [Add α] [Mul α]
    (net : Network α) (prev_grad : Tensor α) : Option (Tensor α) × Network α :=
  for_range net.n_layers (fun step st =>
    let i := net.n_layers - 1 - step
    match st with
    | (none, net) => (none, net)
    | (some prev_grad, net) =>
      match net.layers.get? i with
      | none => (none, net)
      | some layer =>
        match backward_pass layer prev_grad with
        | (none, layer) => (none, net.setLayer i layer)
        | (some grad, layer) => (some grad, net.setLayer i layer))
    (some prev_grad, net)

/-- The update loop of network_train,
`for (i = 0; i < n_layers; i++) optimiser_update(optimiser, layers[i], i)`. -/
def update_loop {α : Type} [Inhabited α] [Add α] [Mul α] [Neg α]
    (net : Network α) : Network α :=
  for_range net.n_layers (fun i net =>
    match net.layers.get? i with
    | none => net
    | some layer => net.setLayer i (optimiser_update net.optimiser layer i))
    net

/-- The body of the batch loop of network_train for one batch: `none` when the body
executes `return 0`, else the value of `current_loss`; and the new value of `*net`. -/
def train_batch {α : Type} [Inhabited α] [Zero α] [Add α] [Mul α] [Neg α]
    (net : Network α) (x y : Tensor α) : Option α × Network α :=
  match network_predict net x with
  | (none, net) => (none, net)
  | (some pred, net) =>
    let current_loss := net.loss_func.loss pred y
    match net.loss_func.derivative pred y with
    | none => (none, net)
    | some prev_grad =>
      match backward_loop net prev_grad with
      | (none, net) => (none, net)
      | (some _, net) => (some current_loss, update_loop net)

/-- The batch loop of network_train for one epoch: `none` when it executes `return 0`, else
the final `epoch_loss`; and the new value of `*net`. Reading `x_train` or `y_train` past its
end counts as a failure. -/
def train_epoch {α : Type} [Inhabited α] [Zero α] [Add α] [Mul α] [Neg α]
    (net : Network α) (x_train y_train : List (Tensor α)) (number_of_batches : Int) :
    Option α × Network α :=
  for_range number_of_batches.toNat (fun batch_idx st =>
    match st with
    | (none, net) => (none, net)
    | (some epoch_loss, net) =>
      match x_train.get? batch_idx, y_train.get? batch_idx with
      | some x, some y =>
        match train_batch net x y with
        | (none, net) => (none, net)
        | (some current_loss, net) => (some (epoch_loss + current_loss), net)
      | _, _ => (none, net))
    (some (0 : α), net)

/-- C function network_train: the returned flag, the new value of `*net`, and the
`epoch_loss` of every completed epoch, oldest first (the quantity the progress report
prints an average of). The flag in the loop state is 0 once the epoch loop has executed
`return 0`. Reading `x_train[0]` of an empty array counts as a failure. -/
def network_train {α : Type} [Inhabited α] [Zero α] [Add α] [Mul α] [Neg α]
    (net : Network α) (x_train y_train : List (Tensor α)) (number_of_batches : Int)
    (epochs : Int) : Int × Network α × List α :=
  if epochs ≤ 0 then (0, net, [])
  else
    match x_train.get? 0 with
    | none => (0, net, [])
    | some x0 =>
      if net.input_feature_size ≠ (x0.cols : Int) then (0, net, [])
      else
        for_range epochs.toNat (fun _e st =>
          match st with
          | (0, net, log) => (0, net, log)
          | (_, net, log) =>
            match train_epoch net x_train y_train number_of_batches with
            | (none, net) => (0, net, log)
            | (some epoch_loss, net) => (1, net, log ++ [epoch_loss]))
          (1, net, [])

instance Layer.decidableWF {α : Type} (l : Layer α) : Decidable l.WF := by
  unfold Layer.WF; infer_instance

/-! ## Sample values on which the theorems are evaluated -/

/-- A 3 × 2 weight matrix. -/
def sample_weights : Tensor ℚ := { data := [1, 2, 3, 4, 5, 6], rows := 3, cols := 2 }

/-- A 1 × 2 bias row. -/
def sample_biases : Tensor ℚ := { data := [1 / 2, -1], rows := 1, cols := 2 }

/-- A fresh layer with 3 inputs and 2 neurons. -/
def sample_layer (func : activation_function) : Layer ℚ :=
  { n_neurons := 2, n_neurons_prev := 3, weights := sample_weights, biases := sample_biases,
    activation := create_activation func, d_weights := none, d_biases := none,
    input_transpose_cache := none, z_cache := none }

/-- A batch of two samples with 3 features. -/
def sample_input : Tensor ℚ := { data := [1, 0, 2, -1, 1, 0], rows := 2, cols := 3 }

/-- An output gradient for a batch of two samples and 2 neurons. -/
def sample_gradient : Tensor ℚ := { data := [1, -2, 0, 3], rows := 2, cols := 2 }

/-- The pre-activation values of `sample_layer` on `sample_input`. -/
def sample_z : Tensor ℚ := { data := [23 / 2, 13, 5 / 2, 1], rows := 2, cols := 2 }

/-- The value of `sample_layer` after a forward pass on `sample_input`. -/
def sample_layer_ready (func : activation_function) : Layer ℚ :=
  { sample_layer func with
    input_transpose_cache := some { data := [1, -1, 0, 1, 2, 0], rows := 3, cols := 2 },
    z_cache := some sample_z }

/-- A gradient of the shape of `sample_weights`. -/
def sample_d_weights : Tensor ℚ := { data := [1, -1, 0, 2, 4, 0], rows := 3, cols := 2 }

/-- A gradient of the shape of `sample_biases`. -/
def sample_d_biases : Tensor ℚ := { data := [3, -2], rows := 1, cols := 2 }

/-- The value of `sample_layer` with both gradients present. -/
def sample_layer_graded (func : activation_function) : Layer ℚ :=
  { sample_layer_ready func with
    d_weights := some sample_d_weights, d_biases := some sample_d_biases }

/-- An SGD optimiser with learning rate 0.01. -/
def sample_sgd : Optimiser ℚ :=
  { type := .SGD, learning_rate := 1 / 100, beta1 := 0, beta2 := 0, epsilon := 0,
    time_step := 0 }

/-! ## The loops of network.c by recursion on the list of layers

These restate the three layer loops of network.c without indices; the theorems
`network_predict_eq_chain`, `backward_loop_eq_chain` and `update_loop_eq_map` show that the
loops above compute them. -/

/-- The forward loop `for (layer_idx = 0; layer_idx < n_layers; layer_idx++)`: the last
output (`none` after a failed forward_pass) and the new values of the layers. -/
def forward_chain {α : Type} [Inhabited α] [Zero α] [Add α] [Mul α] :
    List (Layer α) → Tensor α → Option (Tensor α) × List (Layer α)
  | [], x => (some x, [])
  | l :: ls, x =>
    match forward_pass l x with
    | (none, l1) => (none, l1 :: ls)
    | (some y, l1) => ((forward_chain ls y).1, l1 :: (forward_chain ls y).2)

/-- The backward loop `for (i = n_layers - 1; i >= 0; i--)`: the last gradient (`none` after
a failed backward_pass) and the new values of the layers. -/
def backward_chain {α : Type} [Inhabited α] [Zero α] [Add α] [Mul α] :
    List (Layer α) → Tensor α → Option (Tensor α) × List (Layer α)
  | [], g => (some g, [])
  | l :: ls, g =>
    match backward_chain ls g with
    | (none, ls1) => (none, l :: ls1)
    | (some g1, ls1) => ((backward_pass l g1).1, (backward_pass l g1).2 :: ls1)

/-- A fresh output layer with 2 inputs and 1 neuron. -/
def sample_layer_out : Layer ℚ :=
  { n_neurons := 1, n_neurons_prev := 2,
    weights := { data := [1, -1], rows := 2, cols := 1 },
    biases := { data := [1 / 4], rows := 1, cols := 1 },
    activation := create_activation .LINEAR, d_weights := none, d_biases := none,
    input_transpose_cache := none, z_cache := none }

/-- A network of two layers (3 → 2 → 1) with MSE loss and SGD. -/
def sample_network : Network ℚ :=
  { layers := [sample_layer .RELU, sample_layer_out], input_feature_size := 3,
    capacity := 4, loss_func := create_loss .MSE, optimiser := sample_sgd }

/-- The layer-chaining invariant of the data model: layer 0 takes input_feature_size inputs
and every later layer takes as many inputs as the layer before it has neurons. -/
def Network.Chained {α : Type} (net : Network α) : Prop :=
  (∀ l, net.layers[0]? = some l → l.n_neurons_prev = net.input_feature_size) ∧
  ∀ i p l, net.layers[i]? = some p → net.layers[i + 1]? = some l →
    l.n_neurons_prev = p.n_neurons

/-- The networks reachable from create_network by a sequence of network_add_layer calls,
for any arguments and any draws of the random source. -/
inductive Network.Reachable {α : Type} [Inhabited α] [LinearOrderedField α]
    (sqrt : α → α) : Network α → Prop where
  | create (input_feature_size : Int) (loss_type : loss_function_type)
      (opt_type : OptimiserType) (lr : α) (net : Network α) :
      create_network input_feature_size loss_type opt_type lr = some net →
      Network.Reachable sqrt net
  | add_layer (net : Network α) (rand : Nat → α) (n_neurons : Int)
      (func : activation_function) :
      Network.Reachable sqrt net →
      Network.Reachable sqrt (network_add_layer sqrt rand net n_neurons func).2

/-- The network `create_network 3 MSE SGD 0.01` returns. -/
def sample_empty_network : Network ℚ :=
  { layers := [], input_feature_size := 3, capacity := INITIAL_NETWORK_SIZE,
    loss_func := create_loss .MSE, optimiser := sample_sgd }

/-- A target for `sample_network` on `sample_input`: two samples, one output. -/
def sample_target : Tensor ℚ := { data := [1, 0], rows := 2, cols := 1 }

/-! ## Gradient descent on a squared residual

The quantities in which the loss-decrease theorem of network_train is proved: `X` is the
m × n batch, `E` the m × n residual `prediction - target` of a one-layer linear network. -/

/-- The weight part of the gradient, `transpose(X) @ E`. -/
def gd_G {α : Type} [Field α] (m : Nat) (X E : Nat → Nat → α) (k j : Nat) : α :=
  ∑ i in Finset.range m, X i k * E i j

/-- The bias part of the gradient, the column sums of `E`. -/
def gd_H {α : Type} [Field α] (m : Nat) (E : Nat → Nat → α) (j : Nat) : α :=
  ∑ i in Finset.range m, E i j

/-- The change of the prediction along the gradient, `X @ G + H`. -/
def gd_P {α : Type} [Field α] (m n : Nat) (X E : Nat → Nat → α) (i j : Nat) : α :=
  ∑ k in Finset.range n, X i k * gd_G m X E k j + gd_H m E j

/-- The squared norm of the gradient. -/
def gd_N {α : Type} [Field α] (m n : Nat) (X E : Nat → Nat → α) : α :=
  ∑ j in Finset.range n, (∑ k in Finset.range n, gd_G m X E k j ^ 2 + gd_H m E j ^ 2)

/-- The sum of the squared residuals. -/
def gd_SS {α : Type} [Field α] (m n : Nat) (E : Nat → Nat → α) : α :=
  ∑ i in Finset.range m, ∑ j in Finset.range n, E i j ^ 2

/-- The residual after one descent step of size `c`. -/
def gd_step {α : Type} [Field α] (m n : Nat) (X E : Nat → Nat → α) (c : α) (i j : Nat) : α :=
  E i j - c * gd_P m n X E i j

/-- The residual `prediction - X` of a layer on the batch `X` taken as its own target. -/
def layer_resid {α : Type} [Inhabited α] [Field α] (X : Tensor α) (l : Layer α)
    (i j : Nat) : α :=
  (∑ k in Finset.range X.cols, X.cell i k * l.weights.cell k j) + l.biases.cell 0 j
    - X.cell i j

/-- A network that consists of the single Linear layer `l`, of as many neurons as the batch
`X` has features, with MSE loss and SGD. -/
def Network.OneLinearLayer {α : Type} [Inhabited α] [LinearOrderedField α]
    (net : Network α) (l : Layer α) (X : Tensor α) : Prop :=
  net.layers = [l] ∧ net.input_feature_size = (X.cols : Int) ∧
  (∃ lt, net.loss_func = create_loss lt) ∧ net.optimiser.type = .SGD ∧
  l.WF ∧ l.activation = create_activation .LINEAR ∧
  l.weights.rows = X.cols ∧ l.weights.cols = X.cols

/-- A fresh Linear layer with 3 inputs and 3 neurons, with the given weights and biases. -/
def square_layer (w b : List ℚ) : Layer ℚ :=
  { n_neurons := 3, n_neurons_prev := 3,
    weights := { data := w, rows := 3, cols := 3 },
    biases := { data := b, rows := 1, cols := 3 },
    activation := create_activation .LINEAR, d_weights := none, d_biases := none,
    input_transpose_cache := none, z_cache := none }

/-- The network of C10: input_feature_size 3, the single layer `square_layer w b`, MSE loss
and SGD with learning rate 0.01. -/
def square_network (w b : List ℚ) : Network ℚ :=
  { layers := [square_layer w b], input_feature_size := 3, capacity := INITIAL_NETWORK_SIZE,
    loss_func := create_loss .MSE, optimiser := sample_sgd }

/-- A 4 × 3 batch: the three unit rows and the row of ones. -/
def batch_unit : Tensor ℚ :=
  { data := [1, 0, 0, 0, 1, 0, 0, 0, 1, 1, 1, 1], rows := 4, cols := 3 }

/-- A stand-in for `sqrt` on ℚ that is exact at 1, the value of 6/k for k = 6. -/
def sample_sqrt : ℚ → ℚ := fun _ => 1

/-- A random source on ℚ that alternates between 1 and 1/4. -/
def sample_rand : Nat → ℚ := fun m => if m % 2 = 0 then 1 else 1 / 4

/-- The tensor `r` has the shape and buffer length of `t1` and holds `rule i j` in every cell
(i, j): the outcome of an in-place operation on `t1` that rewrites each cell once. -/
def Tensor.UpdatedBy {α : Type} [Inhabited α] (r t1 : Tensor α) (rule : Nat → Nat → α) :
    Prop :=
  r.rows = t1.rows ∧ r.cols = t1.cols ∧ r.data.length = t1.data.length ∧
  ∀ i j, i < t1.rows → j < t1.cols → r.cell i j = rule i j

/-- A 2 × 3 input whose first row drives both neurons of `sample_layer` negative. -/
def sample_input_signed : Tensor ℚ := { data := [-1, 0, 0, 1, 0, 2], rows := 2, cols := 3 }

/-- The trainable parameters of a network: the weights and biases of every layer, in
order. -/
def Network.params {α : Type} (net : Network α) : List (Tensor α × Tensor α) :=
  net.layers.map (fun l => (l.weights, l.biases))

/-- The sample network after one successful batch step on (sample_input, sample_target). -/
def sample_net_step1 : Network ℚ := (train_batch sample_network sample_input sample_target).2

/-- The network left by a second batch step whose target, 2 × 2, does not have the shape
2 × 1 of the prediction. -/
def sample_net_failed : Network ℚ :=
  (train_batch sample_net_step1 sample_input sample_gradient).2

/-- The layer with both caches dropped: what a layer is apart from input_transpose_cache
and z_cache. -/
def Layer.clearCaches {α : Type} (l : Layer α) : Layer α :=
  { l with input_transpose_cache := none, z_cache := none }

/-- The network after four network_add_layer calls (3 → 2 → 2 → 2 → 2) on
`create_network 3 MSE SGD 0.01`: its four slots are full. -/
def sample_network_full : Network ℚ :=
  (network_add_layer sample_sqrt sample_rand
    (network_add_layer sample_sqrt sample_rand
      (network_add_layer sample_sqrt sample_rand
        (network_add_layer sample_sqrt sample_rand sample_empty_network 2 .RELU).2
        2 .RELU).2
      2 .RELU).2
    2 .LINEAR).2

/-- The layer `sample_layer RELU` after a forward_pass on `sample_input` (2 × 3), a
forward_pass on `sample_gradient` (2 × 2, rejected, which replaces input_transpose_cache),
and a backward_pass on `sample_gradient` (which succeeds): its d_weights is 2 × 2 while its
weights are 3 × 2. -/
def sample_layer_stale : Layer ℚ :=
  (backward_pass
    (forward_pass (forward_pass (sample_layer .RELU) sample_input).2 sample_gradient).2
    sample_gradient).2

/-- The sample network with an ADAM optimiser in place of SGD. -/
def sample_network_adam : Network ℚ :=
  { sample_network with optimiser := { sample_sgd with type := .ADAM } }

/-! ## C float (IEEE 754 binary32) -/

/-- A value of the C type float (IEEE 754 binary32): a finite value `fin q` (with `fin 0`
the zero +0), the zero -0, an infinity with its sign, or a NaN (payloads are not kept). The
finite values the operations below produce are the rationals m * 2^e with m below 2^24 and
e from -149 to 104. Every C operation on floats is one operation below: it rounds its exact
result to float on its own (FLT_EVAL_METHOD 0, no fused multiply-add), in the default
rounding mode, to nearest with ties to even. -/
inductive F32 where
  | fin (q : ℚ)
  | negZero
  | inf (neg : Bool)
  | nan
  deriving DecidableEq

/-- The rational 2^e. -/
def F32.pow2 (e : Int) : ℚ :=
  if 0 ≤ e then ((2 ^ e.toNat : Nat) : ℚ) else 1 / ((2 ^ (-e).toNat : Nat) : ℚ)

/-- The loop `while (n >= 2) { n = n / 2; count++; }`, run for at most `fuel` rounds. -/
def F32.log2Loop : Nat → Nat → Nat
  | 0, _ => 0
  | fuel + 1, n => if n < 2 then 0 else F32.log2Loop fuel (n / 2) + 1

/-- The exponent of a positive natural number n: the k with 2^k ≤ n < 2^(k+1). -/
def F32.log2 (n : Nat) : Nat := F32.log2Loop n n

/-- The exponent of a positive rational q: the e with 2^e ≤ q < 2^(e+1). -/
def F32.exponent (q : ℚ) : Int :=
  let e0 : Int := (F32.log2 q.num.natAbs : Int) - (F32.log2 q.den : Int)
  if F32.pow2 e0 ≤ q then e0 else e0 - 1

/-- Rounding of an exact non-zero result q to float, to nearest with ties to even: the
significand keeps 24 bits, the exponent is at least -126 (below it the values are the
subnormal multiples of 2^-149), a rounded magnitude of 2^128 or more is an infinity, and a
result rounded to zero keeps the sign of q. -/
def F32.round (q : ℚ) : F32 :=
  if q = 0 then F32.fin 0
  else
    let ulp := F32.pow2 (max (F32.exponent |q|) (-126) - 23)
    let r := |q| / ulp
    let n : Nat := r.num.natAbs / r.den
    let rest : ℚ := r - (n : ℚ)
    let m : Nat :=
      if rest < 1 / 2 then n
      else if 1 / 2 < rest then n + 1
      else if n % 2 = 0 then n else n + 1
    let v : ℚ := (m : ℚ) * ulp
    if F32.pow2 128 ≤ v then F32.inf (decide (q < 0))
    else if m = 0 then (if q < 0 then F32.negZero else F32.fin 0)
    else F32.fin (if q < 0 then -v else v)

/-- The sign bit of a float that is not a NaN. -/
def F32.sign : F32 → Bool
  | .fin q => decide (q < 0)
  | .negZero => true
  | .inf neg => neg
  | .nan => false

/-- A zero with the given sign bit. -/
def F32.zero (neg : Bool) : F32 := if neg then F32.negZero else F32.fin 0

/-- The float is a zero. -/
def F32.isZero : F32 → Bool
  | .fin q => decide (q = 0)
  | .negZero => true
  | _ => false

/-- The float is neither an infinity nor a NaN. -/
def F32.isFinite : F32 → Bool
  | .fin _ => true
  | .negZero => true
  | _ => false

/-- The value of a finite float as a rational (0 for the others). -/
def F32.toRat : F32 → ℚ
  | .fin q => q
  | _ => 0

/-- C operator `+` on float. An exact sum of zero is +0 unless both operands are -0. -/
def F32.add : F32 → F32 → F32
  | .nan, _ => .nan
  | _, .nan => .nan
  | .inf s, .inf t => if s = t then .inf s else .nan
  | .inf s, _ => .inf s
  | _, .inf t => .inf t
  | .negZero, y => y
  | x, .negZero => x
  | .fin a, .fin b => F32.round (a + b)

/-- C unary operator `-` on float. -/
def F32.neg : F32 → F32
  | .fin q => if q = 0 then .negZero else .fin (-q)
  | .negZero => .fin 0
  | .inf s => .inf (!s)
  | .nan => .nan

/-- C operator `-` on float. -/
def F32.sub (x y : F32) : F32 := F32.add x (F32.neg y)

/-- C operator `*` on float. -/
def F32.mul (x y : F32) : F32 :=
  match x, y with
  | .nan, _ => .nan
  | _, .nan => .nan
  | .inf s, y => if y.isZero then .nan else .inf (xor s y.sign)
  | x, .inf t => if x.isZero then .nan else .inf (xor x.sign t)
  | x, y =>
    if x.isZero ∨ y.isZero then F32.zero (xor x.sign y.sign)
    else F32.round (x.toRat * y.toRat)

/-- C operator `/` on float. -/
def F32.div (x y : F32) : F32 :=
  match x, y with
  | .nan, _ => .nan
  | _, .nan => .nan
  | .inf _, .inf _ => .nan
  | .inf s, y => .inf (xor s y.sign)
  | x, .inf t => F32.zero (xor x.sign t)
  | x, y =>
    if y.isZero then (if x.isZero then .nan else .inf (xor x.sign y.sign))
    else if x.isZero then F32.zero (xor x.sign y.sign)
    else F32.round (x.toRat / y.toRat)

/-- C operator `<` on float: false when an operand is a NaN; the two zeros are equal. -/
def F32.lt : F32 → F32 → Prop
  | .nan, _ => False
  | _, .nan => False
  | .inf s, .inf t => s = true ∧ t = false
  | .inf s, _ => s = true
  | _, .inf t => t = false
  | x, y => x.toRat < y.toRat

instance F32.instInhabited : Inhabited F32 := ⟨F32.fin 0⟩

instance F32.instZero : Zero F32 := ⟨F32.fin 0⟩

instance F32.instAdd : Add F32 := ⟨F32.add⟩

instance F32.instNeg : Neg F32 := ⟨F32.neg⟩

instance F32.instSub : Sub F32 := ⟨F32.sub⟩

instance F32.instMul : Mul F32 := ⟨F32.mul⟩

instance F32.instDiv : Div F32 := ⟨F32.div⟩

instance F32.instLT : LT F32 := ⟨F32.lt⟩

instance F32.decidableLT (x y : F32) : Decidable (x < y) := by
  show Decidable (F32.lt x y)
  unfold F32.lt
  split <;> infer_instance

/-- The conversion `(float)n` of an int. -/
instance F32.instNatCast : NatCast F32 := ⟨fun n => F32.round (n : ℚ)⟩

/-- The conversion `(float)n` of an int. -/
instance F32.instIntCast : IntCast F32 := ⟨fun n => F32.round (n : ℚ)⟩

/-- A decimal float constant such as `0.01f`: the nearest float. -/
instance F32.instOfScientific : OfScientific F32 :=
  ⟨fun m s e => F32.round (OfScientific.ofScientific m s e : ℚ)⟩

section LoopLemmas
variable {α : Type}

theorem for_range_succ {σ : Type} (n : Nat) (body : Nat → σ → σ) (s : σ) :
    for_range (n + 1) body s = body n (for_range n body s) := rfl

theorem Tensor.read_write [Inhabited α] (t : Tensor α) (k idx : Nat) (v : α)
    (hk : k < t.data.length) :
    (t.write k v).read idx = if idx = k then v else t.read idx := by
  unfold Tensor.read Tensor.write
  simp only [List.getD_eq_getElem?_getD, List.getElem?_set]
  by_cases h : idx = k
  · subst h; simp [hk]
  · have h2 : ¬ k = idx := fun e => h e.symm
    simp [h, h2]

theorem for_range_row [Inhabited α] (c i : Nat) (g : Nat → α → α)
    (body : Nat → Tensor α → Tensor α)
    (hbody : ∀ j t, t.cols = c → body j t = t.write (i * c + j) (g j (t.read (i * c + j))))
    (n : Nat) (t : Tensor α) (hc : t.cols = c) (hlen : i * c + n ≤ t.data.length) :
    (for_range n body t).rows = t.rows ∧ (for_range n body t).cols = c ∧
    (for_range n body t).data.length = t.data.length ∧
    ∀ idx, (for_range n body t).read idx =
      if i * c ≤ idx ∧ idx < i * c + n then g (idx - i * c) (t.read idx) else t.read idx := by
  induction n with
  | zero =>
    refine ⟨rfl, hc, rfl, fun idx => ?_⟩
    have : ¬ (i * c ≤ idx ∧ idx < i * c + 0) := by omega
    rw [if_neg this]; rfl
  | succ n ih =>
    obtain ⟨h1, h2, h3, h4⟩ := ih (by omega)
    rw [for_range_succ, hbody n _ h2]
    refine ⟨h1, h2, ?_, fun idx => ?_⟩
    · simp [Tensor.write, h3]
    · rw [Tensor.read_write _ _ _ _ (by omega), h4, h4]
      by_cases hk : idx = i * c + n
      · subst hk
        have e1 : ¬ (i * c ≤ i * c + n ∧ i * c + n < i * c + n) := by omega
        have e2 : (i * c ≤ i * c + n ∧ i * c + n < i * c + (n + 1)) := by omega
        simp [e1, e2]
      · by_cases hin : i * c ≤ idx ∧ idx < i * c + n
        · have e2 : (i * c ≤ idx ∧ idx < i * c + (n + 1)) := by omega
          simp [hk, hin, e2]
        · have e2 : ¬ (i * c ≤ idx ∧ idx < i * c + (n + 1)) := by omega
          simp [hk, hin, e2]

theorem for_range_cells [Inhabited α] (c : Nat) (g : Nat → Nat → α → α)
    (body : Nat → Nat → Tensor α → Tensor α)
    (hbody : ∀ i j t, t.cols = c →
      body i j t = t.write (i * c + j) (g i j (t.read (i * c + j))))
    (m : Nat) (t : Tensor α) (hc : t.cols = c) (hlen : m * c ≤ t.data.length) :
    (for_range m (fun i t => for_range c (body i) t) t).rows = t.rows ∧
    (for_range m (fun i t => for_range c (body i) t) t).cols = c ∧
    (for_range m (fun i t => for_range c (body i) t) t).data.length = t.data.length ∧
    ∀ idx, (for_range m (fun i t => for_range c (body i) t) t).read idx =
      if idx < m * c then g (idx / c) (idx % c) (t.read idx) else t.read idx := by
  induction m with
  | zero =>
    refine ⟨rfl, hc, rfl, fun idx => ?_⟩
    simp [for_range]
  | succ m ih =>
    have hm : m * c + c = (m + 1) * c := by ring
    obtain ⟨h1, h2, h3, h4⟩ := ih (by omega)
    rw [for_range_succ]
    obtain ⟨r1, r2, r3, r4⟩ := for_range_row c m (g m) (body m) (hbody m) c _ h2 (by omega)
    refine ⟨r1.trans h1, r2, r3.trans h3, fun idx => ?_⟩
    rw [r4, h4]
    by_cases hlt : idx < m * c
    · have e1 : ¬ (m * c ≤ idx ∧ idx < m * c + c) := by omega
      have e2 : idx < (m + 1) * c := by omega
      simp [e1, e2, hlt]
    · by_cases hin : idx < m * c + c
      · have e1 : (m * c ≤ idx ∧ idx < m * c + c) := by omega
        have e2 : idx < (m + 1) * c := by omega
        have cpos : 0 < c := by
          rcases Nat.eq_zero_or_pos c with h0 | h0
          · subst h0; omega
          · exact h0
        have hd : idx / c = m := by
          apply Nat.div_eq_of_lt_le
          · omega
          · rw [Nat.succ_mul]; omega
        have hmod : idx % c = idx - m * c := by
          have := Nat.div_add_mod idx c
          rw [hd] at this
          rw [Nat.mul_comm] at this
          omega
        simp [e1, e2, hlt, hd, hmod]
      · have e1 : ¬ (m * c ≤ idx ∧ idx < m * c + c) := by omega
        have e2 : ¬ idx < (m + 1) * c := by omega
        simp [e1, e2, hlt]
end LoopLemmas

section TensorLemmas
variable {α : Type}

theorem row_major_lt {m c i j : Nat} (hi : i < m) (hj : j < c) : i * c + j < m * c := by
  have h1 : i * c + c ≤ m * c := by
    have : (i + 1) * c ≤ m * c := Nat.mul_le_mul_right c hi
    rw [Nat.succ_mul] at this
    exact this
  omega

theorem row_major_div {c i j : Nat} (hj : j < c) : (i * c + j) / c = i := by
  have cpos : 0 < c := by omega
  rw [Nat.add_comm, Nat.add_mul_div_right _ _ cpos, Nat.div_eq_of_lt hj, Nat.zero_add]

theorem row_major_mod {c i j : Nat} (hj : j < c) : (i * c + j) % c = j := by
  rw [Nat.add_comm, Nat.add_mul_mod_self_right, Nat.mod_eq_of_lt hj]

/-- The nested loop over all cells of an m × c buffer, cell by cell. -/
theorem loop_cells [Inhabited α] (c : Nat) (g : Nat → Nat → α → α)
    (body : Nat → Nat → Tensor α → Tensor α)
    (hbody : ∀ i j t, t.cols = c →
      body i j t = t.write (i * c + j) (g i j (t.read (i * c + j))))
    (m : Nat) (t : Tensor α) (hc : t.cols = c) (hlen : m * c ≤ t.data.length) :
    (for_range m (fun i t => for_range c (body i) t) t).rows = t.rows ∧
    (for_range m (fun i t => for_range c (body i) t) t).cols = c ∧
    (for_range m (fun i t => for_range c (body i) t) t).data.length = t.data.length ∧
    ∀ i j, i < m → j < c →
      (for_range m (fun i t => for_range c (body i) t) t).cell i j = g i j (t.cell i j) := by
  obtain ⟨h1, h2, h3, h4⟩ := for_range_cells c g body hbody m t hc hlen
  refine ⟨h1, h2, h3, fun i j hi hj => ?_⟩
  unfold Tensor.cell
  rw [h2, hc, h4, if_pos (row_major_lt hi hj), row_major_div hj, row_major_mod hj]

theorem _create_tensor_pos [Inhabited α] (rows cols : Nat) (hr : 0 < rows) (hc : 0 < cols) :
    (_create_tensor (rows : Int) (cols : Int) : Option (Tensor α)) =
      some { data := List.replicate (rows * cols) default, rows := rows, cols := cols } := by
  unfold _create_tensor
  have : ¬ ((rows : Int) ≤ 0 ∨ (cols : Int) ≤ 0) := by omega
  rw [if_neg this]
  simp only [Int.toNat_ofNat]

theorem Tensor.WF.lt_length {t : Tensor α} (h : t.WF) {i j : Nat} (hi : i < t.rows)
    (hj : j < t.cols) : i * t.cols + j < t.data.length := by
  rw [h.2.2]; exact row_major_lt hi hj

/-- Two well-formed tensors of one shape with equal cells are equal. -/
theorem Tensor.ext_cells [Inhabited α] {s t : Tensor α} (hs : s.data.length = s.rows * s.cols)
    (ht : t.data.length = t.rows * t.cols) (hr : s.rows = t.rows) (hc : s.cols = t.cols)
    (h : ∀ i j, i < t.rows → j < t.cols → s.cell i j = t.cell i j) : s = t := by
  obtain ⟨sd, sr, sc⟩ := s
  obtain ⟨td, tr, tc⟩ := t
  simp only at hs ht hr hc
  subst hr hc
  have : sd = td := by
    apply List.ext_getElem (by rw [hs, ht])
    intro n h1 h2
    have hn : n < sr * sc := by rw [← hs]; exact h1
    have cpos : 0 < sc := by
      rcases Nat.eq_zero_or_pos sc with h0 | h0
      · subst h0; simp at hn
      · exact h0
    have hi : n / sc < sr := by
      apply Nat.div_lt_of_lt_mul; rw [Nat.mul_comm]; exact hn
    have hj : n % sc < sc := Nat.mod_lt _ cpos
    have e := h (n / sc) (n % sc) hi hj
    simp only [Tensor.cell, Tensor.read] at e
    have e2 : n / sc * sc + n % sc = n := by
      rw [Nat.mul_comm]; exact Nat.div_add_mod n sc
    rw [e2] at e
    simpa [List.getD_eq_getElem?_getD, List.getElem?_eq_getElem h1,
      List.getElem?_eq_getElem h2] using e
  rw [this]

theorem create_tensor_value_spec [Inhabited α] (rows cols : Nat) (hr : 0 < rows)
    (hc : 0 < cols) (v : α) :
    ∃ t : Tensor α, create_tensor_value (rows : Int) (cols : Int) v = some t ∧
      t.rows = rows ∧ t.cols = cols ∧ t.data.length = rows * cols ∧
      ∀ i j, i < rows → j < cols → t.cell i j = v := by
  unfold create_tensor_value
  rw [_create_tensor_pos rows cols hr hc]
  simp only [Int.toNat_ofNat]
  obtain ⟨h1, h2, h3, h4⟩ := loop_cells cols (fun _ _ _ => v)
    (fun i j t => t.write (i * cols + j) v) (fun _ _ _ _ => rfl) rows
    ({ data := List.replicate (rows * cols) default, rows := rows, cols := cols } : Tensor α)
    rfl (by simp)
  exact ⟨_, rfl, h1, h2, by simpa using h3, h4⟩

theorem tensor_deepcopy_spec [Inhabited α] (t : Tensor α) (h : t.WF) :
    tensor_deepcopy t = some t := by
  unfold tensor_deepcopy
  rw [_create_tensor_pos t.rows t.cols h.1 h.2.1]
  simp only
  obtain ⟨h1, h2, h3, h4⟩ := loop_cells t.cols (fun i j _ => t.cell i j)
    (fun i j s => s.write (i * t.cols + j) (t.read (i * t.cols + j))) (fun _ _ _ _ => rfl) t.rows
    ({ data := List.replicate (t.rows * t.cols) default, rows := t.rows, cols := t.cols } :
      Tensor α) rfl (by simp)
  congr 1
  apply Tensor.ext_cells
  · rw [h3, h1, h2]; simp
  · exact h.2.2
  · exact h1
  · exact h2
  · exact h4

theorem tensor_transpose_spec [Inhabited α] (t : Tensor α) (h : t.WF) :
    ∃ r : Tensor α, tensor_transpose t = some r ∧ r.rows = t.cols ∧ r.cols = t.rows ∧ r.WF ∧
      ∀ i j, i < t.cols → j < t.rows → r.cell i j = t.cell j i := by
  unfold tensor_transpose
  rw [_create_tensor_pos t.cols t.rows h.2.1 h.1]
  simp only
  obtain ⟨h1, h2, h3, h4⟩ := loop_cells t.rows (fun i j _ => t.cell j i)
    (fun i j s => s.setCell i j (t.cell j i))
    (fun i j s hs => by simp [Tensor.setCell, hs]) t.cols
    ({ data := List.replicate (t.cols * t.rows) default, rows := t.cols, cols := t.rows } :
      Tensor α) rfl (by simp)
  refine ⟨_, rfl, h1, h2, ⟨?_, ?_, ?_⟩, h4⟩
  · rw [h1]; exact h.2.1
  · rw [h2]; exact h.1
  · rw [h3, h1, h2]; simp

end TensorLemmas
section TensorLemmas2
variable {α : Type}

theorem tensor_multiplication_spec [Inhabited α] [Zero α] [Add α] [Mul α]
    (t1 t2 : Tensor α) (h1 : t1.WF) (h2 : t2.WF) (hc : t1.cols = t2.rows) :
    ∃ r : Tensor α, tensor_multiplication t1 t2 = some r ∧ r.rows = t1.rows ∧
      r.cols = t2.cols ∧ r.WF ∧
      ∀ i j, i < t1.rows → j < t2.cols →
        r.cell i j = for_range t1.cols (fun k sum => sum + t1.cell i k * t2.cell k j) 0 := by
  unfold tensor_multiplication
  rw [if_neg (by simpa using hc)]
  obtain ⟨res, e1, r1, r2, r3, _⟩ := create_tensor_value_spec t1.rows t2.cols h1.1 h2.2.1 (0 : α)
  obtain ⟨tt, e2, s1, s2, _, s4⟩ := tensor_transpose_spec t2 h2
  rw [e1, e2]
  simp only
  obtain ⟨k1, k2, k3, k4⟩ := loop_cells t2.cols
    (fun i j _ => for_range t1.cols (fun k sum => sum + t1.cell i k * tt.cell j k) 0)
    (fun i j r => r.setCell i j
      (for_range t1.cols (fun k sum => sum + t1.cell i k * tt.cell j k) 0))
    (fun i j s hs => by simp [Tensor.setCell, hs]) t1.rows res r2 (by rw [r3])
  refine ⟨_, rfl, k1.trans r1, k2, ⟨?_, ?_, ?_⟩, fun i j hi hj => ?_⟩
  · rw [k1, r1]; exact h1.1
  · rw [k2]; exact h2.2.1
  · rw [k3, r3, k1, r1, k2]
  · rw [k4 i j hi hj]
    have : ∀ n, n ≤ t1.cols →
        for_range n (fun k sum => sum + t1.cell i k * tt.cell j k) (0 : α) =
        for_range n (fun k sum => sum + t1.cell i k * t2.cell k j) 0 := by
      intro n
      induction n with
      | zero => intro _; rfl
      | succ n ih =>
        intro hn
        rw [for_range_succ, for_range_succ, ih (by omega), s4 j n hj (by omega)]
    exact this _ (Nat.le_refl _)

theorem tensor_multiplication_none [Inhabited α] [Zero α] [Add α] [Mul α]
    (t1 t2 : Tensor α) (hc : t1.cols ≠ t2.rows) : tensor_multiplication t1 t2 = none := by
  unfold tensor_multiplication
  rw [if_pos hc]

theorem tensor_multiplication_hadamard_spec [Inhabited α] [Mul α]
    (t1 t2 : Tensor α) (hr0 : 0 < t1.rows) (hc0 : 0 < t1.cols) (hr : t1.rows = t2.rows)
    (hc : t1.cols = t2.cols) :
    ∃ r : Tensor α, tensor_multiplication_hadamard t1 t2 = some r ∧ r.rows = t1.rows ∧
      r.cols = t1.cols ∧ r.WF ∧
      ∀ i j, i < t1.rows → j < t1.cols → r.cell i j = t1.cell i j * t2.cell i j := by
  unfold tensor_multiplication_hadamard
  rw [if_neg (by simp [hr, hc]), _create_tensor_pos t1.rows t1.cols hr0 hc0]
  simp only
  obtain ⟨k1, k2, k3, k4⟩ := loop_cells t1.cols (fun i j _ => t1.cell i j * t2.cell i j)
    (fun i j s => s.setCell i j (t1.cell i j * t2.cell i j))
    (fun i j s hs => by simp [Tensor.setCell, hs]) t1.rows
    ({ data := List.replicate (t1.rows * t1.cols) default, rows := t1.rows, cols := t1.cols } :
      Tensor α) rfl (by simp)
  refine ⟨_, rfl, k1, k2, ⟨?_, ?_, ?_⟩, k4⟩
  · rw [k1]; exact hr0
  · rw [k2]; exact hc0
  · rw [k3, k1, k2]; simp

theorem tensor_add_cols_spec [Inhabited α] [Zero α] [Add α] (t : Tensor α) (h : t.WF) :
    ∃ r : Tensor α, tensor_add_cols t = some r ∧ r.rows = 1 ∧ r.cols = t.cols ∧ r.WF ∧
      ∀ j, j < t.cols →
        r.cell 0 j = for_range t.rows (fun i sum => sum + t.cell i j) 0 := by
  unfold tensor_add_cols
  have e := @_create_tensor_pos α _ 1 t.cols (by omega) h.2.1
  simp only [Nat.cast_one] at e
  rw [e]
  simp only
  obtain ⟨k1, k2, k3, k4⟩ := @for_range_row α _ t.cols 0
    (fun j _ => for_range t.rows (fun i sum => sum + t.cell i j) 0)
    (fun i s => s.write i (for_range t.rows (fun j sum => sum + t.cell j i) 0))
    (fun j s _ => by simp) t.cols
    ({ data := List.replicate (1 * t.cols) default, rows := 1, cols := t.cols } : Tensor α)
    rfl (by simp)
  refine ⟨_, rfl, k1, k2, ⟨?_, ?_, ?_⟩, fun j hj => ?_⟩
  · rw [k1]; exact Nat.one_pos
  · rw [k2]; exact h.2.1
  · rw [k3, k1, k2]; simp
  · rw [show ∀ s : Tensor α, s.cell 0 j = s.read j from fun s => by simp [Tensor.cell], k4]
    simp [hj]

theorem tensor_add_scaled_inplace_spec [Inhabited α] [Add α] [Mul α]
    (t1 t2 : Tensor α) (scaler : α) (h1 : t1.data.length = t1.rows * t1.cols)
    (hr : t1.rows = t2.rows) (hc : t1.cols = t2.cols) :
    (tensor_add_scaled_inplace t1 (some t2) scaler).rows = t1.rows ∧
    (tensor_add_scaled_inplace t1 (some t2) scaler).cols = t1.cols ∧
    (tensor_add_scaled_inplace t1 (some t2) scaler).data.length = t1.data.length ∧
    ∀ i j, i < t1.rows → j < t1.cols →
      (tensor_add_scaled_inplace t1 (some t2) scaler).cell i j =
        t1.cell i j + scaler * t2.cell i j := by
  unfold tensor_add_scaled_inplace
  simp only
  rw [if_neg (by simp [hr, hc])]
  exact loop_cells t1.cols (fun i j x => x + scaler * t2.cell i j)
    (fun i j s => s.setCell i j (s.cell i j + scaler * t2.cell i j))
    (fun i j s hs => by simp [Tensor.setCell, Tensor.cell, hs]) t1.rows t1 rfl (by rw [h1])

theorem tensor_row_addition_inplace_spec [Inhabited α] [Add α]
    (t1 t2 : Tensor α) (h1 : t1.data.length = t1.rows * t1.cols)
    (hr : t2.rows = 1) (hc : t1.cols = t2.cols) :
    (tensor_row_addition_inplace t1 t2).rows = t1.rows ∧
    (tensor_row_addition_inplace t1 t2).cols = t1.cols ∧
    (tensor_row_addition_inplace t1 t2).data.length = t1.data.length ∧
    ∀ i j, i < t1.rows → j < t1.cols →
      (tensor_row_addition_inplace t1 t2).cell i j = t1.cell i j + t2.cell 0 j := by
  unfold tensor_row_addition_inplace
  rw [if_neg (by simp [hr, hc])]
  exact loop_cells t1.cols (fun _ j x => x + t2.cell 0 j)
    (fun i j s => s.setCell i j (s.cell i j + t2.read j))
    (fun i j s hs => by simp [Tensor.setCell, Tensor.cell, hs]) t1.rows t1 rfl (by rw [h1])

theorem tensor_apply_func_inplace_spec [Inhabited α] (t1 : Tensor α) (func : α → α)
    (h1 : t1.data.length = t1.rows * t1.cols) :
    (tensor_apply_func_inplace t1 func).rows = t1.rows ∧
    (tensor_apply_func_inplace t1 func).cols = t1.cols ∧
    (tensor_apply_func_inplace t1 func).data.length = t1.data.length ∧
    ∀ i j, i < t1.rows → j < t1.cols →
      (tensor_apply_func_inplace t1 func).cell i j = func (t1.cell i j) := by
  unfold tensor_apply_func_inplace
  exact loop_cells t1.cols (fun _ _ x => func x)
    (fun i j s => s.setCell i j (func (s.cell i j)))
    (fun i j s hs => by simp [Tensor.setCell, Tensor.cell, hs]) t1.rows t1 rfl (by rw [h1])

/-- The accumulation loop `sum = 0; for k < n: sum += f k` is the finite sum of `f`. -/
theorem for_range_sum {β : Type} [AddCommMonoid β] (n : Nat) (f : Nat → β) :
    for_range n (fun k sum => sum + f k) 0 = ∑ k in Finset.range n, f k := by
  induction n with
  | zero => rfl
  | succ n ih => rw [for_range_succ, ih, Finset.sum_range_succ]

end TensorLemmas2
section C3
variable {α : Type}

end C3
section LayerLemmas
variable {α : Type}

theorem create_activation_forward [Inhabited α] [Zero α] [LT α] [∀ a b : α, Decidable (a < b)]
    [Mul α] [OfScientific α] (func : activation_function) (t : Tensor α) :
    (create_activation func).forward_inplace t =
      if func = .LINEAR then t else tensor_apply_func_inplace t _apply_relu_to_element := by
  cases func <;> simp [create_activation, _relu_inplace, _linear_inplace]

theorem create_activation_backward [Inhabited α] [Zero α] [LT α]
    [∀ a b : α, Decidable (a < b)] [Mul α] [OfScientific α] (func : activation_function)
    (t : Tensor α) (h : t.WF) :
    (create_activation func).backward t =
      some (tensor_apply_func_inplace t
        (if func = .LINEAR then _apply_d_linear_element else _apply_d_relu_to_element)) := by
  cases func <;> simp [create_activation, _d_relu, _d_linear, tensor_deepcopy_spec t h]

theorem forward_pass_ok [Inhabited α] [Zero α] [Add α] [Mul α] (layer : Layer α)
    (input : Tensor α) (hw : layer.weights.WF)
    (hb1 : layer.biases.rows = 1) (hbc : layer.biases.cols = layer.weights.cols)
    (hin : input.WF) (hc : input.cols = layer.weights.rows) :
    ∃ z itc : Tensor α,
      tensor_transpose input = some itc ∧ itc.WF ∧ itc.rows = input.cols ∧
      itc.cols = input.rows ∧
      (∀ k i, k < input.cols → i < input.rows → itc.cell k i = input.cell i k) ∧
      z.WF ∧ z.rows = input.rows ∧ z.cols = layer.weights.cols ∧
      (∀ i j, i < input.rows → j < layer.weights.cols →
        z.cell i j =
          for_range input.cols (fun k sum => sum + input.cell i k * layer.weights.cell k j) 0
            + layer.biases.cell 0 j) ∧
      forward_pass layer input =
        (some (layer.activation.forward_inplace z),
         { layer with input_transpose_cache := some itc, z_cache := some z }) := by
  obtain ⟨itc, e1, i1, i2, i3, i4⟩ := tensor_transpose_spec input hin
  obtain ⟨m, e2, m1, m2, m3, m4⟩ := tensor_multiplication_spec input layer.weights hin hw hc
  obtain ⟨a1, a2, a3, a4⟩ := tensor_row_addition_inplace_spec m layer.biases m3.2.2 hb1
    (by rw [m2, hbc])
  have zwf : (tensor_row_addition_inplace m layer.biases).WF :=
    ⟨by rw [a1]; exact m3.1, by rw [a2]; exact m3.2.1, by rw [a3, a1, a2]; exact m3.2.2⟩
  refine ⟨tensor_row_addition_inplace m layer.biases, itc, e1, i3, i1, i2, i4, zwf,
    a1.trans m1, a2.trans m2, fun i j hi hj => ?_, ?_⟩
  · rw [a4 i j (by rw [m1]; exact hi) (by rw [m2]; exact hj), m4 i j hi hj]
  · unfold forward_pass
    simp only [e1, e2, tensor_deepcopy_spec _ zwf]

end LayerLemmas

section C2
variable {α : Type}

end C2
section BackwardLemmas
variable {α : Type}

theorem backward_pass_ok [Inhabited α] [Zero α] [Add α] [Mul α] (layer : Layer α)
    (og z itc ap : Tensor α) (hz : layer.z_cache = some z)
    (hitc : layer.input_transpose_cache = some itc)
    (hap : layer.activation.backward z = some ap)
    (hapr : ap.rows = z.rows) (hapc : ap.cols = z.cols)
    (hzw : z.WF) (hitcw : itc.WF) (hic : itc.cols = z.rows)
    (hw : layer.weights.WF) (hwc : layer.weights.cols = z.cols)
    (hr : og.rows = z.rows) (hc : og.cols = z.cols) :
    ∃ dx dW dB : Tensor α,
      backward_pass layer og =
        (some dx, { layer with d_weights := some dW, d_biases := some dB }) ∧
      dW.WF ∧ dW.rows = itc.rows ∧ dW.cols = z.cols ∧
      (∀ k j, k < itc.rows → j < z.cols →
        dW.cell k j =
          for_range z.rows (fun i sum => sum + itc.cell k i * (og.cell i j * ap.cell i j)) 0) ∧
      dB.WF ∧ dB.rows = 1 ∧ dB.cols = z.cols ∧
      (∀ j, j < z.cols →
        dB.cell 0 j = for_range z.rows (fun i sum => sum + og.cell i j * ap.cell i j) 0) ∧
      dx.WF ∧ dx.rows = z.rows ∧ dx.cols = layer.weights.rows ∧
      (∀ i k, i < z.rows → k < layer.weights.rows →
        dx.cell i k =
          for_range z.cols
            (fun j sum => sum + (og.cell i j * ap.cell i j) * layer.weights.cell k j) 0) := by
  obtain ⟨dz, e1, d1, d2, d3, d4⟩ := tensor_multiplication_hadamard_spec og ap
    (by rw [hr]; exact hzw.1) (by rw [hc]; exact hzw.2.1) (by rw [hr, hapr]) (by rw [hc, hapc])
  obtain ⟨dW, e2, w1, w2, w3, w4⟩ := tensor_multiplication_spec itc dz hitcw d3
    (by rw [hic, d1, hr])
  obtain ⟨dB, e3, b1, b2, b3, b4⟩ := tensor_add_cols_spec dz d3
  obtain ⟨wt, e4, t1, t2, t3, t4⟩ := tensor_transpose_spec layer.weights hw
  obtain ⟨dx, e5, x1, x2, x3, x4⟩ := tensor_multiplication_spec dz wt d3 t3
    (by rw [d2, hc, t1, hwc])
  have hdzr : dz.rows = z.rows := by rw [d1, hr]
  have hdzc : dz.cols = z.cols := by rw [d2, hc]
  refine ⟨dx, dW, dB, ?_, w3, w1, by rw [w2, hdzc], ?_, b3, b1, by rw [b2, hdzc], ?_, x3,
    by rw [x1, hdzr], by rw [x2, t2], ?_⟩
  · unfold backward_pass
    simp only [hz, hap, e1, hitc, e2, e3, e4, e5]
  · intro k j hk hj
    rw [w4 k j hk (by rw [hdzc]; exact hj), hic]
    have : ∀ n, n ≤ z.rows →
        for_range n (fun i sum => sum + itc.cell k i * dz.cell i j) (0 : α) =
        for_range n (fun i sum => sum + itc.cell k i * (og.cell i j * ap.cell i j)) 0 := by
      intro n
      induction n with
      | zero => intro _; rfl
      | succ n ih =>
        intro hn
        rw [for_range_succ, for_range_succ, ih (by omega),
          d4 n j (by omega) (by rw [hc]; exact hj)]
    exact this _ (Nat.le_refl _)
  · intro j hj
    rw [b4 j (by rw [hdzc]; exact hj), hdzr]
    have : ∀ n, n ≤ z.rows →
        for_range n (fun i sum => sum + dz.cell i j) (0 : α) =
        for_range n (fun i sum => sum + og.cell i j * ap.cell i j) 0 := by
      intro n
      induction n with
      | zero => intro _; rfl
      | succ n ih =>
        intro hn
        rw [for_range_succ, for_range_succ, ih (by omega),
          d4 n j (by omega) (by rw [hc]; exact hj)]
    exact this _ (Nat.le_refl _)
  · intro i k hi hk
    rw [x4 i k (by rw [hdzr]; exact hi) (by rw [t2]; exact hk), hdzc]
    have : ∀ n, n ≤ z.cols →
        for_range n (fun j sum => sum + dz.cell i j * wt.cell j k) (0 : α) =
        for_range n (fun j sum => sum + (og.cell i j * ap.cell i j) * layer.weights.cell k j)
          0 := by
      intro n
      induction n with
      | zero => intro _; rfl
      | succ n ih =>
        intro hn
        rw [for_range_succ, for_range_succ, ih (by omega),
          d4 i n (by rw [hr]; exact hi) (by omega), t4 n k (by omega) hk]
    exact this _ (Nat.le_refl _)

/-- What a failed matrix product in forward_pass leaves behind. -/
theorem forward_pass_some_cols [Inhabited α] [Zero α] [Add α] [Mul α] (layer layer1 : Layer α)
    (input out : Tensor α) (h : forward_pass layer input = (some out, layer1)) :
    input.cols = layer.weights.rows := by
  by_contra hne
  have hm := tensor_multiplication_none input layer.weights hne
  unfold forward_pass at h
  cases ht : tensor_transpose input <;> simp [ht, hm] at h

end BackwardLemmas

section C1
variable {α : Type}

/-- C1: when forward_pass(input) has just succeeded on a well-formed layer, leaving z_cache
= z, then for every output_gradient og of the shape of z backward_pass succeeds, sets
d_weights = transpose(input) @ dz and d_biases = column_sum(dz), changes no other field and
returns dx = dz @ transpose(weights), where dz[i][j] = og[i][j] * a'(z[i][j]) and a' is the
activation derivative (1 for Linear, the leaky-ReLU slope otherwise). -/
theorem backward_pass_spec [Inhabited α] [LinearOrderedField α] (layer0 layer : Layer α)
    (input out : Tensor α) (func : activation_function) (hl : layer0.WF)
    (ha : layer0.activation = create_activation func) (hin : input.WF)
    (hf : forward_pass layer0 input = (some out, layer)) :
    ∃ z : Tensor α, layer.z_cache = some z ∧
      ∀ og : Tensor α, og.rows = z.rows → og.cols = z.cols →
        ∃ dx dW dB : Tensor α,
          backward_pass layer og =
            (some dx, { layer with d_weights := some dW, d_biases := some dB }) ∧
          dW.rows = input.cols ∧ dW.cols = z.cols ∧
          (∀ k j, k < input.cols → j < z.cols →
            dW.cell k j = ∑ i in Finset.range input.rows, input.cell i k *
              (og.cell i j *
                (if func = .LINEAR then 1 else _apply_d_relu_to_element (z.cell i j)))) ∧
          dB.rows = 1 ∧ dB.cols = z.cols ∧
          (∀ j, j < z.cols →
            dB.cell 0 j = ∑ i in Finset.range z.rows,
              og.cell i j *
                (if func = .LINEAR then 1 else _apply_d_relu_to_element (z.cell i j))) ∧
          dx.rows = og.rows ∧ dx.cols = layer.weights.rows ∧
          (∀ i k, i < og.rows → k < layer.weights.rows →
            dx.cell i k = ∑ j in Finset.range z.cols,
              (og.cell i j *
                (if func = .LINEAR then 1 else _apply_d_relu_to_element (z.cell i j)))
              * layer.weights.cell k j) := by
  obtain ⟨hw, -, hwr, hwc, hb1, hbc⟩ := hl
  have hc2 : input.cols = layer0.weights.rows := forward_pass_some_cols _ _ _ _ hf
  obtain ⟨z, itc, -, iwf, i1, i2, i4, zwf, z1, z2, -, e2⟩ :=
    forward_pass_ok layer0 input hw hb1 (by omega) hin hc2
  rw [e2] at hf
  have hlayer : layer = { layer0 with input_transpose_cache := some itc, z_cache := some z } :=
    (Prod.mk.inj hf).2.symm
  subst hlayer
  refine ⟨z, rfl, fun og hr hc => ?_⟩
  obtain ⟨a1, a2, -, a4⟩ := tensor_apply_func_inplace_spec z
    (if func = .LINEAR then _apply_d_linear_element else _apply_d_relu_to_element : α → α)
    zwf.2.2
  have hd : ∀ i j, i < z.rows → j < z.cols →
      (tensor_apply_func_inplace z
        (if func = .LINEAR then _apply_d_linear_element
          else _apply_d_relu_to_element : α → α)).cell i j =
      if func = .LINEAR then 1 else _apply_d_relu_to_element (z.cell i j) := by
    intro i j hi hj
    rw [a4 i j hi hj]
    by_cases hfn : func = .LINEAR
    · simp only [if_pos hfn, _apply_d_linear_element]; norm_num
    · simp only [if_neg hfn]
  obtain ⟨dx, dW, dB, e, -, w1, w2, w4, -, b1, b2, b4, -, x1, x2, x4⟩ :=
    backward_pass_ok { layer0 with input_transpose_cache := some itc, z_cache := some z }
      og z itc _ rfl rfl
      (by simp only [ha]; exact create_activation_backward func z zwf)
      a1 a2 zwf iwf (by rw [i2, z1]) hw z2.symm hr hc
  refine ⟨dx, dW, dB, e, by rw [w1, i1], w2, ?_, b1, b2, ?_, by rw [x1, hr], x2, ?_⟩
  · intro k j hk hj
    rw [w4 k j (by rw [i1]; exact hk) hj, for_range_sum, z1]
    apply Finset.sum_congr rfl
    intro i hi
    have hi2 : i < input.rows := Finset.mem_range.mp hi
    rw [i4 k i hk hi2, hd i j (by rw [z1]; exact hi2) hj]
  · intro j hj
    rw [b4 j hj, for_range_sum]
    apply Finset.sum_congr rfl
    intro i hi
    rw [hd i j (Finset.mem_range.mp hi) hj]
  · intro i k hi hk
    rw [x4 i k (by rw [← hr]; exact hi) hk, for_range_sum]
    apply Finset.sum_congr rfl
    intro j hj
    rw [hd i j (by rw [← hr]; exact hi) (Finset.mem_range.mp hj)]

end C1
theorem sample_forward :
    forward_pass (sample_layer .LINEAR) sample_input =
      (some sample_z, sample_layer_ready .LINEAR) := by
  simp [forward_pass, sample_layer, sample_layer_ready, sample_z, sample_input, sample_weights,
    sample_biases, tensor_transpose, tensor_multiplication, tensor_row_addition_inplace,
    tensor_deepcopy, create_tensor_value, _create_tensor, create_activation, _linear_inplace,
    for_range, Tensor.setCell, Tensor.write, Tensor.cell, Tensor.read]
  norm_num

theorem backward_pass_spec_witness :
    (sample_layer .LINEAR).WF ∧ sample_input.WF ∧
    forward_pass (sample_layer .LINEAR) sample_input =
      (some sample_z, sample_layer_ready .LINEAR) ∧
    ∃ z : Tensor ℚ, (sample_layer_ready .LINEAR).z_cache = some z ∧
      ∀ og : Tensor ℚ, og.rows = z.rows → og.cols = z.cols →
        ∃ dx dW dB : Tensor ℚ,
          backward_pass (sample_layer_ready .LINEAR) og =
            (some dx, { sample_layer_ready .LINEAR with
              d_weights := some dW, d_biases := some dB }) ∧
          dW.rows = sample_input.cols ∧ dW.cols = z.cols ∧
          (∀ k j, k < sample_input.cols → j < z.cols →
            dW.cell k j = ∑ i in Finset.range sample_input.rows, sample_input.cell i k *
              (og.cell i j *
                (if activation_function.LINEAR = .LINEAR then 1
                 else _apply_d_relu_to_element (z.cell i j)))) ∧
          dB.rows = 1 ∧ dB.cols = z.cols ∧
          (∀ j, j < z.cols →
            dB.cell 0 j = ∑ i in Finset.range z.rows,
              og.cell i j *
                (if activation_function.LINEAR = .LINEAR then 1
                 else _apply_d_relu_to_element (z.cell i j))) ∧
          dx.rows = og.rows ∧ dx.cols = (sample_layer_ready .LINEAR).weights.rows ∧
          (∀ i k, i < og.rows → k < (sample_layer_ready .LINEAR).weights.rows →
            dx.cell i k = ∑ j in Finset.range z.cols,
              (og.cell i j *
                (if activation_function.LINEAR = .LINEAR then 1
                 else _apply_d_relu_to_element (z.cell i j)))
              * (sample_layer_ready .LINEAR).weights.cell k j) :=
  ⟨by decide, by decide, sample_forward,
   backward_pass_spec (sample_layer .LINEAR) (sample_layer_ready .LINEAR) sample_input
     sample_z .LINEAR (by decide) rfl (by decide) sample_forward⟩

section C6C7
variable {α : Type}

theorem for_range_add_sum {β : Type} [AddCommMonoid β] (n : Nat) (f : Nat → β) (s : β) :
    for_range n (fun k sum => sum + f k) s = s + ∑ k in Finset.range n, f k := by
  induction n with
  | zero => simp [for_range]
  | succ n ih => rw [for_range_succ, ih, Finset.sum_range_succ, add_assoc]

theorem for_range_add_sum2 {β : Type} [AddCommMonoid β] (m c : Nat) (f : Nat → Nat → β)
    (s : β) :
    for_range m (fun i e => for_range c (fun j e => e + f i j) e) s =
      s + ∑ i in Finset.range m, ∑ j in Finset.range c, f i j := by
  induction m with
  | zero => simp [for_range]
  | succ m ih => rw [for_range_succ, ih, for_range_add_sum, Finset.sum_range_succ, add_assoc]

theorem ofScientific_two {β : Type} [DivisionRing β] : (2.0 : β) = 2 := by norm_num

/-- The cells of the MSE derivative, with the constants as the C code writes them. -/
theorem mse_derivative_cells [Inhabited α] [Sub α] [Mul α] [Div α] [NatCast α]
    [OfScientific α] (pred target : Tensor α)
    (hp : pred.WF) (hr : pred.rows = target.rows) (hc : pred.cols = target.cols) :
    ∃ r : Tensor α, _mse_derivative pred target = some r ∧
      r.rows = pred.rows ∧ r.cols = pred.cols ∧ r.WF ∧
      ∀ i j, i < pred.rows → j < pred.cols →
        r.cell i j =
          (2.0 / ((pred.cols * pred.rows : Nat) : α)) *
            (pred.cell i j - target.cell i j) := by
  unfold _mse_derivative
  rw [if_neg (by simp [hr, hc]), tensor_deepcopy_spec pred hp]
  simp only
  obtain ⟨k1, k2, k3, k4⟩ := loop_cells pred.cols
    (fun i j _ => (2.0 / ((pred.cols * pred.rows : Nat) : α)) *
      (pred.cell i j - target.cell i j))
    (fun i j res => res.write (i * pred.cols + j)
      ((2.0 / ((pred.cols * pred.rows : Nat) : α)) * (pred.cell i j - target.cell i j)))
    (fun _ _ _ _ => rfl) pred.rows pred rfl (by rw [hp.2.2])
  exact ⟨_, rfl, k1, k2, ⟨by rw [k1]; exact hp.1, by rw [k2]; exact hp.2.1,
    by rw [k3, k1, k2]; exact hp.2.2⟩, k4⟩

/-- C6: for pred and target of one shape rows×cols (pred well-formed), the MSE derivative
returns a tensor of the shape of pred whose cell (i,j) is
(2/(rows*cols)) * (pred[i][j] - target[i][j]). -/
theorem _mse_derivative_spec [Inhabited α] [Field α] (pred target : Tensor α)
    (hp : pred.WF) (hr : pred.rows = target.rows) (hc : pred.cols = target.cols) :
    ∃ r : Tensor α, _mse_derivative pred target = some r ∧
      r.rows = pred.rows ∧ r.cols = pred.cols ∧ r.data.length = pred.rows * pred.cols ∧
      ∀ i j, i < pred.rows → j < pred.cols →
        r.cell i j =
          (2 / ((pred.rows : α) * (pred.cols : α))) * (pred.cell i j - target.cell i j) := by
  obtain ⟨r, e, r1, r2, r3, r4⟩ := mse_derivative_cells pred target hp hr hc
  refine ⟨r, e, r1, r2, ?_, fun i j hi hj => ?_⟩
  · rw [r3.2.2, r1, r2]
  · rw [r4 i j hi hj, ofScientific_two, Nat.cast_mul, mul_comm (pred.cols : α)]

theorem _mse_derivative_spec_witness :
    sample_z.WF ∧ sample_z.rows = sample_gradient.rows ∧
    sample_z.cols = sample_gradient.cols ∧
    ∃ r : Tensor ℚ, _mse_derivative sample_z sample_gradient = some r ∧
      r.rows = sample_z.rows ∧ r.cols = sample_z.cols ∧
      r.data.length = sample_z.rows * sample_z.cols ∧
      ∀ i j, i < sample_z.rows → j < sample_z.cols →
        r.cell i j =
          (2 / ((sample_z.rows : ℚ) * (sample_z.cols : ℚ))) *
            (sample_z.cell i j - sample_gradient.cell i j) :=
  ⟨by decide, rfl, rfl, _mse_derivative_spec sample_z sample_gradient (by decide) rfl rfl⟩

/-- C7: for pred and target of one shape rows×cols, the MSE loss is the sum over all cells
of (target[i][j] - pred[i][j])^2 divided by rows*cols. -/
theorem _mse_loss_spec [Inhabited α] [Field α] (pred target : Tensor α)
    (hr : pred.rows = target.rows) (hc : pred.cols = target.cols) :
    _mse_loss pred target =
      (∑ i in Finset.range pred.rows, ∑ j in Finset.range pred.cols,
        (target.cell i j - pred.cell i j) ^ 2) / ((pred.rows : α) * (pred.cols : α)) := by
  unfold _mse_loss
  rw [if_neg (by simp [hr, hc])]
  simp only
  rw [for_range_add_sum2, zero_add, Nat.cast_mul, mul_comm (pred.cols : α)]
  congr 1
  apply Finset.sum_congr rfl
  intro i _
  apply Finset.sum_congr rfl
  intro j _
  rw [sq]

theorem _mse_loss_spec_witness :
    sample_z.rows = sample_gradient.rows ∧ sample_z.cols = sample_gradient.cols ∧
    _mse_loss sample_z sample_gradient =
      (∑ i in Finset.range sample_z.rows, ∑ j in Finset.range sample_z.cols,
        (sample_gradient.cell i j - sample_z.cell i j) ^ 2) /
        ((sample_z.rows : ℚ) * (sample_z.cols : ℚ)) :=
  ⟨rfl, rfl, _mse_loss_spec sample_z sample_gradient rfl rfl⟩

end C6C7
section NetworkLoops
variable {α : Type}

theorem forward_chain_length [Inhabited α] [Zero α] [Add α] [Mul α] (ls : List (Layer α))
    (x : Tensor α) : (forward_chain ls x).2.length = ls.length := by
  induction ls generalizing x with
  | nil => rfl
  | cons l ls ih =>
    unfold forward_chain
    rcases h : forward_pass l x with ⟨_ | y, l1⟩
    · simp
    · simp [ih]

theorem forward_chain_cons [Inhabited α] [Zero α] [Add α] [Mul α] (l : Layer α)
    (ls : List (Layer α)) (x : Tensor α) :
    forward_chain (l :: ls) x =
      match forward_pass l x with
      | (none, l1) => (none, l1 :: ls)
      | (some y, l1) => ((forward_chain ls y).1, l1 :: (forward_chain ls y).2) := by
  rw [forward_chain]

theorem forward_chain_append [Inhabited α] [Zero α] [Add α] [Mul α] (xs : List (Layer α))
    (l : Layer α) (x : Tensor α) :
    forward_chain (xs ++ [l]) x =
      match forward_chain xs x with
      | (none, xs1) => (none, xs1 ++ [l])
      | (some y, xs1) => ((forward_pass l y).1, xs1 ++ [(forward_pass l y).2]) := by
  induction xs generalizing x with
  | nil =>
    simp only [List.nil_append, forward_chain]
    rcases h : forward_pass l x with ⟨_ | y, l1⟩ <;> simp
  | cons a xs ih =>
    rw [List.cons_append, forward_chain_cons, forward_chain_cons]
    rcases h : forward_pass a x with ⟨_ | y, l1⟩
    · simp
    · simp only
      rw [ih y]
      rcases h2 : forward_chain xs y with ⟨_ | z, xs1⟩ <;> simp

/-- The body of the loop of network_predict. -/
theorem predict_loop_prefix [Inhabited α] [Zero α] [Add α] [Mul α] (net : Network α)
    (input : Tensor α) (k : Nat) (hk : k ≤ net.layers.length) :
    for_range k (fun layer_idx (st : Option (Tensor α) × Network α) =>
      match st with
      | (none, net) => (none, net)
      | (some input_for_current_layer, net) =>
        match net.layers.get? layer_idx with
        | none => (none, net)
        | some layer =>
          match forward_pass layer input_for_current_layer with
          | (none, layer) => (none, net.setLayer layer_idx layer)
          | (some input_for_next_layer, layer) =>
            (some input_for_next_layer, net.setLayer layer_idx layer))
      (some input, net) =
    ((forward_chain (net.layers.take k) input).1,
     { net with layers := (forward_chain (net.layers.take k) input).2 ++ net.layers.drop k }) := by
  induction k with
  | zero => simp [for_range, forward_chain]
  | succ k ih =>
    rw [for_range_succ, ih (by omega)]
    have hlt : k < net.layers.length := by omega
    have htake : net.layers.take (k + 1) = net.layers.take k ++ [net.layers[k]] := by
      rw [List.take_succ, List.getElem?_eq_getElem hlt]; rfl
    have hdrop : net.layers.drop k = net.layers[k] :: net.layers.drop (k + 1) :=
      List.drop_eq_getElem_cons hlt
    have hlen := forward_chain_length (net.layers.take k) input
    have hlen2 : (forward_chain (net.layers.take k) input).2.length = k := by
      rw [hlen, List.length_take]; omega
    rw [htake, forward_chain_append]
    rcases h : forward_chain (net.layers.take k) input with ⟨_ | y, xs1⟩
    · simp only
      rw [hdrop]
      simp
    · rw [h] at hlen2
      simp only at hlen2
      have hget : (xs1 ++ net.layers.drop k).get? k = some net.layers[k] := by
        rw [hdrop, List.get?_eq_getElem?, List.getElem?_append_right (by omega)]
        simp [hlen2]
      simp only [hget]
      have hset : ∀ l1 : Layer α, (xs1 ++ net.layers.drop k).set k l1 =
          xs1 ++ [l1] ++ net.layers.drop (k + 1) := by
        intro l1
        rw [List.set_append_right _ _ (by omega), hlen2, Nat.sub_self, hdrop,
          List.set_cons_zero]
        simp
      rcases h2 : forward_pass net.layers[k] y with ⟨_ | z, l1⟩ <;>
        simp [Network.setLayer, hset]

theorem network_predict_eq_chain [Inhabited α] [Zero α] [Add α] [Mul α] (net : Network α)
    (input : Tensor α) (hn : net.n_layers ≠ 0)
    (hc : (input.cols : Int) = net.input_feature_size) :
    network_predict net input =
      ((forward_chain net.layers input).1,
       { net with layers := (forward_chain net.layers input).2 }) := by
  unfold network_predict
  rw [if_neg (by simp [hn, hc])]
  have := predict_loop_prefix net input net.n_layers (Nat.le_refl _)
  simp only [Network.n_layers] at this ⊢
  rw [this]
  simp

theorem forward_chain_fst [Inhabited α] [Zero α] [Add α] [Mul α] (ls : List (Layer α))
    (x : Tensor α) :
    (forward_chain ls x).1 =
      ls.foldl (fun acc l => acc.bind (fun x => (forward_pass l x).1)) (some x) := by
  induction ls generalizing x with
  | nil => rfl
  | cons l ls ih =>
    unfold forward_chain
    simp only [List.foldl_cons, Option.some_bind]
    rcases h : forward_pass l x with ⟨_ | y, l1⟩
    · simp only
      clear ih
      induction ls with
      | nil => rfl
      | cons a ls ih2 => simpa using ih2
    · simp only
      exact ih y

end NetworkLoops

section C8
variable {α : Type}

/-- C8: for a network with n > 0 layers and an input with input.cols == input_feature_size,
network_predict returns the result of applying forward_pass of layers 0, 1, ..., n-1 in
insertion order, each layer consuming the previous layer's output and layer 0 the input
(and no result as soon as one forward_pass returns none). -/
theorem network_predict_spec [Inhabited α] [Zero α] [Add α] [Mul α] (net : Network α)
    (input : Tensor α) (hn : 0 < net.n_layers)
    (hc : (input.cols : Int) = net.input_feature_size) :
    (network_predict net input).1 =
      net.layers.foldl (fun acc l => acc.bind (fun x => (forward_pass l x).1))
        (some input) := by
  rw [network_predict_eq_chain net input (by omega) hc]
  exact forward_chain_fst net.layers input

theorem network_predict_spec_witness :
    0 < sample_network.n_layers ∧
    (sample_input.cols : Int) = sample_network.input_feature_size ∧
    (network_predict sample_network sample_input).1 =
      sample_network.layers.foldl (fun acc l => acc.bind (fun x => (forward_pass l x).1))
        (some sample_input) :=
  ⟨by decide, by decide,
   network_predict_spec sample_network sample_input (by decide) (by decide)⟩

end C8
section CreateLayer
variable {α : Type}

theorem create_tensor_random_spec [Inhabited α] [LT α] [∀ a b : α, Decidable (a < b)]
    [Add α] [Sub α] [Mul α] (rand : Nat → α) (rows cols : Nat) (hr : 0 < rows)
    (hc : 0 < cols) (min max : α) (hm : ¬ min > max) :
    ∃ t : Tensor α, create_tensor_random rand (rows : Int) (cols : Int) min max = some t ∧
      t.rows = rows ∧ t.cols = cols ∧ t.WF ∧
      ∀ i j, i < rows → j < cols →
        t.cell i j = _random_float_range (rand (i * cols + j)) min max := by
  unfold create_tensor_random
  rw [if_neg hm, _create_tensor_pos rows cols hr hc]
  simp only [Int.toNat_ofNat]
  obtain ⟨h1, h2, h3, h4⟩ := loop_cells cols
    (fun i j _ => _random_float_range (rand (i * cols + j)) min max)
    (fun i j t => t.write (i * cols + j) (_random_float_range (rand (i * cols + j)) min max))
    (fun _ _ _ _ => rfl) rows
    ({ data := List.replicate (rows * cols) default, rows := rows, cols := cols } : Tensor α)
    rfl (by simp)
  refine ⟨_, rfl, h1, h2, ⟨?_, ?_, ?_⟩, h4⟩
  · rw [h1]; exact hr
  · rw [h2]; exact hc
  · rw [h3, h1, h2]; simp

theorem create_layer_none [Inhabited α] [LinearOrderedField α] (sqrt : α → α)
    (rand : Nat → α) (n_neurons prev_n_neurons : Int) (func : activation_function)
    (h : n_neurons ≤ 0 ∨ prev_n_neurons ≤ 0) :
    create_layer sqrt rand n_neurons prev_n_neurons func = none := by
  unfold create_layer
  rw [if_pos h]

theorem create_layer_some [Inhabited α] [LinearOrderedField α] (sqrt : α → α)
    (rand : Nat → α) (n_neurons prev_n_neurons : Int) (func : activation_function)
    (l : Layer α) (h : create_layer sqrt rand n_neurons prev_n_neurons func = some l) :
    0 < n_neurons ∧ 0 < prev_n_neurons ∧ l.n_neurons = n_neurons ∧
    l.n_neurons_prev = prev_n_neurons ∧ l.WF ∧ l.activation = create_activation func ∧
    l.d_weights = none ∧ l.d_biases = none ∧ l.input_transpose_cache = none ∧
    l.z_cache = none := by
  by_cases hn : n_neurons ≤ 0 ∨ prev_n_neurons ≤ 0
  · rw [create_layer_none sqrt rand _ _ func hn] at h
    exact absurd h (by simp)
  · have hn1 : 0 < n_neurons := by omega
    have hn2 : 0 < prev_n_neurons := by omega
    obtain ⟨n, rfl⟩ := Int.eq_ofNat_of_zero_le (le_of_lt hn1)
    obtain ⟨p, rfl⟩ := Int.eq_ofNat_of_zero_le (le_of_lt hn2)
    have hn' : 0 < n := by omega
    have hp' : 0 < p := by omega
    unfold create_layer at h
    rw [if_neg hn] at h
    simp only at h
    by_cases hm : -sqrt (6.0 / ((p : Int) : α)) > sqrt (6.0 / ((p : Int) : α))
    · have e0 : create_tensor_random rand ((p : Nat) : Int) ((n : Nat) : Int)
          (-sqrt (6.0 / ((p : Int) : α))) (sqrt (6.0 / ((p : Int) : α))) = none := by
        unfold create_tensor_random
        rw [if_pos hm]
      rw [e0] at h
      exact absurd h (by simp)
    · obtain ⟨w, e1, w1, w2, w3, -⟩ := create_tensor_random_spec rand p n hp' hn'
        (-sqrt (6.0 / ((p : Int) : α))) (sqrt (6.0 / ((p : Int) : α))) hm
      obtain ⟨b, e2, b1, b2, b3, -⟩ := create_tensor_value_spec 1 n (by omega) hn' (0.01 : α)
      simp only [Nat.cast_one] at e2
      rw [e1, e2] at h
      simp only [Option.some.injEq] at h
      subst h
      refine ⟨hn1, hn2, rfl, rfl, ⟨w3, ⟨?_, ?_, ?_⟩, ?_, ?_, b1, ?_⟩, rfl, rfl, rfl, rfl, rfl⟩
      · rw [b1]; exact Nat.one_pos
      · rw [b2]; exact hn'
      · rw [b3, b1, b2]
      · simp [w1]
      · simp [w2]
      · simp [b2]

theorem create_layer_pos [Inhabited α] [LinearOrderedField α] (sqrt : α → α)
    (hs : ∀ x, 0 ≤ sqrt x) (rand : Nat → α) (n_neurons prev_n_neurons : Int)
    (func : activation_function) (hn : 0 < n_neurons) (hp : 0 < prev_n_neurons) :
    ∃ l : Layer α, create_layer sqrt rand n_neurons prev_n_neurons func = some l := by
  obtain ⟨n, rfl⟩ := Int.eq_ofNat_of_zero_le (le_of_lt hn)
  obtain ⟨p, rfl⟩ := Int.eq_ofNat_of_zero_le (le_of_lt hp)
  have hm : ¬ -sqrt (6.0 / ((p : Int) : α)) > sqrt (6.0 / ((p : Int) : α)) := by
    have := hs (6.0 / ((p : Int) : α))
    intro h
    have h2 : -sqrt (6.0 / ((p : Int) : α)) ≤ 0 := by linarith
    have h3 : sqrt (6.0 / ((p : Int) : α)) < 0 := lt_of_lt_of_le h h2
    linarith
  obtain ⟨w, e1, -⟩ := create_tensor_random_spec rand p n (by omega) (by omega)
    (-sqrt (6.0 / ((p : Int) : α))) (sqrt (6.0 / ((p : Int) : α))) hm
  obtain ⟨b, e2, -⟩ := create_tensor_value_spec 1 n (by omega) (by omega) (0.01 : α)
  simp only [Nat.cast_one] at e2
  unfold create_layer
  rw [if_neg (by omega)]
  simp only [e1, e2]
  exact ⟨_, rfl⟩

end CreateLayer
section AddLayer
variable {α : Type}

/-- The number of inputs network_add_layer gives the new layer. -/
theorem add_layer_prev_eq [Inhabited α] (net : Network α) :
    (if net.n_layers = 0 then net.input_feature_size
      else match net.layers.get? (net.n_layers - 1) with
        | some prev => prev.n_neurons
        | none => 0) =
    match net.layers.getLast? with
    | none => net.input_feature_size
    | some prev => prev.n_neurons := by
  unfold Network.n_layers
  rcases List.eq_nil_or_concat net.layers with h | ⟨xs, x, h⟩
  · simp [h]
  · simp [h, List.getElem?_append_right]

theorem network_add_layer_eq [Inhabited α] [LinearOrderedField α] (sqrt : α → α)
    (rand : Nat → α) (net : Network α) (n_neurons : Int) (func : activation_function) :
    network_add_layer sqrt rand net n_neurons func =
      match create_layer sqrt rand n_neurons
        (match net.layers.getLast? with
          | none => net.input_feature_size
          | some prev => prev.n_neurons) func with
      | none => (0, net)
      | some new_layer =>
        (1, { net with
          layers := net.layers ++ [new_layer],
          capacity := if (net.n_layers : Int) = net.capacity
            then Int.tdiv (net.capacity * 3) 2 else net.capacity }) := by
  unfold network_add_layer
  simp only
  rw [add_layer_prev_eq]
  rcases hcl : create_layer sqrt rand n_neurons _ func with _ | l
  · rfl
  · simp only
    by_cases hcap : (net.n_layers : Int) = net.capacity
    · simp [hcap]
    · simp [hcap]

theorem chained_append {net : Network α} (hch : net.Chained) (l : Layer α)
    (cap : Int)
    (hl : l.n_neurons_prev = match net.layers.getLast? with
      | none => net.input_feature_size
      | some prev => prev.n_neurons) :
    ({ net with layers := net.layers ++ [l], capacity := cap } : Network α).Chained := by
  obtain ⟨h0, h1⟩ := hch
  constructor
  · intro x hx
    simp only at hx
    rcases hnil : net.layers with _ | ⟨a, as⟩
    · rw [hnil] at hx hl
      simp at hx
      subst hx
      simpa using hl
    · rw [hnil] at hx
      simp at hx
      subst hx
      apply h0
      rw [hnil]; simp
  · intro i p x hp hx
    simp only at hp hx
    by_cases hi : i + 1 < net.layers.length
    · rw [List.getElem?_append_left (by omega)] at hp
      rw [List.getElem?_append_left hi] at hx
      exact h1 i p x hp hx
    · have hlen : i + 1 = net.layers.length := by
        by_contra hne
        have : net.layers.length + 1 ≤ i + 1 := by omega
        rw [List.getElem?_eq_none (by simp; omega)] at hx
        exact absurd hx (by simp)
      rw [List.getElem?_append_left (by omega)] at hp
      rw [List.getElem?_append_right (by omega)] at hx
      have hx2 : x = l := by
        have : i + 1 - net.layers.length = 0 := by omega
        rw [this] at hx
        simpa using hx.symm
      subst hx2
      have hlast : net.layers.getLast? = some p := by
        rw [List.getLast?_eq_getElem?]
        have : net.layers.length - 1 = i := by omega
        rw [this]; exact hp
      rw [hlast] at hl
      exact hl

/-- What holds of every network built by create_network and network_add_layer. -/
theorem reachable_inv [Inhabited α] [LinearOrderedField α] (sqrt : α → α) (net : Network α)
    (h : net.Reachable sqrt) :
    net.Chained ∧ 0 < net.input_feature_size ∧
    ∀ l ∈ net.layers, 0 < l.n_neurons ∧ l.WF ∧ ∃ f, l.activation = create_activation f := by
  induction h with
  | create ifs lt ot lr net hc =>
    unfold create_network at hc
    by_cases hi : ifs ≤ 0
    · rw [if_pos hi] at hc; exact absurd hc (by simp)
    · rw [if_neg hi] at hc
      rcases ho : create_optimiser ot lr with _ | o
      · rw [ho] at hc; exact absurd hc (by simp)
      · rw [ho] at hc
        simp only [Option.some.injEq] at hc
        subst hc
        refine ⟨⟨?_, ?_⟩, by simpa using hi, ?_⟩
        · intro l hl; simp at hl
        · intro i p l hp; simp at hp
        · intro l hl; simp at hl
  | add_layer net rand n func _ ih =>
    obtain ⟨hch, hpos, hls⟩ := ih
    rw [network_add_layer_eq]
    rcases hcl : create_layer sqrt rand n _ func with _ | l
    · exact ⟨hch, hpos, hls⟩
    · obtain ⟨c1, -, c3, c4, c5, c6, -⟩ := create_layer_some sqrt rand _ _ func l hcl
      refine ⟨chained_append hch l _ c4, hpos, ?_⟩
      intro x hx
      simp only [List.mem_append, List.mem_singleton] at hx
      rcases hx with hx | hx
      · exact hls x hx
      · subst hx
        exact ⟨by rw [c3]; exact c1, c5, func, c6⟩

end AddLayer

section C9
variable {α : Type}

/-- C9: every network reachable from create_network by network_add_layer calls satisfies
the layer-chaining invariant (layers[0].n_neurons_prev == input_feature_size and
layers[i+1].n_neurons_prev == layers[i].n_neurons); on it a call of network_add_layer
either returns 1 and appends exactly one layer, with the requested n_neurons, at the end,
or returns 0 and leaves the network unchanged; it returns 0 when n_neurons <= 0, and
returns 1 when n_neurons > 0 (for a square root that is never negative). -/
theorem network_add_layer_spec [Inhabited α] [LinearOrderedField α] (sqrt : α → α)
    (net : Network α) (h : net.Reachable sqrt) :
    net.Chained ∧
    ∀ (rand : Nat → α) (n_neurons : Int) (func : activation_function),
      (((network_add_layer sqrt rand net n_neurons func).1 = 1 ∧
          ∃ l : Layer α,
            (network_add_layer sqrt rand net n_neurons func).2.layers = net.layers ++ [l] ∧
            l.n_neurons = n_neurons) ∨
        ((network_add_layer sqrt rand net n_neurons func).1 = 0 ∧
          (network_add_layer sqrt rand net n_neurons func).2 = net)) ∧
      (n_neurons ≤ 0 →
        (network_add_layer sqrt rand net n_neurons func).1 = 0 ∧
        (network_add_layer sqrt rand net n_neurons func).2 = net) ∧
      ((∀ x, 0 ≤ sqrt x) → 0 < n_neurons →
        (network_add_layer sqrt rand net n_neurons func).1 = 1) := by
  obtain ⟨hch, hpos, hls⟩ := reachable_inv sqrt net h
  refine ⟨hch, fun rand n func => ?_⟩
  rw [network_add_layer_eq]
  refine ⟨?_, fun hn => ?_, fun hs hn => ?_⟩
  · rcases hcl : create_layer sqrt rand n _ func with _ | l
    · exact Or.inr ⟨rfl, rfl⟩
    · obtain ⟨-, -, c3, -⟩ := create_layer_some sqrt rand _ _ func l hcl
      exact Or.inl ⟨rfl, l, rfl, c3⟩
  · rw [create_layer_none sqrt rand _ _ func (Or.inl hn)]
    exact ⟨rfl, rfl⟩
  · have hp : 0 < (match net.layers.getLast? with
        | none => net.input_feature_size
        | some prev => prev.n_neurons) := by
      rcases hl : net.layers.getLast? with _ | p
      · exact hpos
      · exact (hls p (List.mem_of_getLast?_eq_some hl)).1
    obtain ⟨l, e⟩ := create_layer_pos sqrt hs rand n _ func hn hp
    rw [e]

theorem sample_create_network :
    create_network 3 .MSE .SGD (1 / 100 : ℚ) = some sample_empty_network := by
  have hlr : ¬ ((1 / 100 : ℚ) < 0) := by norm_num
  unfold create_network create_optimiser
  rw [if_neg (by decide), if_neg hlr]
  rfl

theorem network_add_layer_spec_witness :
    Network.Reachable (fun _ => (1 : ℚ))
      (network_add_layer (fun _ => (1 : ℚ)) (fun _ => 1 / 2) sample_empty_network 2 .RELU).2 ∧
    (network_add_layer (fun _ => (1 : ℚ)) (fun _ => 1 / 2) sample_empty_network 2
      .RELU).2.Chained ∧
    ∀ (rand : Nat → ℚ) (n_neurons : Int) (func : activation_function),
      (((network_add_layer (fun _ => (1 : ℚ)) rand
            (network_add_layer (fun _ => (1 : ℚ)) (fun _ => 1 / 2) sample_empty_network 2
              .RELU).2 n_neurons func).1 = 1 ∧
          ∃ l : Layer ℚ,
            (network_add_layer (fun _ => (1 : ℚ)) rand
              (network_add_layer (fun _ => (1 : ℚ)) (fun _ => 1 / 2) sample_empty_network 2
                .RELU).2 n_neurons func).2.layers =
              (network_add_layer (fun _ => (1 : ℚ)) (fun _ => 1 / 2) sample_empty_network 2
                .RELU).2.layers ++ [l] ∧
            l.n_neurons = n_neurons) ∨
        ((network_add_layer (fun _ => (1 : ℚ)) rand
            (network_add_layer (fun _ => (1 : ℚ)) (fun _ => 1 / 2) sample_empty_network 2
              .RELU).2 n_neurons func).1 = 0 ∧
          (network_add_layer (fun _ => (1 : ℚ)) rand
            (network_add_layer (fun _ => (1 : ℚ)) (fun _ => 1 / 2) sample_empty_network 2
              .RELU).2 n_neurons func).2 =
            (network_add_layer (fun _ => (1 : ℚ)) (fun _ => 1 / 2) sample_empty_network 2
              .RELU).2)) ∧
      (n_neurons ≤ 0 →
        (network_add_layer (fun _ => (1 : ℚ)) rand
          (network_add_layer (fun _ => (1 : ℚ)) (fun _ => 1 / 2) sample_empty_network 2
            .RELU).2 n_neurons func).1 = 0 ∧
        (network_add_layer (fun _ => (1 : ℚ)) rand
          (network_add_layer (fun _ => (1 : ℚ)) (fun _ => 1 / 2) sample_empty_network 2
            .RELU).2 n_neurons func).2 =
          (network_add_layer (fun _ => (1 : ℚ)) (fun _ => 1 / 2) sample_empty_network 2
            .RELU).2) ∧
      ((∀ x : ℚ, 0 ≤ (fun _ => (1 : ℚ)) x) → 0 < n_neurons →
        (network_add_layer (fun _ => (1 : ℚ)) rand
          (network_add_layer (fun _ => (1 : ℚ)) (fun _ => 1 / 2) sample_empty_network 2
            .RELU).2 n_neurons func).1 = 1) :=
  ⟨Network.Reachable.add_layer _ _ _ _
      (Network.Reachable.create 3 .MSE .SGD (1 / 100) _ sample_create_network),
   network_add_layer_spec (fun _ => (1 : ℚ)) _
     (Network.Reachable.add_layer _ _ _ _
       (Network.Reachable.create 3 .MSE .SGD (1 / 100) _ sample_create_network))⟩

end C9
section TrainLoops
variable {α : Type}

theorem backward_chain_cons [Inhabited α] [Zero α] [Add α] [Mul α] (l : Layer α)
    (ls : List (Layer α)) (g : Tensor α) :
    backward_chain (l :: ls) g =
      match backward_chain ls g with
      | (none, ls1) => (none, l :: ls1)
      | (some g1, ls1) => ((backward_pass l g1).1, (backward_pass l g1).2 :: ls1) := by
  rw [backward_chain]

theorem backward_loop_step [Inhabited α] [Zero α] [Add α] [Mul α] (net : Network α)
    (layers : List (Layer α)) (g : Tensor α) (i : Nat) (hi : i < layers.length) :
    (match ((backward_chain (layers.drop (i + 1)) g).1,
        ({ net with layers := layers.take (i + 1) ++
          (backward_chain (layers.drop (i + 1)) g).2 } : Network α)) with
      | (none, net) => (none, net)
      | (some prev_grad, net) =>
        match net.layers.get? i with
        | none => (none, net)
        | some layer =>
          match backward_pass layer prev_grad with
          | (none, layer) => (none, net.setLayer i layer)
          | (some grad, layer) => (some grad, net.setLayer i layer)) =
    ((backward_chain (layers.drop i) g).1,
     { net with layers := layers.take i ++ (backward_chain (layers.drop i) g).2 }) := by
  have hdrop : layers.drop i = layers[i] :: layers.drop (i + 1) :=
    List.drop_eq_getElem_cons hi
  have htake : layers.take (i + 1) = layers.take i ++ [layers[i]] := by
    rw [List.take_succ, List.getElem?_eq_getElem hi]; rfl
  have hlen : (layers.take i).length = i := by
    rw [List.length_take]; omega
  have hcat : ∀ ls1 : List (Layer α),
      layers.take (i + 1) ++ ls1 = layers.take i ++ layers[i] :: ls1 := by
    intro ls1
    rw [htake, List.append_assoc]; rfl
  rw [hdrop, backward_chain_cons]
  rcases h : backward_chain (layers.drop (i + 1)) g with ⟨_ | g1, ls1⟩
  · simp only [hcat]
  · have hget : (layers.take (i + 1) ++ ls1).get? i = some layers[i] := by
      rw [hcat, List.get?_eq_getElem?, List.getElem?_append_right (by omega), hlen,
        Nat.sub_self]
      exact List.getElem?_cons_zero
    simp only [hget]
    have hset : ∀ l1 : Layer α,
        (layers.take (i + 1) ++ ls1).set i l1 = layers.take i ++ l1 :: ls1 := by
      intro l1
      rw [hcat, List.set_append_right _ _ (by omega), hlen, Nat.sub_self]
      rfl
    rcases h2 : backward_pass layers[i] g1 with ⟨_ | z, l1⟩ <;>
      simp only [Network.setLayer, hset]

theorem backward_loop_suffix [Inhabited α] [Zero α] [Add α] [Mul α] (net : Network α)
    (g : Tensor α) (k : Nat) (hk : k ≤ net.layers.length) :
    for_range k (fun step (st : Option (Tensor α) × Network α) =>
      let i := net.n_layers - 1 - step
      match st with
      | (none, net) => (none, net)
      | (some prev_grad, net) =>
        match net.layers.get? i with
        | none => (none, net)
        | some layer =>
          match backward_pass layer prev_grad with
          | (none, layer) => (none, net.setLayer i layer)
          | (some grad, layer) => (some grad, net.setLayer i layer))
      (some g, net) =
    ((backward_chain (net.layers.drop (net.layers.length - k)) g).1,
     { net with layers := net.layers.take (net.layers.length - k) ++
        (backward_chain (net.layers.drop (net.layers.length - k)) g).2 }) := by
  induction k with
  | zero => simp [for_range, backward_chain]
  | succ k ih =>
    rw [for_range_succ, ih (by omega)]
    have hidx : net.n_layers - 1 - k = net.layers.length - (k + 1) := by
      unfold Network.n_layers; omega
    have hsucc : net.layers.length - k = net.layers.length - (k + 1) + 1 := by omega
    rw [hsucc]
    simp only [hidx]
    exact backward_loop_step net net.layers g (net.layers.length - (k + 1)) (by omega)

theorem backward_loop_eq_chain [Inhabited α] [Zero α] [Add α] [Mul α] (net : Network α)
    (g : Tensor α) :
    backward_loop net g =
      ((backward_chain net.layers g).1,
       { net with layers := (backward_chain net.layers g).2 }) := by
  unfold backward_loop
  have := backward_loop_suffix net g net.n_layers (Nat.le_refl _)
  simp only [Network.n_layers] at this ⊢
  rw [this]
  simp

theorem optimiser_update_index [Inhabited α] [Add α] [Mul α] [Neg α] (opt : Optimiser α)
    (layer : Layer α) (i : Int) :
    optimiser_update opt layer i = optimiser_update opt layer 0 := by
  unfold optimiser_update
  cases opt.type <;> rfl

theorem update_loop_prefix [Inhabited α] [Add α] [Mul α] [Neg α] (net : Network α) (k : Nat)
    (hk : k ≤ net.layers.length) :
    for_range k (fun i (net : Network α) =>
      match net.layers.get? i with
      | none => net
      | some layer => net.setLayer i (optimiser_update net.optimiser layer i))
      net =
    { net with layers :=
        (net.layers.take k).map (fun l => optimiser_update net.optimiser l 0) ++
          net.layers.drop k } := by
  induction k with
  | zero => simp [for_range]
  | succ k ih =>
    rw [for_range_succ, ih (by omega)]
    have hlt : k < net.layers.length := by omega
    have htake : net.layers.take (k + 1) = net.layers.take k ++ [net.layers[k]] := by
      rw [List.take_succ, List.getElem?_eq_getElem hlt]; rfl
    have hdrop : net.layers.drop k = net.layers[k] :: net.layers.drop (k + 1) :=
      List.drop_eq_getElem_cons hlt
    have hlen : ((net.layers.take k).map
        (fun l => optimiser_update net.optimiser l 0)).length = k := by
      rw [List.length_map, List.length_take]; omega
    have hget : ((net.layers.take k).map (fun l => optimiser_update net.optimiser l 0) ++
        net.layers.drop k).get? k = some net.layers[k] := by
      rw [List.get?_eq_getElem?, List.getElem?_append_right (by omega), hlen, Nat.sub_self,
        hdrop]
      exact List.getElem?_cons_zero
    simp only [hget, Network.setLayer]
    rw [List.set_append_right _ _ (by omega), hlen, Nat.sub_self, hdrop, List.set_cons_zero,
      htake, optimiser_update_index]
    simp only [List.map_append, List.map_cons, List.map_nil, List.append_assoc,
      List.cons_append, List.nil_append]

theorem update_loop_eq_map [Inhabited α] [Add α] [Mul α] [Neg α] (net : Network α) :
    update_loop net =
      { net with layers := net.layers.map (fun l => optimiser_update net.optimiser l 0) } := by
  unfold update_loop
  have := update_loop_prefix net net.n_layers (Nat.le_refl _)
  simp only [Network.n_layers] at this ⊢
  rw [this]
  simp

end TrainLoops
section TrainStep
variable {α : Type}

theorem forall₂_getElem? {β γ : Type} {R : β → γ → Prop} {l1 : List β} {l2 : List γ}
    (h : List.Forall₂ R l1 l2) (i : Nat) (a : β) (ha : l1[i]? = some a) :
    ∃ b, l2[i]? = some b ∧ R a b := by
  induction h generalizing i with
  | nil => simp at ha
  | cons hab _ ih =>
    cases i with
    | zero =>
      simp only [List.getElem?_cons_zero, Option.some.injEq] at ha
      subst ha
      exact ⟨_, List.getElem?_cons_zero, hab⟩
    | succ i =>
      simp only [List.getElem?_cons_succ] at ha
      obtain ⟨b, hb, hr⟩ := ih i ha
      exact ⟨b, by simpa using hb, hr⟩

theorem tensor_multiplication_hadamard_none [Inhabited α] [Mul α] (t1 t2 : Tensor α)
    (h : t1.rows ≠ t2.rows ∨ t1.cols ≠ t2.cols) :
    tensor_multiplication_hadamard t1 t2 = none := by
  unfold tensor_multiplication_hadamard
  rw [if_pos h]

/-- The state a successful forward_pass leaves in a layer. -/
theorem forward_pass_success [Inhabited α] [Zero α] [Add α] [Mul α] (l l1 : Layer α)
    (x out : Tensor α) (hw : l.weights.WF) (hb1 : l.biases.rows = 1)
    (hbc : l.biases.cols = l.weights.cols) (hx : x.WF)
    (h : forward_pass l x = (some out, l1)) :
    ∃ z itc : Tensor α,
      l1 = { l with input_transpose_cache := some itc, z_cache := some z } ∧
      out = l.activation.forward_inplace z ∧
      z.WF ∧ itc.WF ∧ itc.rows = l.weights.rows ∧ itc.cols = z.rows ∧
      z.cols = l.weights.cols ∧ z.rows = x.rows := by
  have hc := forward_pass_some_cols _ _ _ _ h
  obtain ⟨z, itc, -, iwf, i1, i2, -, zwf, z1, z2, -, e⟩ := forward_pass_ok l x hw hb1 hbc hx hc
  rw [e] at h
  obtain ⟨h1, h2⟩ := Prod.mk.inj h
  exact ⟨z, itc, h2.symm, (Option.some.inj h1).symm, zwf, iwf, by rw [i1, hc],
    by rw [i2, z1], z2, z1⟩

theorem create_activation_forward_shape [Inhabited α] [Zero α] [LT α]
    [∀ a b : α, Decidable (a < b)] [Mul α] [OfScientific α] (func : activation_function)
    (z : Tensor α) (hz : z.WF) :
    ((create_activation func).forward_inplace z).WF ∧
    ((create_activation func).forward_inplace z).rows = z.rows ∧
    ((create_activation func).forward_inplace z).cols = z.cols := by
  rw [create_activation_forward]
  by_cases hf : func = .LINEAR
  · rw [if_pos hf]; exact ⟨hz, rfl, rfl⟩
  · rw [if_neg hf]
    obtain ⟨a1, a2, a3, -⟩ := tensor_apply_func_inplace_spec z
      (_apply_relu_to_element : α → α) hz.2.2
    exact ⟨⟨by rw [a1]; exact hz.1, by rw [a2]; exact hz.2.1, by rw [a3, a1, a2]; exact hz.2.2⟩,
      a1, a2⟩

/-- The state a successful backward_pass leaves in a layer that holds caches. -/
theorem backward_pass_success [Inhabited α] [Zero α] [LT α] [∀ a b : α, Decidable (a < b)]
    [Add α] [Mul α] [OfScientific α] (l1 l2 : Layer α) (og dx z itc : Tensor α)
    (func : activation_function) (ha : l1.activation = create_activation func)
    (hz : l1.z_cache = some z) (hitc : l1.input_transpose_cache = some itc)
    (hzw : z.WF) (hiw : itc.WF) (hic : itc.cols = z.rows) (hw : l1.weights.WF)
    (hwc : z.cols = l1.weights.cols)
    (h : backward_pass l1 og = (some dx, l2)) :
    og.rows = z.rows ∧ og.cols = z.cols ∧
    ∃ dW dB : Tensor α, l2 = { l1 with d_weights := some dW, d_biases := some dB } ∧
      dW.rows = itc.rows ∧ dW.cols = z.cols ∧ dB.rows = 1 ∧ dB.cols = z.cols ∧
      dx.WF ∧ dx.rows = z.rows ∧ dx.cols = l1.weights.rows := by
  obtain ⟨a1, a2, -, -⟩ := tensor_apply_func_inplace_spec z
    (if func = .LINEAR then _apply_d_linear_element else _apply_d_relu_to_element : α → α)
    hzw.2.2
  have hap := create_activation_backward func z hzw
  by_cases hs : og.rows = z.rows ∧ og.cols = z.cols
  · obtain ⟨dx', dW, dB, e, -, w1, w2, -, -, b1, b2, -, x3, x1, x2, -⟩ :=
      backward_pass_ok l1 og z itc _ hz hitc (by rw [ha]; exact hap) a1 a2 hzw hiw hic hw
        hwc.symm hs.1 hs.2
    rw [e] at h
    obtain ⟨h1, h2⟩ := Prod.mk.inj h
    have hdx : dx' = dx := Option.some.inj h1
    subst hdx
    exact ⟨hs.1, hs.2, dW, dB, h2.symm, w1, w2, b1, b2, x3, x1, x2⟩
  · exfalso
    have hne : og.rows ≠ (tensor_apply_func_inplace z
        (if func = .LINEAR then _apply_d_linear_element
          else _apply_d_relu_to_element : α → α)).rows ∨
        og.cols ≠ (tensor_apply_func_inplace z
        (if func = .LINEAR then _apply_d_linear_element
          else _apply_d_relu_to_element : α → α)).cols := by
      rw [a1, a2]
      by_cases hr : og.rows = z.rows
      · exact Or.inr (fun hc => hs ⟨hr, hc⟩)
      · exact Or.inl hr
    have hh := tensor_multiplication_hadamard_none og _ hne
    unfold backward_pass at h
    rw [ha] at h
    simp only [hz, hap, hh] at h
    exact absurd (Prod.mk.inj h).1 (by simp)

end TrainStep
section TrainStep2
variable {α : Type}

theorem forward_chain_success [Inhabited α] [LinearOrderedField α] (ls ls1 : List (Layer α))
    (x pred : Tensor α)
    (hl : ∀ l ∈ ls, l.WF ∧ ∃ f, l.activation = create_activation f) (hx : x.WF)
    (h : forward_chain ls x = (some pred, ls1)) :
    pred.WF ∧
    List.Forall₂ (fun l l1 => ∃ z itc : Tensor α,
      l1 = { l with input_transpose_cache := some itc, z_cache := some z } ∧
      z.WF ∧ itc.WF ∧ itc.rows = l.weights.rows ∧ itc.cols = z.rows ∧
      z.cols = l.weights.cols) ls ls1 := by
  induction ls generalizing x ls1 with
  | nil =>
    simp only [forward_chain, Prod.mk.injEq, Option.some.injEq] at h
    obtain ⟨h1, h2⟩ := h
    subst h1 h2
    exact ⟨hx, List.Forall₂.nil⟩
  | cons l rest ih =>
    rw [forward_chain_cons] at h
    obtain ⟨⟨hw, -, -, hwc, hb1, hbc⟩, f, hf⟩ := hl l (List.mem_cons_self _ _)
    rcases hfp : forward_pass l x with ⟨_ | y, l1⟩
    · rw [hfp] at h
      exact absurd (Prod.mk.inj h).1 (by simp)
    · rw [hfp] at h
      simp only [Prod.mk.injEq] at h
      obtain ⟨h1, h2⟩ := h
      obtain ⟨z, itc, e1, e2, zwf, iwf, i1, i2, z2, -⟩ :=
        forward_pass_success l l1 x y hw hb1 (by omega) hx hfp
      have hy : y.WF := by
        rw [e2, hf]
        exact (create_activation_forward_shape f z zwf).1
      obtain ⟨p1, p2⟩ := ih (forward_chain rest y).2 y
        (fun l' hl' => hl l' (List.mem_cons_of_mem _ hl')) hy
        (Prod.ext h1 rfl)
      rw [← h2]
      exact ⟨p1, List.Forall₂.cons ⟨z, itc, e1, zwf, iwf, i1, i2, z2⟩ p2⟩

theorem backward_chain_success [Inhabited α] [LinearOrderedField α]
    (ls ls1 ls2 : List (Layer α)) (g gN : Tensor α)
    (hl : ∀ l ∈ ls, l.WF ∧ ∃ f, l.activation = create_activation f)
    (hf : List.Forall₂ (fun l l1 => ∃ z itc : Tensor α,
      l1 = { l with input_transpose_cache := some itc, z_cache := some z } ∧
      z.WF ∧ itc.WF ∧ itc.rows = l.weights.rows ∧ itc.cols = z.rows ∧
      z.cols = l.weights.cols) ls ls1)
    (h : backward_chain ls1 g = (some gN, ls2)) :
    List.Forall₂ (fun l l2 => ∃ z itc dW dB : Tensor α,
      l2 = { l with input_transpose_cache := some itc, z_cache := some z,
                    d_weights := some dW, d_biases := some dB } ∧
      dW.rows = l.weights.rows ∧ dW.cols = l.weights.cols ∧
      dB.rows = 1 ∧ dB.cols = l.weights.cols) ls ls2 := by
  induction hf generalizing ls2 gN with
  | nil =>
    simp only [backward_chain, Prod.mk.injEq] at h
    rw [← h.2]
    exact List.Forall₂.nil
  | @cons l l1 rest rest1 hab _ ih =>
    rw [backward_chain_cons] at h
    obtain ⟨⟨hw, -⟩, f, hact⟩ := hl l (List.mem_cons_self _ _)
    obtain ⟨z, itc, e1, zwf, iwf, i1, i2, z2⟩ := hab
    rcases hbc : backward_chain rest1 g with ⟨_ | g1, ls'⟩
    · rw [hbc] at h
      exact absurd (Prod.mk.inj h).1 (by simp)
    · rw [hbc] at h
      simp only [Prod.mk.injEq] at h
      obtain ⟨h1, h2⟩ := h
      have hp := ih ls' g1 (fun l' hl' => hl l' (List.mem_cons_of_mem _ hl')) hbc
      subst e1
      obtain ⟨-, -, dW, dB, e, w1, w2, b1, b2, -⟩ :=
        backward_pass_success
          { l with input_transpose_cache := some itc, z_cache := some z }
          (backward_pass { l with input_transpose_cache := some itc, z_cache := some z } g1).2
          g1 gN z itc f hact rfl rfl zwf iwf i2 hw z2 (Prod.ext h1 rfl)
      rw [← h2]
      exact List.Forall₂.cons ⟨z, itc, dW, dB, e, by rw [w1, i1], by rw [w2, z2], b1,
        by rw [b2, z2]⟩ hp

/-- A completed batch step in terms of the three layer loops. -/
theorem train_batch_some [Inhabited α] [Zero α] [Add α] [Mul α] [Neg α] (net net3 : Network α)
    (x y : Tensor α) (loss : α) (h : train_batch net x y = (some loss, net3)) :
    ∃ (pred g0 gN : Tensor α) (net1 net2 : Network α),
      network_predict net x = (some pred, net1) ∧
      net1.loss_func.derivative pred y = some g0 ∧
      backward_loop net1 g0 = (some gN, net2) ∧
      net3 = update_loop net2 ∧ loss = net1.loss_func.loss pred y := by
  unfold train_batch at h
  rcases hp : network_predict net x with ⟨_ | pred, net1⟩
  · rw [hp] at h; exact absurd (Prod.mk.inj h).1 (by simp)
  · rw [hp] at h
    simp only at h
    rcases hd : net1.loss_func.derivative pred y with _ | g0
    · rw [hd] at h; exact absurd (Prod.mk.inj h).1 (by simp)
    · rw [hd] at h
      simp only at h
      rcases hb : backward_loop net1 g0 with ⟨_ | gN, net2⟩
      · rw [hb] at h; exact absurd (Prod.mk.inj h).1 (by simp)
      · rw [hb] at h
        simp only [Prod.mk.injEq, Option.some.injEq] at h
        exact ⟨pred, g0, gN, net1, net2, rfl, hd, hb, h.2.symm, h.1.symm⟩

theorem network_predict_some [Inhabited α] [Zero α] [Add α] [Mul α] (net net1 : Network α)
    (x pred : Tensor α) (h : network_predict net x = (some pred, net1)) :
    net.n_layers ≠ 0 ∧ (x.cols : Int) = net.input_feature_size ∧
    forward_chain net.layers x = (some pred, net1.layers) ∧
    net1 = { net with layers := net1.layers } := by
  by_cases hg : net.n_layers = 0 ∨ (x.cols : Int) ≠ net.input_feature_size
  · unfold network_predict at h
    rw [if_pos hg] at h
    exact absurd (Prod.mk.inj h).1 (by simp)
  · have hn : net.n_layers ≠ 0 := fun e => hg (Or.inl e)
    have hc : (x.cols : Int) = net.input_feature_size := by
      by_contra e; exact hg (Or.inr e)
    rw [network_predict_eq_chain net x hn hc] at h
    obtain ⟨h1, h2⟩ := Prod.mk.inj h
    subst h2
    exact ⟨hn, hc, Prod.ext h1 rfl, rfl⟩

end TrainStep2
section C4
variable {α : Type}

/-- C4 fails as stated for the optimisers whose update is a no-op: on the sample network
with an ADAM optimiser (learning rate 0.01) a batch step completes, leaves non-zero
d_weights in both layers, and leaves all weights and biases as they were at the start of
the step; cell (0,0) of the first layer's weights, 1, is not 1 minus 0.01 times -4. -/
theorem train_batch_two_phase_counterexample :
    sample_network_adam.optimiser.type = OptimiserType.ADAM ∧
    sample_network_adam.optimiser.learning_rate = 1 / 100 ∧
    (train_batch sample_network_adam sample_input sample_target).1 = some (65 / 16) ∧
    (train_batch sample_network_adam sample_input sample_target).2.layers.map
      (fun l => l.d_weights) =
      [some { data := [-4, 4, 7 / 4, -7 / 4, -9 / 2, 9 / 2], rows := 3, cols := 2 },
       some { data := [-43 / 2, -55 / 2], rows := 2, cols := 1 }] ∧
    (train_batch sample_network_adam sample_input sample_target).2.params =
      sample_network_adam.params ∧
    sample_network_adam.params =
      [({ data := [1, 2, 3, 4, 5, 6], rows := 3, cols := 2 },
        { data := [1 / 2, -1], rows := 1, cols := 2 }),
       ({ data := [1, -1], rows := 2, cols := 1 }, { data := [1 / 4], rows := 1, cols := 1 })] ∧
    (1 : ℚ) ≠ 1 - 1 / 100 * -4 := by
  refine ⟨rfl, rfl, by decide!, by decide!, by decide!, by decide!, by decide!⟩

/-- C4, amended: in a completed batch step of network_train (on well-formed layers and a
well-formed batch), the step is: predict, loss derivative, the whole backward loop, and
only then the update loop. Every layer holds its start-of-step weights and biases after the
forward loop and after the whole backward loop, so every d_weights, d_biases and propagated
gradient of the step is computed from them; the update leaves the gradients in place. With
an SGD optimiser it makes each layer's weights equal to its start-of-step weights minus
learning_rate times that d_weights, and likewise its biases; with an SGD_MOMENTUM or ADAM
optimiser, whose update is a no-op, weights and biases stay at their start-of-step
values. -/
theorem train_batch_two_phase [Inhabited α] [LinearOrderedField α] (net net3 : Network α)
    (x y : Tensor α) (loss : α)
    (hl : ∀ l ∈ net.layers, l.WF ∧ ∃ f, l.activation = create_activation f) (hx : x.WF)
    (h : train_batch net x y = (some loss, net3)) :
    ∃ (pred g0 gN : Tensor α) (net1 net2 : Network α),
      network_predict net x = (some pred, net1) ∧
      net1.loss_func.derivative pred y = some g0 ∧
      backward_loop net1 g0 = (some gN, net2) ∧
      net3 = update_loop net2 ∧
      ∀ (i : Nat) (l0 : Layer α), net.layers[i]? = some l0 →
        ∃ (l1 l2 l3 : Layer α) (dW dB : Tensor α),
          net1.layers[i]? = some l1 ∧ net2.layers[i]? = some l2 ∧
          net3.layers[i]? = some l3 ∧
          l1.weights = l0.weights ∧ l1.biases = l0.biases ∧
          l2.weights = l0.weights ∧ l2.biases = l0.biases ∧
          l2.d_weights = some dW ∧ l2.d_biases = some dB ∧
          l3.d_weights = some dW ∧ l3.d_biases = some dB ∧
          (net.optimiser.type = OptimiserType.SGD →
            (∀ r c, r < l0.weights.rows → c < l0.weights.cols →
              l3.weights.cell r c =
                l0.weights.cell r c - net.optimiser.learning_rate * dW.cell r c) ∧
            (∀ c, c < l0.biases.cols →
              l3.biases.cell 0 c =
                l0.biases.cell 0 c - net.optimiser.learning_rate * dB.cell 0 c)) ∧
          (net.optimiser.type ≠ OptimiserType.SGD →
            l3.weights = l0.weights ∧ l3.biases = l0.biases) := by
  obtain ⟨pred, g0, gN, net1, net2, hp, hd, hb, h3, -⟩ := train_batch_some net net3 x y loss h
  obtain ⟨-, -, hfc, hnet1⟩ := network_predict_some net net1 x pred hp
  obtain ⟨-, hF⟩ := forward_chain_success net.layers net1.layers x pred hl hx hfc
  rw [backward_loop_eq_chain] at hb
  obtain ⟨hb1, hb2⟩ := Prod.mk.inj hb
  have hB := backward_chain_success net.layers net1.layers _ g0 gN hl hF (Prod.ext hb1 rfl)
  have hopt2 : net2.optimiser = net.optimiser := by
    rw [← hb2, hnet1]
  have hl2 : net2.layers = (backward_chain net1.layers g0).2 := by rw [← hb2]
  refine ⟨pred, g0, gN, net1, net2, hp, hd, by rw [backward_loop_eq_chain]; exact hb, h3, ?_⟩
  intro i l0 hi
  obtain ⟨l1, hl1, z, itc, e1, -⟩ := forall₂_getElem? hF i l0 hi
  obtain ⟨l2, hl2', z', itc', dW, dB, e2, w1, w2, b1, b2⟩ := forall₂_getElem? hB i l0 hi
  obtain ⟨⟨-, -, hwlen⟩, ⟨-, -, hblen⟩, -, hwc, hbr, hbc⟩ := (hl l0 (List.getElem?_mem hi)).1
  have hl3 : net3.layers[i]? = some (optimiser_update net.optimiser l2 0) := by
    rw [h3, update_loop_eq_map, hopt2]
    simp only [List.getElem?_map, hl2, hl2', Option.map_some']
  have hgrad : (optimiser_update net.optimiser l2 0).d_weights = some dW ∧
      (optimiser_update net.optimiser l2 0).d_biases = some dB := by
    rw [e2]
    unfold optimiser_update
    cases net.optimiser.type with
    | SGD => exact ⟨rfl, rfl⟩
    | SGD_MOMENTUM => exact ⟨rfl, rfl⟩
    | ADAM => exact ⟨rfl, rfl⟩
  refine ⟨l1, l2, optimiser_update net.optimiser l2 0, dW, dB, hl1, by rw [hl2]; exact hl2',
    hl3, by rw [e1], by rw [e1], by rw [e2], by rw [e2], by rw [e2], by rw [e2],
    hgrad.1, hgrad.2, fun hopt => ?_, fun hopt => ?_⟩
  · have hupd : optimiser_update net.optimiser l2 0 =
        { l2 with
          weights := tensor_add_scaled_inplace l0.weights (some dW)
            (-net.optimiser.learning_rate),
          biases := tensor_add_scaled_inplace l0.biases (some dB)
            (-net.optimiser.learning_rate) } := by
      simp only [optimiser_update, hopt, _sgd_update, e2]
    obtain ⟨-, -, -, w4⟩ := tensor_add_scaled_inplace_spec l0.weights dW
      (-net.optimiser.learning_rate) hwlen w1.symm w2.symm
    obtain ⟨-, -, -, b4⟩ := tensor_add_scaled_inplace_spec l0.biases dB
      (-net.optimiser.learning_rate) hblen (by rw [b1, hbr]) (by rw [b2]; omega)
    refine ⟨fun r c hr hc => ?_, fun c hc => ?_⟩
    · rw [hupd]
      simp only
      rw [w4 r c hr hc]
      ring
    · rw [hupd]
      simp only
      rw [b4 0 c (by omega) hc]
      ring
  · have hupd : optimiser_update net.optimiser l2 0 = l2 := by
      unfold optimiser_update
      cases ht : net.optimiser.type with
      | SGD => exact absurd ht hopt
      | SGD_MOMENTUM => rfl
      | ADAM => rfl
    rw [hupd, e2]
    exact ⟨rfl, rfl⟩

theorem sample_train_batch :
    train_batch sample_network sample_input sample_target =
      (some (65 / 16), (train_batch sample_network sample_input sample_target).2) :=
  Prod.ext (by decide!) rfl

theorem sample_network_layers :
    ∀ l ∈ sample_network.layers, l.WF ∧ ∃ f, l.activation = create_activation f := by
  intro l hl
  simp only [sample_network, List.mem_cons, List.mem_singleton, List.not_mem_nil,
    or_false] at hl
  rcases hl with rfl | rfl
  · exact ⟨by decide, .RELU, rfl⟩
  · exact ⟨by decide, .LINEAR, rfl⟩

theorem train_batch_two_phase_witness :
    sample_network.optimiser.type = .SGD ∧
    (∀ l ∈ sample_network.layers, l.WF ∧ ∃ f, l.activation = create_activation f) ∧
    sample_input.WF ∧
    train_batch sample_network sample_input sample_target =
      (some (65 / 16), (train_batch sample_network sample_input sample_target).2) ∧
    ∃ (pred g0 gN : Tensor ℚ) (net1 net2 : Network ℚ),
      network_predict sample_network sample_input = (some pred, net1) ∧
      net1.loss_func.derivative pred sample_target = some g0 ∧
      backward_loop net1 g0 = (some gN, net2) ∧
      (train_batch sample_network sample_input sample_target).2 = update_loop net2 ∧
      ∀ (i : Nat) (l0 : Layer ℚ), sample_network.layers[i]? = some l0 →
        ∃ (l1 l2 l3 : Layer ℚ) (dW dB : Tensor ℚ),
          net1.layers[i]? = some l1 ∧ net2.layers[i]? = some l2 ∧
          (train_batch sample_network sample_input sample_target).2.layers[i]? = some l3 ∧
          l1.weights = l0.weights ∧ l1.biases = l0.biases ∧
          l2.weights = l0.weights ∧ l2.biases = l0.biases ∧
          l2.d_weights = some dW ∧ l2.d_biases = some dB ∧
          l3.d_weights = some dW ∧ l3.d_biases = some dB ∧
          (sample_network.optimiser.type = OptimiserType.SGD →
            (∀ r c, r < l0.weights.rows → c < l0.weights.cols →
              l3.weights.cell r c =
                l0.weights.cell r c - sample_network.optimiser.learning_rate * dW.cell r c) ∧
            (∀ c, c < l0.biases.cols →
              l3.biases.cell 0 c =
                l0.biases.cell 0 c -
                  sample_network.optimiser.learning_rate * dB.cell 0 c)) ∧
          (sample_network.optimiser.type ≠ OptimiserType.SGD →
            l3.weights = l0.weights ∧ l3.biases = l0.biases) :=
  ⟨rfl, sample_network_layers, by decide, sample_train_batch,
   train_batch_two_phase sample_network _ sample_input sample_target (65 / 16)
     sample_network_layers (by decide) sample_train_batch⟩

end C4
section Descent
variable {α : Type}

/-- The pairing of any `Q` with the prediction change of `E`, by exchanging the sums. -/
theorem gd_pairing [Field α] (m n : Nat) (X E Q : Nat → Nat → α) :
    ∑ i in Finset.range m, ∑ j in Finset.range n, Q i j * gd_P m n X E i j =
      ∑ j in Finset.range n,
        (∑ k in Finset.range n, gd_G m X Q k j * gd_G m X E k j + gd_H m Q j * gd_H m E j) := by
  rw [Finset.sum_comm]
  apply Finset.sum_congr rfl
  intro j _
  unfold gd_P
  simp only [mul_add, Finset.sum_add_distrib, Finset.mul_sum]
  congr 1
  · rw [Finset.sum_comm]
    apply Finset.sum_congr rfl
    intro k _
    unfold gd_G
    rw [Finset.sum_mul]
    apply Finset.sum_congr rfl
    intro i _
    ring
  · unfold gd_H
    rw [Finset.sum_mul]

theorem gd_N_nonneg [LinearOrderedField α] (m n : Nat) (X E : Nat → Nat → α) :
    0 ≤ gd_N m n X E := by
  unfold gd_N
  apply Finset.sum_nonneg
  intro j _
  apply add_nonneg
  · apply Finset.sum_nonneg
    intro k _
    exact sq_nonneg _
  · exact sq_nonneg _

/-- Cauchy-Schwarz for the prediction change: its squared norm is at most
(sum of X² + m) times the squared norm of the gradient. -/
theorem gd_P_sq_le [LinearOrderedField α] (m n : Nat) (X E : Nat → Nat → α) :
    gd_SS m n (gd_P m n X E) ≤
      ((∑ i in Finset.range m, ∑ k in Finset.range n, X i k ^ 2) + m) * gd_N m n X E := by
  have hcell : ∀ i j, gd_P m n X E i j ^ 2 ≤
      ((∑ k in Finset.range n, X i k ^ 2) + 1) *
        (∑ k in Finset.range n, gd_G m X E k j ^ 2 + gd_H m E j ^ 2) := by
    intro i j
    have hcs := Finset.sum_mul_sq_le_sq_mul_sq (Finset.range (n + 1))
      (fun k => if k < n then X i k else 1)
      (fun k => if k < n then gd_G m X E k j else gd_H m E j)
    have e1 : ∑ k in Finset.range (n + 1),
        (if k < n then X i k else 1) * (if k < n then gd_G m X E k j else gd_H m E j) =
        gd_P m n X E i j := by
      rw [Finset.sum_range_succ]
      unfold gd_P
      simp only [lt_irrefl, if_false, one_mul]
      congr 1
      apply Finset.sum_congr rfl
      intro k hk
      simp [Finset.mem_range.mp hk]
    have e2 : ∑ k in Finset.range (n + 1), (if k < n then X i k else (1 : α)) ^ 2 =
        (∑ k in Finset.range n, X i k ^ 2) + 1 := by
      rw [Finset.sum_range_succ]
      simp only [lt_irrefl, if_false, one_pow]
      congr 1
      apply Finset.sum_congr rfl
      intro k hk
      simp [Finset.mem_range.mp hk]
    have e3 : ∑ k in Finset.range (n + 1),
        (if k < n then gd_G m X E k j else gd_H m E j) ^ 2 =
        ∑ k in Finset.range n, gd_G m X E k j ^ 2 + gd_H m E j ^ 2 := by
      rw [Finset.sum_range_succ]
      simp only [lt_irrefl, if_false]
      congr 1
      apply Finset.sum_congr rfl
      intro k hk
      simp [Finset.mem_range.mp hk]
    rw [e1, e2, e3] at hcs
    exact hcs
  unfold gd_SS
  calc ∑ i in Finset.range m, ∑ j in Finset.range n, gd_P m n X E i j ^ 2
      ≤ ∑ i in Finset.range m, ∑ j in Finset.range n,
          ((∑ k in Finset.range n, X i k ^ 2) + 1) *
            (∑ k in Finset.range n, gd_G m X E k j ^ 2 + gd_H m E j ^ 2) := by
        apply Finset.sum_le_sum
        intro i _
        apply Finset.sum_le_sum
        intro j _
        exact hcell i j
    _ = ((∑ i in Finset.range m, ∑ k in Finset.range n, X i k ^ 2) + m) * gd_N m n X E := by
        unfold gd_N
        simp only [← Finset.mul_sum, ← Finset.sum_mul]
        congr 1
        rw [Finset.sum_add_distrib]
        simp

/-- One descent step changes the sum of squared residuals by `-2cN + c² |P|²`. -/
theorem gd_SS_step [LinearOrderedField α] (m n : Nat) (X E : Nat → Nat → α) (c : α) :
    gd_SS m n (gd_step m n X E c) =
      gd_SS m n E - 2 * c * gd_N m n X E + c ^ 2 * gd_SS m n (gd_P m n X E) := by
  have hN : gd_N m n X E =
      ∑ i in Finset.range m, ∑ j in Finset.range n, E i j * gd_P m n X E i j := by
    rw [gd_pairing]
    unfold gd_N
    apply Finset.sum_congr rfl
    intro j _
    congr 1
    · apply Finset.sum_congr rfl
      intro k _
      ring
    · ring
  rw [hN]
  unfold gd_SS gd_step
  simp only [Finset.mul_sum, ← Finset.sum_sub_distrib, ← Finset.sum_add_distrib]
  apply Finset.sum_congr rfl
  intro i _
  apply Finset.sum_congr rfl
  intro j _
  ring

/-- With a step size below 2/(sum of X² + m), a step from a point of nonzero gradient
strictly decreases the sum of squared residuals. -/
theorem gd_SS_decreases [LinearOrderedField α] (m n : Nat) (X E : Nat → Nat → α) (c : α)
    (hc : 0 < c)
    (hb : c * ((∑ i in Finset.range m, ∑ k in Finset.range n, X i k ^ 2) + m) < 2)
    (hN : 0 < gd_N m n X E) :
    gd_SS m n (gd_step m n X E c) < gd_SS m n E := by
  rw [gd_SS_step]
  have h1 := gd_P_sq_le m n X E
  have h2 : c ^ 2 * gd_SS m n (gd_P m n X E) ≤
      c ^ 2 * (((∑ i in Finset.range m, ∑ k in Finset.range n, X i k ^ 2) + m) *
        gd_N m n X E) :=
    mul_le_mul_of_nonneg_left h1 (sq_nonneg c)
  have h3 : 0 < c * gd_N m n X E *
      (2 - c * ((∑ i in Finset.range m, ∑ k in Finset.range n, X i k ^ 2) + m)) :=
    mul_pos (mul_pos hc hN) (by linarith)
  nlinarith [h2, h3]

theorem gd_G_step [Field α] (m n : Nat) (X E : Nat → Nat → α) (c : α) (k j : Nat) :
    gd_G m X (gd_step m n X E c) k j =
      gd_G m X E k j - c * gd_G m X (gd_P m n X E) k j := by
  unfold gd_G gd_step
  rw [Finset.mul_sum, ← Finset.sum_sub_distrib]
  apply Finset.sum_congr rfl
  intro i _
  ring

theorem gd_H_step [Field α] (m n : Nat) (X E : Nat → Nat → α) (c : α) (j : Nat) :
    gd_H m (gd_step m n X E c) j = gd_H m E j - c * gd_H m (gd_P m n X E) j := by
  unfold gd_H gd_step
  rw [Finset.mul_sum, ← Finset.sum_sub_distrib]

/-- With a step size below 1/(sum of X² + m), the gradient stays nonzero after a step. -/
theorem gd_N_step_pos [LinearOrderedField α] (m n : Nat) (X E : Nat → Nat → α) (c : α)
    (hc : 0 < c)
    (hb : c * ((∑ i in Finset.range m, ∑ k in Finset.range n, X i k ^ 2) + m) < 1)
    (hN : 0 < gd_N m n X E) :
    0 < gd_N m n X (gd_step m n X E c) := by
  rcases lt_or_eq_of_le (gd_N_nonneg m n X (gd_step m n X E c)) with h | h
  · exact h
  · exfalso
    have hz : ∀ j ∈ Finset.range n,
        (∑ k in Finset.range n, gd_G m X (gd_step m n X E c) k j ^ 2 +
          gd_H m (gd_step m n X E c) j ^ 2) = 0 := by
      have := h.symm
      unfold gd_N at this
      rw [Finset.sum_eq_zero_iff_of_nonneg] at this
      · exact this
      · intro j _
        exact add_nonneg (Finset.sum_nonneg (fun k _ => sq_nonneg _)) (sq_nonneg _)
    have hG : ∀ j ∈ Finset.range n, ∀ k ∈ Finset.range n,
        gd_G m X E k j = c * gd_G m X (gd_P m n X E) k j := by
      intro j hj k hk
      have h1 := hz j hj
      have h2 : ∑ k in Finset.range n, gd_G m X (gd_step m n X E c) k j ^ 2 = 0 := by
        have a1 : 0 ≤ ∑ k in Finset.range n, gd_G m X (gd_step m n X E c) k j ^ 2 :=
          Finset.sum_nonneg (fun k _ => sq_nonneg _)
        have a2 : 0 ≤ gd_H m (gd_step m n X E c) j ^ 2 := sq_nonneg _
        linarith
      rw [Finset.sum_eq_zero_iff_of_nonneg (fun k _ => sq_nonneg _)] at h2
      have h3 := h2 k hk
      have h4 : gd_G m X (gd_step m n X E c) k j = 0 := by
        exact pow_eq_zero_iff (two_ne_zero) |>.mp h3
      rw [gd_G_step] at h4
      linarith
    have hH : ∀ j ∈ Finset.range n, gd_H m E j = c * gd_H m (gd_P m n X E) j := by
      intro j hj
      have h1 := hz j hj
      have a1 : 0 ≤ ∑ k in Finset.range n, gd_G m X (gd_step m n X E c) k j ^ 2 :=
        Finset.sum_nonneg (fun k _ => sq_nonneg _)
      have a2 : 0 ≤ gd_H m (gd_step m n X E c) j ^ 2 := sq_nonneg _
      have h3 : gd_H m (gd_step m n X E c) j ^ 2 = 0 := by linarith
      have h4 : gd_H m (gd_step m n X E c) j = 0 := pow_eq_zero_iff (two_ne_zero) |>.mp h3
      rw [gd_H_step] at h4
      linarith
    have hNeq : gd_N m n X E = c * gd_SS m n (gd_P m n X E) := by
      have hpair := gd_pairing m n X E (gd_P m n X E)
      unfold gd_SS
      have e1 : ∑ i in Finset.range m, ∑ j in Finset.range n, gd_P m n X E i j ^ 2 =
          ∑ i in Finset.range m, ∑ j in Finset.range n,
            gd_P m n X E i j * gd_P m n X E i j := by
        apply Finset.sum_congr rfl
        intro i _
        apply Finset.sum_congr rfl
        intro j _
        ring
      rw [e1, hpair, Finset.mul_sum]
      unfold gd_N
      apply Finset.sum_congr rfl
      intro j hj
      rw [mul_add, Finset.mul_sum]
      congr 1
      · apply Finset.sum_congr rfl
        intro k hk
        rw [sq]
        nth_rewrite 1 [hG j hj k hk]
        ring
      · rw [sq]
        nth_rewrite 1 [hH j hj]
        ring
    have h1 := gd_P_sq_le m n X E
    have h2 : c * gd_SS m n (gd_P m n X E) ≤
        c * (((∑ i in Finset.range m, ∑ k in Finset.range n, X i k ^ 2) + m) *
          gd_N m n X E) :=
      mul_le_mul_of_nonneg_left h1 (le_of_lt hc)
    have h3 : c * (((∑ i in Finset.range m, ∑ k in Finset.range n, X i k ^ 2) + m) *
        gd_N m n X E) < gd_N m n X E := by
      have := mul_lt_mul_of_pos_right hb hN
      linarith
    linarith

end Descent
section SingleLayer
variable {α : Type}

/-- One batch step of a network with a single Linear layer, MSE loss and SGD. -/
theorem train_batch_single [Inhabited α] [LinearOrderedField α] (net : Network α)
    (l : Layer α) (X Y : Tensor α) (lt : loss_function_type) (hnet : net.layers = [l])
    (hifs : net.input_feature_size = (X.cols : Int)) (hloss : net.loss_func = create_loss lt)
    (hopt : net.optimiser.type = .SGD) (hl : l.WF)
    (hact : l.activation = create_activation .LINEAR) (hX : X.WF)
    (hw : l.weights.rows = X.cols) (hYr : Y.rows = X.rows) (hYc : Y.cols = l.weights.cols) :
    ∃ pred itc dW dB w b : Tensor α,
      train_batch net X Y =
        (some (_mse_loss pred Y),
         { net with layers := [{ l with input_transpose_cache := some itc,
                                        z_cache := some pred, d_weights := some dW,
                                        d_biases := some dB, weights := w, biases := b }] }) ∧
      pred.rows = X.rows ∧ pred.cols = l.weights.cols ∧
      (∀ i j, i < X.rows → j < l.weights.cols →
        pred.cell i j =
          (∑ k in Finset.range X.cols, X.cell i k * l.weights.cell k j) + l.biases.cell 0 j) ∧
      (∀ k j, k < X.cols → j < l.weights.cols →
        dW.cell k j = ∑ i in Finset.range X.rows, X.cell i k *
          ((2 / ((X.rows : α) * (l.weights.cols : α))) * (pred.cell i j - Y.cell i j))) ∧
      (∀ j, j < l.weights.cols →
        dB.cell 0 j = ∑ i in Finset.range X.rows,
          (2 / ((X.rows : α) * (l.weights.cols : α))) * (pred.cell i j - Y.cell i j)) ∧
      w.WF ∧ w.rows = l.weights.rows ∧ w.cols = l.weights.cols ∧
      (∀ k j, k < X.cols → j < l.weights.cols →
        w.cell k j = l.weights.cell k j - net.optimiser.learning_rate * dW.cell k j) ∧
      b.WF ∧ b.rows = 1 ∧ b.cols = l.weights.cols ∧
      (∀ j, j < l.weights.cols →
        b.cell 0 j = l.biases.cell 0 j - net.optimiser.learning_rate * dB.cell 0 j) := by
  obtain ⟨hww, hbw, -, hwc, hb1, hbc⟩ := hl
  have hbc2 : l.biases.cols = l.weights.cols := by omega
  -- forward
  obtain ⟨z, itc, -, iwf, i1, i2, i4, zwf, z1, z2, z3, efw⟩ :=
    forward_pass_ok l X hww hb1 hbc2 hX hw.symm
  have hfi : l.activation.forward_inplace z = z := by
    rw [hact, create_activation_forward]; simp
  rw [hfi] at efw
  have hpred : network_predict net X =
      (some z, { net with layers :=
        [{ l with input_transpose_cache := some itc, z_cache := some z }] }) := by
    rw [network_predict_eq_chain net X (by simp [Network.n_layers, hnet]) hifs.symm, hnet,
      forward_chain_cons, efw]
    simp [forward_chain]
  -- loss derivative
  obtain ⟨g0, eg, g1, g2, -, g4'⟩ := mse_derivative_cells z Y zwf (by rw [z1, hYr])
    (by rw [z2, hYc])
  have g4 : ∀ i j, i < z.rows → j < z.cols →
      g0.cell i j = (2 / ((z.rows : α) * (z.cols : α))) * (z.cell i j - Y.cell i j) := by
    intro i j hi hj
    rw [g4' i j hi hj, ofScientific_two, Nat.cast_mul, mul_comm (z.cols : α)]
  have hder : net.loss_func.derivative z Y = some g0 := by
    rw [hloss]; cases lt <;> exact eg
  have hlossv : net.loss_func.loss z Y = _mse_loss z Y := by
    rw [hloss]; cases lt <;> rfl
  -- backward
  obtain ⟨a1, a2, -, a4⟩ := tensor_apply_func_inplace_spec z
    (if activation_function.LINEAR = .LINEAR then _apply_d_linear_element
      else _apply_d_relu_to_element : α → α) zwf.2.2
  obtain ⟨dx, dW, dB, ebw, dWwf, w1, w2, w4, dBwf, b1, b2, b4, -⟩ :=
    backward_pass_ok { l with input_transpose_cache := some itc, z_cache := some z }
      g0 z itc _ rfl rfl
      (by simp only [hact]; exact create_activation_backward .LINEAR z zwf)
      a1 a2 zwf iwf (by rw [i2, z1]) hww z2.symm g1 g2
  have hback : backward_loop
      ({ net with layers :=
        [{ l with input_transpose_cache := some itc, z_cache := some z }] } : Network α) g0 =
      (some dx, { net with layers :=
        [{ l with input_transpose_cache := some itc, z_cache := some z,
                  d_weights := some dW, d_biases := some dB }] }) := by
    rw [backward_loop_eq_chain]
    simp only [backward_chain_cons, backward_chain, ebw]
  -- update
  obtain ⟨u1, u2, u3, u4⟩ := tensor_add_scaled_inplace_spec l.weights dW
    (-net.optimiser.learning_rate) hww.2.2 (by rw [w1, i1, hw]) (by rw [w2, z2])
  obtain ⟨v1, v2, v3, v4⟩ := tensor_add_scaled_inplace_spec l.biases dB
    (-net.optimiser.learning_rate) hbw.2.2 (by rw [b1, hb1]) (by rw [b2, z2, hbc2])
  refine ⟨z, itc, dW, dB,
    tensor_add_scaled_inplace l.weights (some dW) (-net.optimiser.learning_rate),
    tensor_add_scaled_inplace l.biases (some dB) (-net.optimiser.learning_rate),
    ?_, z1, z2, ?_, ?_, ?_, ⟨?_, ?_, ?_⟩, u1, u2, ?_, ⟨?_, ?_, ?_⟩, ?_, ?_, ?_⟩
  · unfold train_batch
    rw [hpred]
    simp only [hder, hlossv, hback, update_loop_eq_map, List.map_cons, List.map_nil,
      optimiser_update, hopt, _sgd_update]
  · intro i j hi hj
    rw [z3 i j hi hj, for_range_sum]
  · intro k j hk hj
    rw [w4 k j (by rw [i1]; exact hk) (by rw [z2]; exact hj), for_range_sum, z1]
    apply Finset.sum_congr rfl
    intro i hi
    have hi2 : i < X.rows := Finset.mem_range.mp hi
    rw [i4 k i hk hi2, a4 i j (by rw [z1]; exact hi2) (by rw [z2]; exact hj),
      g4 i j (by rw [z1]; exact hi2) (by rw [z2]; exact hj), z1, z2]
    simp only [if_true, _apply_d_linear_element]
    norm_num
  · intro j hj
    rw [b4 j (by rw [z2]; exact hj), for_range_sum, z1]
    apply Finset.sum_congr rfl
    intro i hi
    have hi2 : i < X.rows := Finset.mem_range.mp hi
    rw [a4 i j (by rw [z1]; exact hi2) (by rw [z2]; exact hj),
      g4 i j (by rw [z1]; exact hi2) (by rw [z2]; exact hj), z1, z2]
    simp only [if_true, _apply_d_linear_element]
    norm_num
  · rw [u1]; exact hww.1
  · rw [u2]; exact hww.2.1
  · rw [u3, u1, u2]; exact hww.2.2
  · intro k j hk hj
    rw [u4 k j (by rw [hw]; exact hk) hj]
    ring
  · rw [v1]; exact hbw.1
  · rw [v2]; exact hbw.2.1
  · rw [v3, v1, v2]; exact hbw.2.2
  · rw [v1]; exact hb1
  · rw [v2]; exact hbc2
  · intro j hj
    rw [v4 0 j (by omega) (by rw [hbc2]; exact hj)]
    ring

end SingleLayer
section DescentStep
variable {α : Type}

theorem gd_SS_congr [Field α] (m n : Nat) (E F : Nat → Nat → α)
    (h : ∀ i j, i < m → j < n → E i j = F i j) : gd_SS m n E = gd_SS m n F := by
  unfold gd_SS
  apply Finset.sum_congr rfl
  intro i hi
  apply Finset.sum_congr rfl
  intro j hj
  rw [h i j (Finset.mem_range.mp hi) (Finset.mem_range.mp hj)]

theorem gd_N_congr [Field α] (m n : Nat) (X E F : Nat → Nat → α)
    (h : ∀ i j, i < m → j < n → E i j = F i j) : gd_N m n X E = gd_N m n X F := by
  unfold gd_N gd_G gd_H
  apply Finset.sum_congr rfl
  intro j hj
  have hj2 := Finset.mem_range.mp hj
  congr 1
  · apply Finset.sum_congr rfl
    intro k _
    congr 1
    apply Finset.sum_congr rfl
    intro i hi
    rw [h i j (Finset.mem_range.mp hi) hj2]
  · congr 1
    apply Finset.sum_congr rfl
    intro i hi
    rw [h i j (Finset.mem_range.mp hi) hj2]

/-- One batch step of a one-layer Linear network on a batch that is its own target is one
descent step on the residual. -/
theorem train_batch_descent [Inhabited α] [LinearOrderedField α] (net : Network α)
    (l : Layer α) (X : Tensor α) (hg : net.OneLinearLayer l X) (hX : X.WF) :
    ∃ (l1 : Layer α) (dW dB : Tensor α),
      train_batch net X X =
        (some (gd_SS X.rows X.cols (layer_resid X l) / ((X.rows : α) * (X.cols : α))),
         { net with layers := [l1] }) ∧
      ({ net with layers := [l1] } : Network α).OneLinearLayer l1 X ∧
      (∀ i j, i < X.rows → j < X.cols →
        layer_resid X l1 i j =
          gd_step X.rows X.cols (fun i k => X.cell i k) (layer_resid X l)
            (net.optimiser.learning_rate * (2 / ((X.rows : α) * (X.cols : α)))) i j) ∧
      l1.d_weights = some dW ∧ l1.d_biases = some dB ∧
      (∀ k j, k < X.cols → j < X.cols →
        dW.cell k j = (2 / ((X.rows : α) * (X.cols : α))) *
          gd_G X.rows (fun i k => X.cell i k) (layer_resid X l) k j) ∧
      (∀ j, j < X.cols →
        dB.cell 0 j = (2 / ((X.rows : α) * (X.cols : α))) *
          gd_H X.rows (layer_resid X l) j) := by
  obtain ⟨hnet, hifs, ⟨lt, hloss⟩, hopt, hl, hact, hwr, hwc⟩ := hg
  obtain ⟨pred, itc, dW, dB, w, b, e, p1, p2, p3, d1, d2, wwf, w1, w2, w3, bwf, b1, b2, b3⟩ :=
    train_batch_single net l X X lt hnet hifs hloss hopt hl hact hX hwr rfl hwc.symm
  rw [hwc] at p2 p3 d1 d2 w2 w3 b2 b3
  have hres : ∀ i j, i < X.rows → j < X.cols →
      pred.cell i j - X.cell i j = layer_resid X l i j := by
    intro i j hi hj
    rw [p3 i j hi hj]
    rfl
  have hdW : ∀ k j, k < X.cols → j < X.cols →
      dW.cell k j = (2 / ((X.rows : α) * (X.cols : α))) *
        gd_G X.rows (fun i k => X.cell i k) (layer_resid X l) k j := by
    intro k j hk hj
    rw [d1 k j hk hj]
    unfold gd_G
    rw [Finset.mul_sum]
    apply Finset.sum_congr rfl
    intro i hi
    rw [hres i j (Finset.mem_range.mp hi) hj]
    ring
  have hdB : ∀ j, j < X.cols →
      dB.cell 0 j = (2 / ((X.rows : α) * (X.cols : α))) *
        gd_H X.rows (layer_resid X l) j := by
    intro j hj
    rw [d2 j hj]
    unfold gd_H
    rw [Finset.mul_sum]
    apply Finset.sum_congr rfl
    intro i hi
    rw [hres i j (Finset.mem_range.mp hi) hj]
  obtain ⟨-, -, hpr, hpc, hb1, hbc⟩ := hl
  refine ⟨({ l with
      input_transpose_cache := some itc, z_cache := some pred, d_weights := some dW,
      d_biases := some dB, weights := w, biases := b } : Layer α),
    dW, dB, ?_, ⟨rfl, hifs, ⟨lt, hloss⟩, hopt,
    ⟨wwf, bwf, by simp only; omega, by simp only; omega, b1, by simp only; omega⟩,
    hact, by simp only; omega, by simp only; omega⟩, ?_, rfl, rfl, hdW, hdB⟩
  · rw [e]
    congr 2
    unfold _mse_loss
    rw [if_neg (by simp [p1, p2])]
    simp only
    rw [for_range_add_sum2, zero_add, p1, p2, Nat.cast_mul, mul_comm (X.cols : α)]
    congr 1
    unfold gd_SS
    apply Finset.sum_congr rfl
    intro i hi
    apply Finset.sum_congr rfl
    intro j hj
    rw [← hres i j (Finset.mem_range.mp hi) (Finset.mem_range.mp hj)]
    ring
  · intro i j hi hj
    unfold gd_step gd_P
    simp only [layer_resid]
    rw [b3 j hj, hdB j hj]
    have : ∑ k in Finset.range X.cols, X.cell i k * w.cell k j =
        ∑ k in Finset.range X.cols, (X.cell i k * l.weights.cell k j -
          net.optimiser.learning_rate * (2 / ((X.rows : α) * (X.cols : α))) *
            (X.cell i k * gd_G X.rows (fun i k => X.cell i k) (layer_resid X l) k j)) := by
      apply Finset.sum_congr rfl
      intro k hk
      rw [w3 k j (Finset.mem_range.mp hk) hj, hdW k j (Finset.mem_range.mp hk) hj]
      ring
    rw [this, Finset.sum_sub_distrib, ← Finset.mul_sum]
    ring

end DescentStep
section Epochs
variable {α : Type}

theorem train_epoch_single [Inhabited α] [LinearOrderedField α] (net net1 : Network α)
    (X Y : Tensor α) (L : α) (h : train_batch net X Y = (some L, net1)) :
    train_epoch net [X] [Y] 1 = (some L, net1) := by
  unfold train_epoch
  have : (1 : Int).toNat = 1 := rfl
  rw [this, for_range_succ]
  simp [for_range, h]

theorem gd_N_pos_of_G [LinearOrderedField α] (m n : Nat) (X E : Nat → Nat → α) (k j : Nat)
    (hk : k < n) (hj : j < n) (h : gd_G m X E k j ≠ 0) : 0 < gd_N m n X E := by
  unfold gd_N
  have hterm : ∀ j' ∈ Finset.range n,
      0 ≤ ∑ k in Finset.range n, gd_G m X E k j' ^ 2 + gd_H m E j' ^ 2 := by
    intro j' _
    exact add_nonneg (Finset.sum_nonneg (fun k _ => sq_nonneg _)) (sq_nonneg _)
  have h1 : ∑ k in Finset.range n, gd_G m X E k j ^ 2 + gd_H m E j ^ 2 ≤
      ∑ j in Finset.range n, (∑ k in Finset.range n, gd_G m X E k j ^ 2 + gd_H m E j ^ 2) :=
    Finset.single_le_sum hterm (Finset.mem_range.mpr hj)
  have h2 : gd_G m X E k j ^ 2 ≤ ∑ k in Finset.range n, gd_G m X E k j ^ 2 :=
    Finset.single_le_sum (f := fun k => gd_G m X E k j ^ 2) (fun k _ => sq_nonneg _)
      (Finset.mem_range.mpr hk)
  have h3 : 0 < gd_G m X E k j ^ 2 := by positivity
  have h4 : 0 ≤ gd_H m E j ^ 2 := sq_nonneg _
  linarith

theorem gd_N_pos_of_H [LinearOrderedField α] (m n : Nat) (X E : Nat → Nat → α) (j : Nat)
    (hj : j < n) (h : gd_H m E j ≠ 0) : 0 < gd_N m n X E := by
  unfold gd_N
  have hterm : ∀ j' ∈ Finset.range n,
      0 ≤ ∑ k in Finset.range n, gd_G m X E k j' ^ 2 + gd_H m E j' ^ 2 := by
    intro j' _
    exact add_nonneg (Finset.sum_nonneg (fun k _ => sq_nonneg _)) (sq_nonneg _)
  have h1 : ∑ k in Finset.range n, gd_G m X E k j ^ 2 + gd_H m E j ^ 2 ≤
      ∑ j in Finset.range n, (∑ k in Finset.range n, gd_G m X E k j ^ 2 + gd_H m E j ^ 2) :=
    Finset.single_le_sum hterm (Finset.mem_range.mpr hj)
  have h2 : 0 ≤ ∑ k in Finset.range n, gd_G m X E k j ^ 2 :=
    Finset.sum_nonneg (fun k _ => sq_nonneg _)
  have h3 : 0 < gd_H m E j ^ 2 := by positivity
  linarith

/-- The epoch loop of network_train on a one-layer Linear network and one batch that is
its own target: every epoch succeeds and logs a loss below the one before. -/
theorem train_epochs_descent [Inhabited α] [LinearOrderedField α] (net : Network α)
    (l : Layer α) (X : Tensor α) (hg : net.OneLinearLayer l X) (hX : X.WF)
    (hc : 0 < net.optimiser.learning_rate * (2 / ((X.rows : α) * (X.cols : α))))
    (hb : net.optimiser.learning_rate * (2 / ((X.rows : α) * (X.cols : α))) *
      ((∑ i in Finset.range X.rows, ∑ k in Finset.range X.cols, X.cell i k ^ 2) + X.rows) < 1)
    (hN : 0 < gd_N X.rows X.cols (fun i k => X.cell i k) (layer_resid X l)) (E : Nat) :
    ∃ (netE : Network α) (lE : Layer α) (log : List α),
      for_range E (fun _e (st : Int × Network α × List α) =>
        match st with
        | (0, net, log) => (0, net, log)
        | (_, net, log) =>
          match train_epoch net [X] [X] 1 with
          | (none, net) => (0, net, log)
          | (some epoch_loss, net) => (1, net, log ++ [epoch_loss]))
        (1, net, []) = (1, netE, log) ∧
      netE.OneLinearLayer lE X ∧ netE.optimiser = net.optimiser ∧
      0 < gd_N X.rows X.cols (fun i k => X.cell i k) (layer_resid X lE) ∧
      log.length = E ∧
      (∀ (e : Nat) (L0 L1 : α), log[e]? = some L0 → log[e + 1]? = some L1 → L1 < L0) ∧
      (∀ L : α, log.getLast? = some L →
        gd_SS X.rows X.cols (layer_resid X lE) / ((X.rows : α) * (X.cols : α)) < L) := by
  have hmn : 0 < (X.rows : α) * (X.cols : α) := by
    have h1 : 0 < (X.rows : α) := Nat.cast_pos.mpr hX.1
    have h2 : 0 < (X.cols : α) := Nat.cast_pos.mpr hX.2.1
    exact mul_pos h1 h2
  induction E with
  | zero =>
    refine ⟨net, l, [], rfl, hg, rfl, hN, rfl, ?_, ?_⟩
    · intro e L0 L1 h0; simp at h0
    · intro L hL; simp at hL
  | succ E ih =>
    obtain ⟨netE, lE, log, e1, gE, oE, nE, lenE, chE, lastE⟩ := ih
    obtain ⟨l1, dW, dB, et, g1, hstep, -⟩ := train_batch_descent netE lE X gE hX
    rw [oE] at hstep
    have hb2 : net.optimiser.learning_rate * (2 / ((X.rows : α) * (X.cols : α))) *
        ((∑ i in Finset.range X.rows, ∑ k in Finset.range X.cols, X.cell i k ^ 2) + X.rows)
        < 2 := by linarith
    have hSS : gd_SS X.rows X.cols (layer_resid X l1) <
        gd_SS X.rows X.cols (layer_resid X lE) := by
      rw [gd_SS_congr _ _ _ _ hstep]
      exact gd_SS_decreases _ _ _ _ _ hc hb2 nE
    have hN1 : 0 < gd_N X.rows X.cols (fun i k => X.cell i k) (layer_resid X l1) := by
      rw [gd_N_congr _ _ _ _ _ hstep]
      exact gd_N_step_pos _ _ _ _ _ hc hb nE
    refine ⟨{ netE with layers := [l1] }, l1,
      log ++ [gd_SS X.rows X.cols (layer_resid X lE) / ((X.rows : α) * (X.cols : α))],
      ?_, g1, oE, hN1, by simp [lenE], ?_, ?_⟩
    · rw [for_range_succ, e1]
      simp only [train_epoch_single netE _ X X _ et]
    · intro e L0 L1 h0 h1
      by_cases he : e + 1 < log.length
      · rw [List.getElem?_append_left (by omega)] at h0
        rw [List.getElem?_append_left he] at h1
        exact chE e L0 L1 h0 h1
      · have hlen : e + 1 = log.length := by
          by_contra hne
          rw [List.getElem?_eq_none (by simp; omega)] at h1
          exact absurd h1 (by simp)
        rw [List.getElem?_append_left (by omega)] at h0
        rw [List.getElem?_append_right (by omega)] at h1
        have h1' : L1 =
            gd_SS X.rows X.cols (layer_resid X lE) / ((X.rows : α) * (X.cols : α)) := by
          have : e + 1 - log.length = 0 := by omega
          rw [this] at h1
          simpa using h1.symm
        rw [h1']
        apply lastE
        rw [List.getLast?_eq_getElem?]
        have : log.length - 1 = e := by omega
        rw [this]; exact h0
    · intro L hL
      rw [List.getLast?_concat, Option.some.injEq] at hL
      rw [← hL]
      exact div_lt_div_of_pos_right hSS hmn

end Epochs
section DescentExact
variable {α : Type}

/-- Descent in exact arithmetic, scalars in a linearly ordered field: for a network with
input_feature_size 3, a single Linear layer of 3 neurons, MSE loss and SGD with learning
rate 0.01, trained by network_train on one batch of 4 samples × 3 features whose target is
the batch itself, if the squared entries of the batch sum to less than 596 and the gradient
of the first step (the d_weights and d_biases that the first batch step leaves in the
layer) is not zero, then for every number of epochs network_train succeeds, logs one loss
per epoch, and the loss of each epoch is strictly smaller than the loss of the previous
epoch. Rounding is not part of this statement: over `F32` the loss can rise once it is
small. -/
theorem network_train_descent_exact [Inhabited α] [LinearOrderedField α] (net : Network α)
    (l : Layer α) (X : Tensor α) (epochs : Int) (hnet : net.layers = [l])
    (hifs : net.input_feature_size = 3) (hloss : net.loss_func = create_loss .MSE)
    (hopt : net.optimiser.type = .SGD) (hlr : net.optimiser.learning_rate = 0.01)
    (hl : l.WF) (hn : l.n_neurons = 3) (hp : l.n_neurons_prev = 3)
    (hact : l.activation = create_activation .LINEAR)
    (hX : X.WF) (hr : X.rows = 4) (hc : X.cols = 3)
    (hS : ∑ i in Finset.range 4, ∑ k in Finset.range 3, X.cell i k ^ 2 < 596)
    (r : Option α) (net1 : Network α) (l1 : Layer α) (dW dB : Tensor α)
    (hstep : train_batch net X X = (r, net1)) (hl1 : net1.layers = [l1])
    (hdW : l1.d_weights = some dW) (hdB : l1.d_biases = some dB)
    (hne : (∃ k j, k < 3 ∧ j < 3 ∧ dW.cell k j ≠ 0) ∨ ∃ j, j < 3 ∧ dB.cell 0 j ≠ 0)
    (he : 0 < epochs) :
    ∃ (netE : Network α) (log : List α),
      network_train net [X] [X] 1 epochs = (1, netE, log) ∧
      log.length = epochs.toNat ∧
      ∀ (e : Nat) (L0 L1 : α), log[e]? = some L0 → log[e + 1]? = some L1 → L1 < L0 := by
  have hg : net.OneLinearLayer l X := by
    have ⟨_, _, h3, h4, _, _⟩ := hl
    exact ⟨hnet, by rw [hifs, hc]; rfl, ⟨.MSE, hloss⟩, hopt, hl, hact, by omega, by omega⟩
  have hcpos : 0 < net.optimiser.learning_rate * (2 / ((X.rows : α) * (X.cols : α))) := by
    rw [hlr, hr, hc]; norm_num
  have hb : net.optimiser.learning_rate * (2 / ((X.rows : α) * (X.cols : α))) *
      ((∑ i in Finset.range X.rows, ∑ k in Finset.range X.cols, X.cell i k ^ 2) + X.rows)
      < 1 := by
    rw [hlr, hr, hc]
    norm_num
    linarith
  have hN : 0 < gd_N X.rows X.cols (fun i k => X.cell i k) (layer_resid X l) := by
    obtain ⟨l1', dW', dB', et, -, -, ew, eb, hdW', hdB'⟩ := train_batch_descent net l X hg hX
    rw [et] at hstep
    obtain ⟨-, hn1⟩ := Prod.mk.inj hstep
    rw [← hn1] at hl1
    simp only [List.cons.injEq, and_true] at hl1
    subst hl1
    rw [ew] at hdW
    rw [eb] at hdB
    have e1 : dW' = dW := Option.some.inj hdW
    have e2 : dB' = dB := Option.some.inj hdB
    subst e1 e2
    rcases hne with ⟨k, j, hk, hj, hkj⟩ | ⟨j, hj, hj0⟩
    · apply gd_N_pos_of_G _ _ _ _ k j (by omega) (by omega)
      intro h0
      apply hkj
      rw [hdW' k j (by omega) (by omega), h0, mul_zero]
    · apply gd_N_pos_of_H _ _ _ _ j (by omega)
      intro h0
      apply hj0
      rw [hdB' j (by omega), h0, mul_zero]
  obtain ⟨netE, lE, log, e1, -, -, -, lenE, chE, -⟩ :=
    train_epochs_descent net l X hg hX hcpos hb hN epochs.toNat
  refine ⟨netE, log, ?_, lenE, chE⟩
  unfold network_train
  rw [if_neg (by omega)]
  simp only [List.get?_cons_zero]
  rw [if_neg (by rw [hifs, hc]; simp)]
  exact e1

theorem square_network_rate (w b : List ℚ) :
    (square_network w b).optimiser.learning_rate = 0.01 := by
  norm_num [square_network, sample_sgd]

theorem batch_unit_small :
    ∑ i in Finset.range 4, ∑ k in Finset.range 3, batch_unit.cell i k ^ 2 < 596 := by
  decide!

theorem sample_first_gradient :
    ∃ l1 : Layer ℚ,
      (train_batch (square_network [0, 0, 0, 0, 0, 0, 0, 0, 0] [1 / 100, 1 / 100, 1 / 100])
        batch_unit batch_unit).2.layers = [l1] ∧
      l1.d_weights = some { data := [-33 / 100, -49 / 300, -49 / 300, -49 / 300, -33 / 100,
        -49 / 300, -49 / 300, -49 / 300, -33 / 100], rows := 3, cols := 3 } ∧
      l1.d_biases = some { data := [-49 / 150, -49 / 150, -49 / 150], rows := 1, cols := 3 } := by
  have h : (train_batch
      (square_network [0, 0, 0, 0, 0, 0, 0, 0, 0] [1 / 100, 1 / 100, 1 / 100])
      batch_unit batch_unit).2.layers.map (fun l => (l.d_weights, l.d_biases)) =
      [(some { data := [-33 / 100, -49 / 300, -49 / 300, -49 / 300, -33 / 100, -49 / 300,
                        -49 / 300, -49 / 300, -33 / 100], rows := 3, cols := 3 },
        some { data := [-49 / 150, -49 / 150, -49 / 150], rows := 1, cols := 3 })] := by
    decide!
  rcases hls : (train_batch
      (square_network [0, 0, 0, 0, 0, 0, 0, 0, 0] [1 / 100, 1 / 100, 1 / 100])
      batch_unit batch_unit).2.layers with _ | ⟨l1, _ | ⟨l2, t⟩⟩
  · rw [hls] at h; simp at h
  · rw [hls] at h
    simp only [List.map_cons, List.map_nil, List.cons.injEq, Prod.mk.injEq, and_true] at h
    exact ⟨l1, rfl, h.1, h.2⟩
  · rw [hls] at h; simp at h

theorem network_train_descent_exact_witness :
    (square_network [0, 0, 0, 0, 0, 0, 0, 0, 0] [1 / 100, 1 / 100, 1 / 100]).layers =
      [square_layer [0, 0, 0, 0, 0, 0, 0, 0, 0] [1 / 100, 1 / 100, 1 / 100]] ∧
    (square_network [0, 0, 0, 0, 0, 0, 0, 0, 0]
      [1 / 100, 1 / 100, 1 / 100]).optimiser.learning_rate = 0.01 ∧
    (square_layer [0, 0, 0, 0, 0, 0, 0, 0, 0] [1 / 100, 1 / 100, 1 / 100]).WF ∧
    batch_unit.WF ∧
    ∑ i in Finset.range 4, ∑ k in Finset.range 3, batch_unit.cell i k ^ 2 < 596 ∧
    (∃ l1 : Layer ℚ,
      (train_batch (square_network [0, 0, 0, 0, 0, 0, 0, 0, 0] [1 / 100, 1 / 100, 1 / 100])
        batch_unit batch_unit).2.layers = [l1] ∧
      l1.d_weights = some { data := [-33 / 100, -49 / 300, -49 / 300, -49 / 300, -33 / 100,
        -49 / 300, -49 / 300, -49 / 300, -33 / 100], rows := 3, cols := 3 } ∧
      l1.d_biases =
        some { data := [-49 / 150, -49 / 150, -49 / 150], rows := 1, cols := 3 }) ∧
    ∃ (netE : Network ℚ) (log : List ℚ),
      network_train
        (square_network [0, 0, 0, 0, 0, 0, 0, 0, 0] [1 / 100, 1 / 100, 1 / 100])
        [batch_unit] [batch_unit] 1 5 = (1, netE, log) ∧
      log.length = (5 : Int).toNat ∧
      ∀ (e : Nat) (L0 L1 : ℚ), log[e]? = some L0 → log[e + 1]? = some L1 → L1 < L0 :=
  ⟨rfl, square_network_rate _ _, by decide, by decide, batch_unit_small,
   sample_first_gradient,
   sample_first_gradient.elim fun l1 h =>
     network_train_descent_exact
       (square_network [0, 0, 0, 0, 0, 0, 0, 0, 0] [1 / 100, 1 / 100, 1 / 100])
       (square_layer [0, 0, 0, 0, 0, 0, 0, 0, 0] [1 / 100, 1 / 100, 1 / 100])
       batch_unit 5 rfl rfl rfl rfl (square_network_rate _ _) (by decide)
       rfl rfl rfl (by decide) rfl rfl batch_unit_small _ _ l1 _ _ rfl h.1 h.2.1 h.2.2
       (Or.inr ⟨0, by decide, by decide!⟩) (by decide)⟩

end DescentExact
section C11
variable {α : Type}

/-- C11: transposing a well-formed tensor twice succeeds both times and gives back a tensor
with the rows and cols of the original and the same value in every cell; the result is the
original tensor itself. -/
theorem tensor_transpose_involutive [Inhabited α] (T : Tensor α) (h : T.WF) :
    ∃ t1 t2 : Tensor α, tensor_transpose T = some t1 ∧ tensor_transpose t1 = some t2 ∧
      t2.rows = T.rows ∧ t2.cols = T.cols ∧
      (∀ i j, i < T.rows → j < T.cols → t2.cell i j = T.cell i j) ∧ t2 = T := by
  obtain ⟨t1, e1, r1, c1, wf1, cell1⟩ := tensor_transpose_spec T h
  obtain ⟨t2, e2, r2, c2, wf2, cell2⟩ := tensor_transpose_spec t1 wf1
  have hr : t2.rows = T.rows := by rw [r2, c1]
  have hc : t2.cols = T.cols := by rw [c2, r1]
  have hcell : ∀ i j, i < T.rows → j < T.cols → t2.cell i j = T.cell i j := by
    intro i j hi hj
    rw [cell2 i j (by rw [c1]; exact hi) (by rw [r1]; exact hj), cell1 j i hj hi]
  exact ⟨t1, t2, e1, e2, hr, hc, hcell, Tensor.ext_cells wf2.2.2 h.2.2 hr hc hcell⟩

theorem tensor_transpose_involutive_witness :
    sample_input.WF ∧
    ∃ t1 t2 : Tensor ℚ, tensor_transpose sample_input = some t1 ∧
      tensor_transpose t1 = some t2 ∧
      t2.rows = sample_input.rows ∧ t2.cols = sample_input.cols ∧
      (∀ i j, i < sample_input.rows → j < sample_input.cols →
        t2.cell i j = sample_input.cell i j) ∧ t2 = sample_input :=
  ⟨by decide, tensor_transpose_involutive sample_input (by decide)⟩

end C11
section C12
variable {α : Type}

/-- C12: on a well-formed layer created with the Linear activation and an input with
input.cols = n_neurons_prev, forward_pass returns a tensor, the layer then holds a z_cache,
and the returned tensor has the shape of that z_cache and the same value in every cell (the
two tensors are equal). -/
theorem forward_pass_linear_is_z_cache [Inhabited α] [LinearOrderedField α] (layer : Layer α)
    (input : Tensor α) (hl : layer.WF)
    (ha : layer.activation = create_activation activation_function.LINEAR)
    (hin : input.WF) (hc : (input.cols : Int) = layer.n_neurons_prev) :
    ∃ (out z : Tensor α) (layer1 : Layer α),
      forward_pass layer input = (some out, layer1) ∧ layer1.z_cache = some z ∧
      out.rows = z.rows ∧ out.cols = z.cols ∧
      (∀ i j, i < z.rows → j < z.cols → out.cell i j = z.cell i j) ∧ out = z := by
  obtain ⟨hw, hb, hwr, hwc, hb1, hbc⟩ := hl
  have hc1 : input.cols = layer.weights.rows := by
    have : (input.cols : Int) = (layer.weights.rows : Int) := by rw [hc, hwr]
    exact_mod_cast this
  have hbc1 : layer.biases.cols = layer.weights.cols := by
    have : (layer.biases.cols : Int) = (layer.weights.cols : Int) := by rw [hbc, hwc]
    exact_mod_cast this
  obtain ⟨z, itc, -, -, -, -, -, -, -, -, -, e⟩ :=
    forward_pass_ok layer input hw hb1 hbc1 hin hc1
  have hout : layer.activation.forward_inplace z = z := by
    rw [ha, create_activation_forward, if_pos rfl]
  rw [hout] at e
  exact ⟨z, z, _, e, rfl, rfl, rfl, fun _ _ _ _ => rfl, rfl⟩

theorem forward_pass_linear_is_z_cache_witness :
    (sample_layer activation_function.LINEAR).WF ∧ sample_input.WF ∧
    ∃ (out z : Tensor ℚ) (layer1 : Layer ℚ),
      forward_pass (sample_layer activation_function.LINEAR) sample_input = (some out, layer1) ∧
      layer1.z_cache = some z ∧ out.rows = z.rows ∧ out.cols = z.cols ∧
      (∀ i j, i < z.rows → j < z.cols → out.cell i j = z.cell i j) ∧ out = z :=
  ⟨by decide, by decide,
    forward_pass_linear_is_z_cache (sample_layer activation_function.LINEAR) sample_input
      (by decide) rfl (by decide) (by decide)⟩

end C12
section C13
variable {α : Type}

/-- C13: the forward_inplace of the ReLU activation keeps rows and cols and replaces every
cell x by x when x > 0 and by 0.01 * x otherwise; a cell holding -1.0 becomes -0.01 and a
cell holding 2.0 stays 2.0. -/
theorem relu_forward_inplace_spec [Inhabited α] [LinearOrderedField α] (t : Tensor α)
    (hlen : t.data.length = t.rows * t.cols) :
    ((create_activation activation_function.RELU).forward_inplace t).rows = t.rows ∧
    ((create_activation activation_function.RELU).forward_inplace t).cols = t.cols ∧
    (∀ i j, i < t.rows → j < t.cols →
      ((create_activation activation_function.RELU).forward_inplace t).cell i j =
        if t.cell i j > 0 then t.cell i j else 0.01 * t.cell i j) ∧
    (∀ i j, i < t.rows → j < t.cols → t.cell i j = -1.0 →
      ((create_activation activation_function.RELU).forward_inplace t).cell i j = -0.01) ∧
    (∀ i j, i < t.rows → j < t.cols → t.cell i j = 2.0 →
      ((create_activation activation_function.RELU).forward_inplace t).cell i j = 2.0) := by
  have e : (create_activation activation_function.RELU).forward_inplace t =
      tensor_apply_func_inplace t _apply_relu_to_element := by
    rw [create_activation_forward, if_neg (by decide)]
  obtain ⟨a1, a2, -, a4⟩ := tensor_apply_func_inplace_spec t
    (_apply_relu_to_element : α → α) hlen
  rw [e]
  refine ⟨a1, a2, fun i j hi hj => ?_, fun i j hi hj hx => ?_, fun i j hi hj hx => ?_⟩
  · rw [a4 i j hi hj]; rfl
  · rw [a4 i j hi hj, hx]
    unfold _apply_relu_to_element
    rw [if_neg (by norm_num)]
    norm_num
  · rw [a4 i j hi hj, hx]
    unfold _apply_relu_to_element
    rw [if_pos (by norm_num)]

theorem relu_forward_inplace_spec_witness :
    (create_activation activation_function.RELU).forward_inplace
      ({ data := [-1, 2, 0, 1 / 2], rows := 2, cols := 2 } : Tensor ℚ) =
      { data := [-1 / 100, 2, 0, 1 / 2], rows := 2, cols := 2 } ∧
    (∀ i j, i < 2 → j < 2 →
      ((create_activation activation_function.RELU).forward_inplace
        ({ data := [-1, 2, 0, 1 / 2], rows := 2, cols := 2 } : Tensor ℚ)).cell i j =
        if ({ data := [-1, 2, 0, 1 / 2], rows := 2, cols := 2 } : Tensor ℚ).cell i j > 0
        then ({ data := [-1, 2, 0, 1 / 2], rows := 2, cols := 2 } : Tensor ℚ).cell i j
        else 0.01 * ({ data := [-1, 2, 0, 1 / 2], rows := 2, cols := 2 } : Tensor ℚ).cell i j) :=
  ⟨by decide!,
    (relu_forward_inplace_spec
      ({ data := [-1, 2, 0, 1 / 2], rows := 2, cols := 2 } : Tensor ℚ) (by decide)).2.2.1⟩

end C13
section C14
variable {α : Type}

/-- C14: the backward of the ReLU activation, given a well-formed pre-activation tensor t,
returns a new tensor of the shape of t whose cell is 1.0 where the cell of t is > 0 and 0.01
otherwise, so 0.01 at -1.0 and at 0 and 1.0 at 2.0; t is an argument that the function only
reads, the result being built on a copy. -/
theorem relu_backward_spec [Inhabited α] [LinearOrderedField α] (t : Tensor α) (h : t.WF) :
    ∃ r : Tensor α, (create_activation activation_function.RELU).backward t = some r ∧
      tensor_deepcopy t = some t ∧
      r.rows = t.rows ∧ r.cols = t.cols ∧ r.data.length = t.data.length ∧
      (∀ i j, i < t.rows → j < t.cols →
        r.cell i j = if t.cell i j > 0 then 1.0 else 0.01) ∧
      (∀ i j, i < t.rows → j < t.cols → t.cell i j = -1.0 → r.cell i j = 0.01) ∧
      (∀ i j, i < t.rows → j < t.cols → t.cell i j = 0 → r.cell i j = 0.01) ∧
      (∀ i j, i < t.rows → j < t.cols → t.cell i j = 2.0 → r.cell i j = 1.0) := by
  obtain ⟨a1, a2, a3, a4⟩ := tensor_apply_func_inplace_spec t
    (_apply_d_relu_to_element : α → α) h.2.2
  have hcell : ∀ i j, i < t.rows → j < t.cols →
      (tensor_apply_func_inplace t (_apply_d_relu_to_element : α → α)).cell i j =
        if t.cell i j > 0 then 1.0 else 0.01 := by
    intro i j hi hj
    rw [a4 i j hi hj]; rfl
  refine ⟨tensor_apply_func_inplace t _apply_d_relu_to_element, ?_, tensor_deepcopy_spec t h,
    a1, a2, a3, hcell, fun i j hi hj hx => ?_, fun i j hi hj hx => ?_, fun i j hi hj hx => ?_⟩
  · rw [create_activation_backward _ t h, if_neg (by decide)]
  · rw [hcell i j hi hj, hx, if_neg (by norm_num)]
  · rw [hcell i j hi hj, hx, if_neg (lt_irrefl 0)]
  · rw [hcell i j hi hj, hx, if_pos (by norm_num)]

theorem relu_backward_spec_witness :
    ({ data := [-1, 0, 2, 1 / 2], rows := 2, cols := 2 } : Tensor ℚ).WF ∧
    (create_activation activation_function.RELU).backward
      ({ data := [-1, 0, 2, 1 / 2], rows := 2, cols := 2 } : Tensor ℚ) =
      some { data := [1 / 100, 1 / 100, 1, 1], rows := 2, cols := 2 } ∧
    ∃ r : Tensor ℚ, (create_activation activation_function.RELU).backward
        ({ data := [-1, 0, 2, 1 / 2], rows := 2, cols := 2 } : Tensor ℚ) = some r ∧
      r.rows = 2 ∧ r.cols = 2 :=
  ⟨by decide, by decide!,
    (relu_backward_spec ({ data := [-1, 0, 2, 1 / 2], rows := 2, cols := 2 } : Tensor ℚ)
      (by decide)).imp (fun _ hr => ⟨hr.1, hr.2.2.1, hr.2.2.2.1⟩)⟩

end C14
section C16
variable {α : Type}

/-- The weights of a created layer, cell by cell, and the order of the two limits that the
creation has tested. -/
theorem create_layer_weights [Inhabited α] [LinearOrderedField α] (sqrt : α → α)
    (rand : Nat → α) (n_neurons prev_n_neurons : Int) (func : activation_function)
    (l : Layer α) (h : create_layer sqrt rand n_neurons prev_n_neurons func = some l) :
    ¬ -sqrt (6.0 / (prev_n_neurons : α)) > sqrt (6.0 / (prev_n_neurons : α)) ∧
    ∀ i j, i < l.weights.rows → j < l.weights.cols →
      l.weights.cell i j =
        _random_float_range (rand (i * l.weights.cols + j))
          (-sqrt (6.0 / (prev_n_neurons : α))) (sqrt (6.0 / (prev_n_neurons : α))) := by
  by_cases hn : n_neurons ≤ 0 ∨ prev_n_neurons ≤ 0
  · rw [create_layer_none sqrt rand _ _ func hn] at h
    exact absurd h (by simp)
  · obtain ⟨n, rfl⟩ := Int.eq_ofNat_of_zero_le (show 0 ≤ n_neurons by omega)
    obtain ⟨p, rfl⟩ := Int.eq_ofNat_of_zero_le (show 0 ≤ prev_n_neurons by omega)
    unfold create_layer at h
    rw [if_neg hn] at h
    simp only at h
    by_cases hm : -sqrt (6.0 / ((p : Int) : α)) > sqrt (6.0 / ((p : Int) : α))
    · have e0 : create_tensor_random rand ((p : Nat) : Int) ((n : Nat) : Int)
          (-sqrt (6.0 / ((p : Int) : α))) (sqrt (6.0 / ((p : Int) : α))) = none := by
        unfold create_tensor_random
        rw [if_pos hm]
      rw [e0] at h
      exact absurd h (by simp)
    · obtain ⟨w, e1, w1, w2, -, w4⟩ := create_tensor_random_spec rand p n (by omega) (by omega)
        (-sqrt (6.0 / ((p : Int) : α))) (sqrt (6.0 / ((p : Int) : α))) hm
      obtain ⟨b, e2, -⟩ := create_tensor_value_spec 1 n (by omega) (by omega) (0.01 : α)
      simp only [Nat.cast_one] at e2
      rw [e1, e2] at h
      simp only [Option.some.injEq] at h
      subst h
      refine ⟨hm, fun i j hi hj => ?_⟩
      simp only at hi hj ⊢
      rw [w4 i j (by rw [← w1]; exact hi) (by rw [← w2]; exact hj), w2]

/-- C16: in every layer made by create_layer with n_neurons_prev = k, whatever values in
[0,1] the random source yields, every cell w of the initial weights satisfies
-sqrt(6/k) ≤ w ≤ sqrt(6/k); the weights have k rows and n_neurons cols. -/
theorem create_layer_weights_bounded [Inhabited α] [LinearOrderedField α] (sqrt : α → α)
    (rand : Nat → α) (n_neurons k : Int) (func : activation_function) (l : Layer α)
    (hrand : ∀ m, 0 ≤ rand m ∧ rand m ≤ 1)
    (h : create_layer sqrt rand n_neurons k func = some l) :
    0 < k ∧ l.n_neurons_prev = k ∧ (l.weights.rows : Int) = k ∧
    (l.weights.cols : Int) = n_neurons ∧
    ∀ i j, i < l.weights.rows → j < l.weights.cols →
      -sqrt (6.0 / (k : α)) ≤ l.weights.cell i j ∧
      l.weights.cell i j ≤ sqrt (6.0 / (k : α)) := by
  obtain ⟨-, hk, hn1, hn2, hwf, -⟩ := create_layer_some sqrt rand n_neurons k func l h
  obtain ⟨hm, hcell⟩ := create_layer_weights sqrt rand n_neurons k func l h
  refine ⟨hk, hn2, by rw [hwf.2.2.1, hn2], by rw [hwf.2.2.2.1, hn1], fun i j hi hj => ?_⟩
  rw [hcell i j hi hj]
  unfold _random_float_range
  have hL : 0 ≤ sqrt (6.0 / (k : α)) := by
    have := not_lt.mp hm
    linarith
  obtain ⟨h0, h1⟩ := hrand (i * l.weights.cols + j)
  generalize rand (i * l.weights.cols + j) = s at h0 h1
  generalize sqrt (6.0 / (k : α)) = L at hL
  constructor
  · nlinarith [mul_nonneg h0 hL]
  · nlinarith [mul_nonneg (sub_nonneg.mpr h1) hL]

theorem sample_rand_unit : ∀ m, 0 ≤ sample_rand m ∧ sample_rand m ≤ 1 := by
  intro m
  unfold sample_rand
  split_ifs <;> norm_num

theorem create_layer_weights_bounded_witness :
    (∀ m, 0 ≤ sample_rand m ∧ sample_rand m ≤ 1) ∧
    ∃ l : Layer ℚ,
      create_layer sample_sqrt sample_rand 2 6 activation_function.RELU = some l ∧
      l.weights.data = [1, -1 / 2, 1, -1 / 2, 1, -1 / 2, 1, -1 / 2, 1, -1 / 2, 1, -1 / 2] ∧
      ∀ i j, i < l.weights.rows → j < l.weights.cols →
        -sample_sqrt (6.0 / ((6 : Int) : ℚ)) ≤ l.weights.cell i j ∧
        l.weights.cell i j ≤ sample_sqrt (6.0 / ((6 : Int) : ℚ)) := by
  refine ⟨sample_rand_unit, ?_⟩
  obtain ⟨l, hl⟩ := create_layer_pos sample_sqrt (fun _ => show (0 : ℚ) ≤ 1 from zero_le_one)
    sample_rand 2 6
    activation_function.RELU (by decide) (by decide)
  have hd : (create_layer sample_sqrt sample_rand 2 6 activation_function.RELU).map
      (fun l => l.weights.data) =
      some [1, -1 / 2, 1, -1 / 2, 1, -1 / 2, 1, -1 / 2, 1, -1 / 2, 1, -1 / 2] := by decide!
  refine ⟨l, hl, ?_, (create_layer_weights_bounded sample_sqrt sample_rand 2 6
    activation_function.RELU l sample_rand_unit hl).2.2.2.2⟩
  rw [hl] at hd
  exact Option.some.inj hd

end C16
section C17
variable {α : Type}

/-- C17: on a layer as create_layer returns it, before any forward_pass, backward_pass
returns no tensor for every output_gradient and hands back the layer as it was: d_weights
and d_biases are still absent and every other field is unchanged. -/
theorem backward_pass_fresh_layer [Inhabited α] [LinearOrderedField α] (sqrt : α → α)
    (rand : Nat → α) (n_neurons prev_n_neurons : Int) (func : activation_function)
    (l : Layer α) (output_gradient : Tensor α)
    (h : create_layer sqrt rand n_neurons prev_n_neurons func = some l) :
    ∃ l1 : Layer α, backward_pass l output_gradient = (none, l1) ∧
      l1.d_weights = none ∧ l1.d_biases = none ∧ l1 = l := by
  obtain ⟨-, -, -, -, -, -, hdw, hdb, -, hz⟩ :=
    create_layer_some sqrt rand n_neurons prev_n_neurons func l h
  refine ⟨l, ?_, hdw, hdb, rfl⟩
  unfold backward_pass
  rw [hz]

theorem backward_pass_fresh_layer_witness :
    ∃ l : Layer ℚ,
      create_layer sample_sqrt sample_rand 2 6 activation_function.RELU = some l ∧
      ∃ l1 : Layer ℚ, backward_pass l sample_gradient = (none, l1) ∧
        l1.d_weights = none ∧ l1.d_biases = none ∧ l1 = l := by
  obtain ⟨l, hl⟩ := create_layer_pos sample_sqrt (fun _ => show (0 : ℚ) ≤ 1 from zero_le_one)
    sample_rand 2 6 activation_function.RELU (by decide) (by decide)
  exact ⟨l, hl, backward_pass_fresh_layer sample_sqrt sample_rand 2 6
    activation_function.RELU l sample_gradient hl⟩

end C17
section C18
variable {α : Type}

/-- C18: on a layer that holds the caches of a successful forward_pass, for every
output_gradient whose rows or cols differ from those of z_cache, backward_pass returns no
tensor and hands back the layer as it was: d_weights, d_biases, weights, biases and both
caches are what they were before the call. -/
theorem backward_pass_shape_mismatch [Inhabited α] [LinearOrderedField α]
    (layer0 layer : Layer α) (func : activation_function) (input out z : Tensor α)
    (output_gradient : Tensor α) (hl : layer0.WF)
    (ha : layer0.activation = create_activation func) (hin : input.WF)
    (hf : forward_pass layer0 input = (some out, layer)) (hz : layer.z_cache = some z)
    (hne : output_gradient.rows ≠ z.rows ∨ output_gradient.cols ≠ z.cols) :
    ∃ layer1 : Layer α, backward_pass layer output_gradient = (none, layer1) ∧
      layer1.d_weights = layer.d_weights ∧ layer1.d_biases = layer.d_biases ∧
      layer1.weights = layer.weights ∧ layer1.biases = layer.biases ∧
      layer1.z_cache = layer.z_cache ∧
      layer1.input_transpose_cache = layer.input_transpose_cache ∧ layer1 = layer := by
  obtain ⟨hw, hb, hwr, hwc, hb1, hbc⟩ := hl
  have hbc1 : layer0.biases.cols = layer0.weights.cols := by
    have : (layer0.biases.cols : Int) = (layer0.weights.cols : Int) := by rw [hbc, hwc]
    exact_mod_cast this
  obtain ⟨z1, itc, e, -, zwf, -⟩ :=
    forward_pass_success layer0 layer input out hw hb1 hbc1 hin hf
  have hzz : z1 = z := by
    rw [e] at hz
    exact Option.some.inj hz
  subst hzz
  have hact : layer.activation = create_activation func := by rw [e]; exact ha
  obtain ⟨a1, a2, -, -⟩ := tensor_apply_func_inplace_spec z1
    (if func = .LINEAR then _apply_d_linear_element else _apply_d_relu_to_element : α → α)
    zwf.2.2
  have hnone : tensor_multiplication_hadamard output_gradient
      (tensor_apply_func_inplace z1
        (if func = .LINEAR then _apply_d_linear_element else _apply_d_relu_to_element)) =
      none :=
    tensor_multiplication_hadamard_none _ _ (by rw [a1, a2]; exact hne)
  refine ⟨layer, ?_, rfl, rfl, rfl, rfl, rfl, rfl, rfl⟩
  unfold backward_pass
  rw [hz]
  simp only
  rw [hact, create_activation_backward func z1 zwf]
  simp only
  rw [hnone]

theorem backward_pass_shape_mismatch_witness :
    (sample_layer activation_function.LINEAR).WF ∧ sample_input.WF ∧
    (sample_input.rows ≠ sample_z.rows ∨ sample_input.cols ≠ sample_z.cols) ∧
    ∃ layer1 : Layer ℚ,
      backward_pass (sample_layer_ready activation_function.LINEAR) sample_input =
        (none, layer1) ∧
      layer1.d_weights = (sample_layer_ready activation_function.LINEAR).d_weights ∧
      layer1.d_biases = (sample_layer_ready activation_function.LINEAR).d_biases ∧
      layer1.weights = (sample_layer_ready activation_function.LINEAR).weights ∧
      layer1.biases = (sample_layer_ready activation_function.LINEAR).biases ∧
      layer1.z_cache = (sample_layer_ready activation_function.LINEAR).z_cache ∧
      layer1.input_transpose_cache =
        (sample_layer_ready activation_function.LINEAR).input_transpose_cache ∧
      layer1 = sample_layer_ready activation_function.LINEAR :=
  ⟨by decide, by decide, by decide,
    backward_pass_shape_mismatch (sample_layer activation_function.LINEAR)
      (sample_layer_ready activation_function.LINEAR) activation_function.LINEAR sample_input
      sample_z sample_z sample_input (by decide) rfl (by decide)
      sample_forward rfl (by decide)⟩

end C18
section C19
variable {α : Type}

end C19
section C20
variable {α : Type}

/-- C20: network_train called with epochs ≤ 0, or with a first batch whose cols differ from
input_feature_size, returns 0 without running any epoch (no loss is logged) and hands back
the network as it was, so the weights, biases, gradients and caches of every layer are
unchanged. -/
theorem network_train_rejects [Inhabited α] [LinearOrderedField α] (net : Network α)
    (x_train y_train : List (Tensor α)) (number_of_batches epochs : Int)
    (h : epochs ≤ 0 ∨
      ∃ x0 : Tensor α, x_train.get? 0 = some x0 ∧ (x0.cols : Int) ≠ net.input_feature_size) :
    ∃ net1 : Network α,
      network_train net x_train y_train number_of_batches epochs = (0, net1, []) ∧
      net1.layers = net.layers ∧ net1 = net := by
  refine ⟨net, ?_, rfl, rfl⟩
  unfold network_train
  by_cases he : epochs ≤ 0
  · rw [if_pos he]
  · rw [if_neg he]
    rcases h with h | ⟨x0, hx, hc⟩
    · exact absurd h he
    · rw [hx]
      simp only
      rw [if_pos (fun e => hc e.symm)]

theorem network_train_rejects_witness :
    (∃ net1 : Network ℚ,
      network_train sample_network [sample_input] [sample_target] 1 0 = (0, net1, []) ∧
      net1.layers = sample_network.layers ∧ net1 = sample_network) ∧
    (∃ x0 : Tensor ℚ, [sample_gradient].get? 0 = some x0 ∧
      (x0.cols : Int) ≠ sample_network.input_feature_size) ∧
    ∃ net1 : Network ℚ,
      network_train sample_network [sample_gradient] [sample_target] 1 5 = (0, net1, []) ∧
      net1.layers = sample_network.layers ∧ net1 = sample_network :=
  ⟨network_train_rejects sample_network [sample_input] [sample_target] 1 0
      (Or.inl (by decide)),
    ⟨sample_gradient, rfl, by decide⟩,
    network_train_rejects sample_network [sample_gradient] [sample_target] 1 5
      (Or.inr ⟨sample_gradient, rfl, by decide⟩)⟩

end C20
section C22
variable {α : Type}

/-- C22: whenever the network has zero layers or input.cols ≠ input_feature_size,
network_predict returns no tensor and hands back the network as it was, so every layer is
unchanged. -/
theorem network_predict_rejects [Inhabited α] [Zero α] [Add α] [Mul α] (net : Network α)
    (input : Tensor α)
    (h : net.n_layers = 0 ∨ (input.cols : Int) ≠ net.input_feature_size) :
    ∃ net1 : Network α, network_predict net input = (none, net1) ∧
      net1.layers = net.layers ∧ net1 = net := by
  refine ⟨net, ?_, rfl, rfl⟩
  unfold network_predict
  rw [if_pos h]

theorem network_predict_rejects_witness :
    (sample_empty_network.n_layers = 0 ∧
      ∃ net1 : Network ℚ, network_predict sample_empty_network sample_input = (none, net1) ∧
        net1.layers = sample_empty_network.layers ∧ net1 = sample_empty_network) ∧
    ((sample_gradient.cols : Int) ≠ sample_network.input_feature_size ∧
      ∃ net1 : Network ℚ, network_predict sample_network sample_gradient = (none, net1) ∧
        net1.layers = sample_network.layers ∧ net1 = sample_network) :=
  ⟨⟨rfl, network_predict_rejects sample_empty_network sample_input (Or.inl rfl)⟩,
    ⟨by decide, network_predict_rejects sample_network sample_gradient (Or.inr (by decide))⟩⟩

end C22
section C23
variable {α : Type}

/-- C23: for every t1 and t2 whose rows or cols differ, tensor_addition returns no result,
and for every t1 and t2 with t1.cols ≠ t2.rows, tensor_multiplication returns no result;
both functions only read their operands. -/
theorem tensor_shape_mismatch_none [Inhabited α] [Zero α] [Add α] [Mul α]
    (t1 t2 : Tensor α) :
    ((t1.rows ≠ t2.rows ∨ t1.cols ≠ t2.cols) → tensor_addition t1 t2 = none) ∧
    (t1.cols ≠ t2.rows → tensor_multiplication t1 t2 = none) := by
  constructor
  · intro h
    unfold tensor_addition
    rw [if_pos h]
  · intro h
    unfold tensor_multiplication
    rw [if_pos h]

theorem tensor_shape_mismatch_none_witness :
    (sample_input.rows ≠ sample_weights.rows ∨ sample_input.cols ≠ sample_weights.cols) ∧
    tensor_addition sample_input sample_weights = none ∧
    sample_input.cols ≠ sample_input.rows ∧
    tensor_multiplication sample_input sample_input = none :=
  ⟨by decide,
    (tensor_shape_mismatch_none sample_input sample_weights).1 (by decide),
    by decide,
    (tensor_shape_mismatch_none sample_input sample_input).2 (by decide)⟩

end C23
section InplaceLemmas
variable {α : Type}

theorem tensor_addition_inplace_spec [Inhabited α] [Add α]
    (t1 t2 : Tensor α) (h1 : t1.data.length = t1.rows * t1.cols)
    (hr : t1.rows = t2.rows) (hc : t1.cols = t2.cols) :
    (tensor_addition_inplace t1 t2).rows = t1.rows ∧
    (tensor_addition_inplace t1 t2).cols = t1.cols ∧
    (tensor_addition_inplace t1 t2).data.length = t1.data.length ∧
    ∀ i j, i < t1.rows → j < t1.cols →
      (tensor_addition_inplace t1 t2).cell i j = t1.cell i j + t2.cell i j := by
  unfold tensor_addition_inplace
  rw [if_neg (by simp [hr, hc])]
  exact loop_cells t1.cols (fun i j x => x + t2.cell i j)
    (fun i j s => s.setCell i j (s.cell i j + t2.cell i j))
    (fun i j s hs => by simp [Tensor.setCell, Tensor.cell, hs]) t1.rows t1 rfl (by rw [h1])

theorem tensor_subtraction_inplace_spec [Inhabited α] [Sub α]
    (t1 t2 : Tensor α) (h1 : t1.data.length = t1.rows * t1.cols)
    (hr : t1.rows = t2.rows) (hc : t1.cols = t2.cols) :
    (tensor_subtraction_inplace t1 t2).rows = t1.rows ∧
    (tensor_subtraction_inplace t1 t2).cols = t1.cols ∧
    (tensor_subtraction_inplace t1 t2).data.length = t1.data.length ∧
    ∀ i j, i < t1.rows → j < t1.cols →
      (tensor_subtraction_inplace t1 t2).cell i j = t1.cell i j - t2.cell i j := by
  unfold tensor_subtraction_inplace
  rw [if_neg (by simp [hr, hc])]
  exact loop_cells t1.cols (fun i j x => x - t2.cell i j)
    (fun i j s => s.setCell i j (s.cell i j - t2.cell i j))
    (fun i j s hs => by simp [Tensor.setCell, Tensor.cell, hs]) t1.rows t1 rfl (by rw [h1])

theorem tensor_multiplication_hadamard_inplace_spec [Inhabited α] [Mul α]
    (t1 t2 : Tensor α) (h1 : t1.data.length = t1.rows * t1.cols)
    (hr : t1.rows = t2.rows) (hc : t1.cols = t2.cols) :
    (tensor_multiplication_hadamard_inplace t1 t2).rows = t1.rows ∧
    (tensor_multiplication_hadamard_inplace t1 t2).cols = t1.cols ∧
    (tensor_multiplication_hadamard_inplace t1 t2).data.length = t1.data.length ∧
    ∀ i j, i < t1.rows → j < t1.cols →
      (tensor_multiplication_hadamard_inplace t1 t2).cell i j = t1.cell i j * t2.cell i j := by
  unfold tensor_multiplication_hadamard_inplace
  rw [if_neg (by simp [hr, hc])]
  exact loop_cells t1.cols (fun i j x => x * t2.cell i j)
    (fun i j s => s.setCell i j (s.cell i j * t2.cell i j))
    (fun i j s hs => by simp [Tensor.setCell, Tensor.cell, hs]) t1.rows t1 rfl (by rw [h1])

end InplaceLemmas
section C24
variable {α : Type}

/-- C24: for tensor_addition_inplace, tensor_subtraction_inplace,
tensor_multiplication_hadamard_inplace and tensor_add_scaled_inplace (which ask for equal
rows and equal cols) and for tensor_row_addition_inplace (which asks for t2.rows = 1 and
equal cols): when the shape constraint is violated t1 is returned as it was, and when it
holds t1 keeps its shape and every cell is rewritten by the rule of the operation
(t1 + t2, t1 - t2, t1 * t2, t1 + scaler * t2, t1 + t2[0][j]). -/
theorem tensor_inplace_ops_spec [Inhabited α] [Add α] [Sub α] [Mul α] (t1 t2 : Tensor α)
    (scaler : α) (h1 : t1.data.length = t1.rows * t1.cols) :
    ((t1.rows ≠ t2.rows ∨ t1.cols ≠ t2.cols) →
      tensor_addition_inplace t1 t2 = t1 ∧ tensor_subtraction_inplace t1 t2 = t1 ∧
      tensor_multiplication_hadamard_inplace t1 t2 = t1 ∧
      tensor_add_scaled_inplace t1 (some t2) scaler = t1) ∧
    ((t2.rows ≠ 1 ∨ t1.cols ≠ t2.cols) → tensor_row_addition_inplace t1 t2 = t1) ∧
    (t1.rows = t2.rows ∧ t1.cols = t2.cols →
      (tensor_addition_inplace t1 t2).UpdatedBy t1 (fun i j => t1.cell i j + t2.cell i j) ∧
      (tensor_subtraction_inplace t1 t2).UpdatedBy t1 (fun i j => t1.cell i j - t2.cell i j) ∧
      (tensor_multiplication_hadamard_inplace t1 t2).UpdatedBy t1
        (fun i j => t1.cell i j * t2.cell i j) ∧
      (tensor_add_scaled_inplace t1 (some t2) scaler).UpdatedBy t1
        (fun i j => t1.cell i j + scaler * t2.cell i j)) ∧
    (t2.rows = 1 ∧ t1.cols = t2.cols →
      (tensor_row_addition_inplace t1 t2).UpdatedBy t1
        (fun i j => t1.cell i j + t2.cell 0 j)) := by
  refine ⟨fun h => ⟨?_, ?_, ?_, ?_⟩, fun h => ?_, fun h => ⟨?_, ?_, ?_, ?_⟩, fun h => ?_⟩
  · unfold tensor_addition_inplace
    rw [if_pos h]
  · unfold tensor_subtraction_inplace
    rw [if_pos h]
  · unfold tensor_multiplication_hadamard_inplace
    rw [if_pos h]
  · unfold tensor_add_scaled_inplace
    simp only
    rw [if_pos h]
  · unfold tensor_row_addition_inplace
    rw [if_pos h]
  · exact tensor_addition_inplace_spec t1 t2 h1 h.1 h.2
  · exact tensor_subtraction_inplace_spec t1 t2 h1 h.1 h.2
  · exact tensor_multiplication_hadamard_inplace_spec t1 t2 h1 h.1 h.2
  · exact tensor_add_scaled_inplace_spec t1 t2 scaler h1 h.1 h.2
  · exact tensor_row_addition_inplace_spec t1 t2 h1 h.1 h.2

theorem tensor_inplace_ops_spec_witness :
    (tensor_addition_inplace sample_z sample_input = sample_z ∧
      tensor_subtraction_inplace sample_z sample_input = sample_z ∧
      tensor_multiplication_hadamard_inplace sample_z sample_input = sample_z ∧
      tensor_add_scaled_inplace sample_z (some sample_input) (1 / 2) = sample_z) ∧
    tensor_row_addition_inplace sample_z sample_gradient = sample_z ∧
    ((tensor_addition_inplace sample_z sample_gradient).UpdatedBy sample_z
        (fun i j => sample_z.cell i j + sample_gradient.cell i j) ∧
      (tensor_subtraction_inplace sample_z sample_gradient).UpdatedBy sample_z
        (fun i j => sample_z.cell i j - sample_gradient.cell i j) ∧
      (tensor_multiplication_hadamard_inplace sample_z sample_gradient).UpdatedBy sample_z
        (fun i j => sample_z.cell i j * sample_gradient.cell i j) ∧
      (tensor_add_scaled_inplace sample_z (some sample_gradient) (1 / 2)).UpdatedBy sample_z
        (fun i j => sample_z.cell i j + 1 / 2 * sample_gradient.cell i j)) ∧
    (tensor_row_addition_inplace sample_z sample_biases).UpdatedBy sample_z
      (fun i j => sample_z.cell i j + sample_biases.cell 0 j) ∧
    tensor_subtraction_inplace sample_z sample_gradient =
      { data := [21 / 2, 15, 5 / 2, -2], rows := 2, cols := 2 } ∧
    tensor_row_addition_inplace sample_z sample_biases =
      { data := [12, 12, 3, 0], rows := 2, cols := 2 } :=
  ⟨(tensor_inplace_ops_spec sample_z sample_input (1 / 2) (by decide)).1 (by decide),
    (tensor_inplace_ops_spec sample_z sample_gradient (1 / 2) (by decide)).2.1 (by decide),
    (tensor_inplace_ops_spec sample_z sample_gradient (1 / 2) (by decide)).2.2.1
      ⟨by decide, by decide⟩,
    (tensor_inplace_ops_spec sample_z sample_biases (1 / 2) (by decide)).2.2.2
      ⟨by decide, by decide⟩,
    by decide!, by decide!⟩

end C24
section ActivationLemmas
variable {α : Type}

/-- A forward_pass followed by a backward_pass on a well-formed layer both return a tensor
when the shapes agree, whatever the activation tag. -/
theorem forward_backward_succeed [Inhabited α] [LinearOrderedField α] (l : Layer α)
    (func : activation_function) (x og : Tensor α) (hl : l.WF)
    (ha : l.activation = create_activation func) (hx : x.WF)
    (hc : (x.cols : Int) = l.n_neurons_prev) (hr : og.rows = x.rows)
    (hoc : (og.cols : Int) = l.n_neurons) :
    ∃ (out : Tensor α) (l1 : Layer α) (dx : Tensor α) (l2 : Layer α),
      forward_pass l x = (some out, l1) ∧ backward_pass l1 og = (some dx, l2) := by
  obtain ⟨hw, hb, hwr, hwc, hb1, hbc⟩ := hl
  have hc1 : x.cols = l.weights.rows := by
    have : (x.cols : Int) = (l.weights.rows : Int) := by rw [hc, hwr]
    exact_mod_cast this
  have hbc1 : l.biases.cols = l.weights.cols := by
    have : (l.biases.cols : Int) = (l.weights.cols : Int) := by rw [hbc, hwc]
    exact_mod_cast this
  have hoc1 : og.cols = l.weights.cols := by
    have : (og.cols : Int) = (l.weights.cols : Int) := by rw [hoc, hwc]
    exact_mod_cast this
  obtain ⟨z, itc, -, iwf, -, i2, -, zwf, z1, z2, -, e⟩ :=
    forward_pass_ok l x hw hb1 hbc1 hx hc1
  obtain ⟨a1, a2, -, -⟩ := tensor_apply_func_inplace_spec z
    (if func = .LINEAR then _apply_d_linear_element else _apply_d_relu_to_element : α → α)
    zwf.2.2
  obtain ⟨dx, dW, dB, e2, -⟩ := backward_pass_ok
    ({ l with input_transpose_cache := some itc, z_cache := some z } : Layer α) og z itc _
    rfl rfl (by rw [ha]; exact create_activation_backward func z zwf) a1 a2 zwf iwf
    (by rw [i2, z1]) hw z2.symm (by rw [hr, z1]) (by rw [hoc1, z2])
  exact ⟨_, _, dx, _, e, e2⟩

/-- The forward_pass reads the activation of a layer only through forward_inplace: a layer
with another activation object that holds the same forward function gives the same result
and the same new layer state, up to the activation object itself. -/
theorem forward_pass_activation_congr [Inhabited α] [Zero α] [Add α] [Mul α] (l : Layer α)
    (a : Activation α) (x : Tensor α) (h : a.forward_inplace = l.activation.forward_inplace) :
    forward_pass ({ l with activation := a } : Layer α) x =
      ((forward_pass l x).1,
        ({ (forward_pass l x).2 with activation := a } : Layer α)) := by
  unfold forward_pass
  cases tensor_transpose x with
  | none => rfl
  | some itc =>
    simp only
    cases tensor_multiplication x l.weights with
    | none => rfl
    | some m =>
      simp only
      cases tensor_deepcopy (tensor_row_addition_inplace m l.biases) with
      | none => rfl
      | some res => simp only [h]

/-- The backward_pass reads the activation of a layer only through backward. -/
theorem backward_pass_activation_congr [Inhabited α] [Zero α] [Add α] [Mul α] (l : Layer α)
    (a : Activation α) (og : Tensor α) (h : a.backward = l.activation.backward) :
    backward_pass ({ l with activation := a } : Layer α) og =
      ((backward_pass l og).1,
        ({ (backward_pass l og).2 with activation := a } : Layer α)) := by
  obtain ⟨n, p, w, b, act, dw, db, itc, zc⟩ := l
  simp only at h
  unfold backward_pass
  simp only [h]
  cases zc with
  | none => rfl
  | some z =>
    simp only
    cases act.backward z with
    | none => rfl
    | some ap =>
      simp only
      cases tensor_multiplication_hadamard og ap with
      | none => rfl
      | some dz =>
        simp only
        cases itc with
        | none => rfl
        | some itc =>
          simp only
          cases tensor_transpose w with
          | none => rfl
          | some wt =>
            simp only
            cases tensor_multiplication dz wt with
            | none => rfl
            | some dx => rfl

end ActivationLemmas
section C25
variable {α : Type}

/-- C25 fails as stated: create_layer returns a layer for the tags SIGMOID and SOFTMAX, and
forward_pass and backward_pass on a layer with either tag return tensors, the leaky-ReLU
output and the gradient computed with the leaky-ReLU derivative. -/
theorem activation_unimplemented_counterexample :
    (∃ l : Layer ℚ, create_layer sample_sqrt sample_rand 2 3 activation_function.SIGMOID =
        some l ∧ l.activation.func = activation_function.SIGMOID) ∧
    (∃ l : Layer ℚ, create_layer sample_sqrt sample_rand 2 3 activation_function.SOFTMAX =
        some l ∧ l.activation.func = activation_function.SOFTMAX) ∧
    (forward_pass (sample_layer activation_function.SIGMOID) sample_input_signed).1 =
      some { data := [-1 / 200, -3 / 100, 23 / 2, 13], rows := 2, cols := 2 } ∧
    (backward_pass
      (forward_pass (sample_layer activation_function.SIGMOID) sample_input_signed).2
      sample_gradient).1 =
      some { data := [-3 / 100, -1 / 20, -7 / 100, 6, 12, 18], rows := 2, cols := 3 } ∧
    (forward_pass (sample_layer activation_function.SOFTMAX) sample_input_signed).1 =
      some { data := [-1 / 200, -3 / 100, 23 / 2, 13], rows := 2, cols := 2 } ∧
    (backward_pass
      (forward_pass (sample_layer activation_function.SOFTMAX) sample_input_signed).2
      sample_gradient).1 =
      some { data := [-3 / 100, -1 / 20, -7 / 100, 6, 12, 18], rows := 2, cols := 3 } := by
  refine ⟨?_, ?_, by decide!, by decide!, by decide!, by decide!⟩
  · obtain ⟨l, hl⟩ := create_layer_pos sample_sqrt
      (fun _ => show (0 : ℚ) ≤ 1 from zero_le_one) sample_rand 2 3
      activation_function.SIGMOID (by decide) (by decide)
    have ha := (create_layer_some sample_sqrt sample_rand 2 3 _ l hl).2.2.2.2.2.1
    exact ⟨l, hl, by rw [ha]; rfl⟩
  · obtain ⟨l, hl⟩ := create_layer_pos sample_sqrt
      (fun _ => show (0 : ℚ) ≤ 1 from zero_le_one) sample_rand 2 3
      activation_function.SOFTMAX (by decide) (by decide)
    have ha := (create_layer_some sample_sqrt sample_rand 2 3 _ l hl).2.2.2.2.2.1
    exact ⟨l, hl, by rw [ha]; rfl⟩

/-- C25, amended: for the tags SIGMOID and SOFTMAX create_activation keeps the tag and
installs the ReLU functions, so create_layer returns the layer it returns for RELU with
that activation object, and forward_pass and backward_pass return the tensor and leave the
layer state they do for the same layer with the RELU activation object; neither call fails
because of the tag. -/
theorem create_activation_unimplemented [Inhabited α] [LinearOrderedField α]
    (func : activation_function)
    (h : func = activation_function.SIGMOID ∨ func = activation_function.SOFTMAX) :
    (create_activation func : Activation α).forward_inplace = _relu_inplace ∧
    (create_activation func : Activation α).backward = _d_relu ∧
    (create_activation func : Activation α).func = func ∧
    (∀ (sqrt : α → α) (rand : Nat → α) (n p : Int),
      create_layer sqrt rand n p func =
        (create_layer sqrt rand n p activation_function.RELU).map
          (fun l => ({ l with activation := create_activation func } : Layer α))) ∧
    (∀ (l : Layer α) (x : Tensor α), l.activation = create_activation func →
      forward_pass l x =
        ((forward_pass
            ({ l with activation := create_activation activation_function.RELU } : Layer α)
            x).1,
          ({ (forward_pass
            ({ l with activation := create_activation activation_function.RELU } : Layer α)
            x).2 with activation := create_activation func } : Layer α))) ∧
    (∀ (l : Layer α) (og : Tensor α), l.activation = create_activation func →
      backward_pass l og =
        ((backward_pass
            ({ l with activation := create_activation activation_function.RELU } : Layer α)
            og).1,
          ({ (backward_pass
            ({ l with activation := create_activation activation_function.RELU } : Layer α)
            og).2 with activation := create_activation func } : Layer α))) := by
  have hf : (create_activation func : Activation α).forward_inplace = _relu_inplace := by
    rcases h with rfl | rfl <;> rfl
  have hb : (create_activation func : Activation α).backward = _d_relu := by
    rcases h with rfl | rfl <;> rfl
  have ht : (create_activation func : Activation α).func = func := by
    rcases h with rfl | rfl <;> rfl
  refine ⟨hf, hb, ht, fun sqrt rand n p => ?_, fun l x ha => ?_, fun l og ha => ?_⟩
  · unfold create_layer
    by_cases hn : n ≤ 0 ∨ p ≤ 0
    · rw [if_pos hn, if_pos hn]; rfl
    · rw [if_neg hn, if_neg hn]
      simp only
      cases create_tensor_random rand p n (-sqrt (6.0 / (p : α))) (sqrt (6.0 / (p : α))) with
      | none => rfl
      | some w =>
        simp only
        cases create_tensor_value 1 n (0.01 : α) with
        | none => rfl
        | some b => rfl
  · have e := forward_pass_activation_congr
      ({ l with activation := create_activation activation_function.RELU } : Layer α)
      (create_activation func) x (by rw [hf]; rfl)
    rw [← e]
    obtain ⟨n, p, w, b, act, dw, db, itc, zc⟩ := l
    simp only at ha
    rw [ha]
  · have e := backward_pass_activation_congr
      ({ l with activation := create_activation activation_function.RELU } : Layer α)
      (create_activation func) og (by rw [hb]; rfl)
    rw [← e]
    obtain ⟨n, p, w, b, act, dw, db, itc, zc⟩ := l
    simp only at ha
    rw [ha]

theorem create_activation_unimplemented_witness :
    (create_activation activation_function.SIGMOID : Activation ℚ).forward_inplace =
      _relu_inplace ∧
    (create_activation activation_function.SIGMOID : Activation ℚ).backward = _d_relu ∧
    (create_activation activation_function.SIGMOID : Activation ℚ).func =
      activation_function.SIGMOID ∧
    (create_activation activation_function.SOFTMAX : Activation ℚ).forward_inplace =
      _relu_inplace ∧
    (create_activation activation_function.SOFTMAX : Activation ℚ).backward = _d_relu :=
  ⟨(create_activation_unimplemented activation_function.SIGMOID (Or.inl rfl)).1,
    (create_activation_unimplemented activation_function.SIGMOID (Or.inl rfl)).2.1,
    (create_activation_unimplemented activation_function.SIGMOID (Or.inl rfl)).2.2.1,
    (create_activation_unimplemented activation_function.SOFTMAX (Or.inr rfl)).1,
    (create_activation_unimplemented activation_function.SOFTMAX (Or.inr rfl)).2.1⟩

end C25
section C26
variable {α : Type}

/-- C26 fails as stated: the Loss made by create_loss for CATEGORICAL_CROSSENTROPY returns,
on a 2 × 2 prediction and target, the MSE value 691/8 and the MSE gradient of its
arguments. -/
theorem create_loss_crossentropy_counterexample :
    (create_loss loss_function_type.CATEGORICAL_CROSSENTROPY : Loss ℚ).type =
      loss_function_type.CATEGORICAL_CROSSENTROPY ∧
    (create_loss loss_function_type.CATEGORICAL_CROSSENTROPY : Loss ℚ).loss sample_z
      sample_gradient = 691 / 8 ∧
    _mse_loss sample_z sample_gradient = 691 / 8 ∧
    (create_loss loss_function_type.CATEGORICAL_CROSSENTROPY : Loss ℚ).derivative sample_z
      sample_gradient = some { data := [21 / 4, 15 / 2, 5 / 4, -1], rows := 2, cols := 2 } ∧
    _mse_derivative sample_z sample_gradient =
      some { data := [21 / 4, 15 / 2, 5 / 4, -1], rows := 2, cols := 2 } :=
  ⟨rfl, by decide!, by decide!, by decide!, by decide!⟩

/-- C26, amended: for CATEGORICAL_CROSSENTROPY create_loss returns a Loss that keeps the
tag and holds the MSE functions, so its loss and derivative return the MSE value and the
MSE gradient of their arguments: for pred and target of one shape the loss is the sum of
(target[i][j] - pred[i][j])^2 over all cells divided by rows*cols and the derivative has
the cells (2/(rows*cols)) * (pred[i][j] - target[i][j]). -/
theorem create_loss_crossentropy [Inhabited α] [Field α] (pred target : Tensor α) :
    (create_loss loss_function_type.CATEGORICAL_CROSSENTROPY : Loss α).type =
      loss_function_type.CATEGORICAL_CROSSENTROPY ∧
    (create_loss loss_function_type.CATEGORICAL_CROSSENTROPY : Loss α).loss pred target =
      _mse_loss pred target ∧
    (create_loss loss_function_type.CATEGORICAL_CROSSENTROPY : Loss α).derivative pred
      target = _mse_derivative pred target ∧
    (pred.rows = target.rows → pred.cols = target.cols →
      (create_loss loss_function_type.CATEGORICAL_CROSSENTROPY : Loss α).loss pred target =
        (∑ i in Finset.range pred.rows, ∑ j in Finset.range pred.cols,
          (target.cell i j - pred.cell i j) ^ 2) / ((pred.rows : α) * (pred.cols : α))) ∧
    (pred.WF → pred.rows = target.rows → pred.cols = target.cols →
      ∃ r : Tensor α,
        (create_loss loss_function_type.CATEGORICAL_CROSSENTROPY : Loss α).derivative pred
          target = some r ∧
        r.rows = pred.rows ∧ r.cols = pred.cols ∧
        ∀ i j, i < pred.rows → j < pred.cols →
          r.cell i j =
            (2 / ((pred.rows : α) * (pred.cols : α))) *
              (pred.cell i j - target.cell i j)) := by
  have hl : (create_loss loss_function_type.CATEGORICAL_CROSSENTROPY : Loss α).loss =
      _mse_loss := rfl
  have hd : (create_loss loss_function_type.CATEGORICAL_CROSSENTROPY : Loss α).derivative =
      _mse_derivative := rfl
  refine ⟨rfl, by rw [hl], by rw [hd], fun hr hc => ?_, fun hp hr hc => ?_⟩
  · rw [hl]
    unfold _mse_loss
    rw [if_neg (by simp [hr, hc])]
    simp only
    rw [for_range_add_sum2, zero_add, Nat.cast_mul, mul_comm (pred.cols : α)]
    congr 1
    apply Finset.sum_congr rfl
    intro i _
    apply Finset.sum_congr rfl
    intro j _
    rw [sq]
  · obtain ⟨r, e, r1, r2, -, r4⟩ := mse_derivative_cells pred target hp hr hc
    refine ⟨r, by rw [hd]; exact e, r1, r2, fun i j hi hj => ?_⟩
    rw [r4 i j hi hj, ofScientific_two, Nat.cast_mul, mul_comm (pred.cols : α)]

theorem create_loss_crossentropy_witness :
    sample_z.WF ∧ sample_z.rows = sample_gradient.rows ∧
    sample_z.cols = sample_gradient.cols ∧
    (create_loss loss_function_type.CATEGORICAL_CROSSENTROPY : Loss ℚ).loss sample_z
      sample_gradient = _mse_loss sample_z sample_gradient ∧
    (create_loss loss_function_type.CATEGORICAL_CROSSENTROPY : Loss ℚ).derivative sample_z
      sample_gradient = _mse_derivative sample_z sample_gradient ∧
    (create_loss loss_function_type.CATEGORICAL_CROSSENTROPY : Loss ℚ).loss sample_z
      sample_gradient =
        (∑ i in Finset.range sample_z.rows, ∑ j in Finset.range sample_z.cols,
          (sample_gradient.cell i j - sample_z.cell i j) ^ 2) /
          ((sample_z.rows : ℚ) * (sample_z.cols : ℚ)) :=
  ⟨by decide, rfl, rfl, (create_loss_crossentropy sample_z sample_gradient).2.1,
    (create_loss_crossentropy sample_z sample_gradient).2.2.1,
    (create_loss_crossentropy sample_z sample_gradient).2.2.2.1 rfl rfl⟩

end C26
section C27
variable {α : Type}

/-- C27: for every pred and target whose rows or cols differ, the MSE loss function returns
0 and the MSE derivative returns no tensor, called directly or through the Loss object of
create_loss; both functions only read pred and target. -/
theorem mse_shape_mismatch [Inhabited α] [Field α] (pred target : Tensor α)
    (h : pred.rows ≠ target.rows ∨ pred.cols ≠ target.cols) :
    _mse_loss pred target = 0 ∧ _mse_derivative pred target = none ∧
    (create_loss loss_function_type.MSE : Loss α).loss pred target = 0 ∧
    (create_loss loss_function_type.MSE : Loss α).derivative pred target = none := by
  have hc : pred.cols ≠ target.cols ∨ pred.rows ≠ target.rows := h.symm
  have h1 : _mse_loss pred target = 0 := by
    unfold _mse_loss
    rw [if_pos hc]
  have h2 : _mse_derivative pred target = none := by
    unfold _mse_derivative
    rw [if_pos hc]
  exact ⟨h1, h2, h1, h2⟩

theorem mse_shape_mismatch_witness :
    (sample_z.rows ≠ sample_input.rows ∨ sample_z.cols ≠ sample_input.cols) ∧
    _mse_loss sample_z sample_input = 0 ∧ _mse_derivative sample_z sample_input = none ∧
    (create_loss loss_function_type.MSE : Loss ℚ).loss sample_z sample_input = 0 ∧
    (create_loss loss_function_type.MSE : Loss ℚ).derivative sample_z sample_input = none :=
  ⟨by decide, mse_shape_mismatch sample_z sample_input (by decide)⟩

end C27

section C28
variable {α : Type}

/-- C28: for an optimiser of type SGD_MOMENTUM or ADAM, optimiser_update hands back the
layer as it was, for every layer and layer index: weights, biases, gradients and caches
are unchanged. The optimiser is only read. -/
theorem optimiser_update_noop [Inhabited α] [Add α] [Mul α] [Neg α] (opt : Optimiser α)
    (layer : Layer α) (layer_index : Int)
    (h : opt.type = OptimiserType.SGD_MOMENTUM ∨ opt.type = OptimiserType.ADAM) :
    optimiser_update opt layer layer_index = layer ∧
    (optimiser_update opt layer layer_index).weights = layer.weights ∧
    (optimiser_update opt layer layer_index).biases = layer.biases ∧
    (optimiser_update opt layer layer_index).d_weights = layer.d_weights ∧
    (optimiser_update opt layer layer_index).d_biases = layer.d_biases ∧
    (optimiser_update opt layer layer_index).input_transpose_cache =
      layer.input_transpose_cache ∧
    (optimiser_update opt layer layer_index).z_cache = layer.z_cache := by
  have e : optimiser_update opt layer layer_index = layer := by
    unfold optimiser_update
    rcases h with h | h
    · rw [h]; rfl
    · rw [h]; rfl
  rw [e]
  exact ⟨rfl, rfl, rfl, rfl, rfl, rfl, rfl⟩

theorem optimiser_update_noop_witness :
    optimiser_update ({ sample_sgd with type := OptimiserType.ADAM } : Optimiser ℚ)
      (sample_layer_graded activation_function.RELU) 0 =
      sample_layer_graded activation_function.RELU ∧
    optimiser_update ({ sample_sgd with type := OptimiserType.SGD_MOMENTUM } : Optimiser ℚ)
      (sample_layer_graded activation_function.RELU) 1 =
      sample_layer_graded activation_function.RELU :=
  ⟨(optimiser_update_noop ({ sample_sgd with type := OptimiserType.ADAM } : Optimiser ℚ)
      (sample_layer_graded activation_function.RELU) 0 (Or.inr rfl)).1,
    (optimiser_update_noop
      ({ sample_sgd with type := OptimiserType.SGD_MOMENTUM } : Optimiser ℚ)
      (sample_layer_graded activation_function.RELU) 1 (Or.inl rfl)).1⟩

end C28
section C29
variable {α : Type}

/-- C29: for every well-formed tensor t of shape rows×cols, tensor_add_cols returns a new
tensor of shape 1×cols, holding cols cells, whose cell j is the sum over all rows i of
t[i][j]; t is only read. -/
theorem tensor_add_cols_sum [Inhabited α] [AddCommMonoid α] (t : Tensor α) (h : t.WF) :
    ∃ r : Tensor α, tensor_add_cols t = some r ∧ r.rows = 1 ∧ r.cols = t.cols ∧
      r.data.length = t.cols ∧
      ∀ j, j < t.cols → r.cell 0 j = ∑ i in Finset.range t.rows, t.cell i j := by
  obtain ⟨r, e, r1, r2, rwf, r4⟩ := tensor_add_cols_spec t h
  refine ⟨r, e, r1, r2, ?_, fun j hj => ?_⟩
  · rw [rwf.2.2, r1, r2, Nat.one_mul]
  · rw [r4 j hj, for_range_add_sum, zero_add]

theorem tensor_add_cols_sum_witness :
    sample_weights.WF ∧
    tensor_add_cols sample_weights = some { data := [9, 12], rows := 1, cols := 2 } ∧
    ∃ r : Tensor ℚ, tensor_add_cols sample_weights = some r ∧ r.rows = 1 ∧
      r.cols = sample_weights.cols ∧ r.data.length = sample_weights.cols ∧
      ∀ j, j < sample_weights.cols →
        r.cell 0 j = ∑ i in Finset.range sample_weights.rows, sample_weights.cell i j :=
  ⟨by decide, by decide!, tensor_add_cols_sum sample_weights (by decide)⟩

end C29

section CreateValue
variable {α : Type}

/-- With the product rows*cols taken exactly, create_tensor_value returns for rows > 0 and
cols > 0 a tensor with those rows and cols whose data is rows*cols copies of v, and no
tensor for rows ≤ 0 or cols ≤ 0. -/
theorem create_tensor_value_exact [Inhabited α] (rows cols : Int) (v : α) :
    (0 < rows → 0 < cols →
      ∃ t : Tensor α, create_tensor_value rows cols v = some t ∧
        (t.rows : Int) = rows ∧ (t.cols : Int) = cols ∧
        (t.data.length : Int) = rows * cols ∧
        t.data = List.replicate (t.rows * t.cols) v ∧
        (∀ x ∈ t.data, x = v) ∧
        ∀ i j, i < t.rows → j < t.cols → t.cell i j = v) ∧
    ((rows ≤ 0 ∨ cols ≤ 0) → create_tensor_value rows cols v = none) := by
  constructor
  · intro hr hc
    obtain ⟨r, rfl⟩ := Int.eq_ofNat_of_zero_le (le_of_lt hr)
    obtain ⟨c, rfl⟩ := Int.eq_ofNat_of_zero_le (le_of_lt hc)
    obtain ⟨t, e, t1, t2, t3, t4⟩ := create_tensor_value_spec r c (by omega) (by omega) v
    have hdata : t.data = List.replicate (t.rows * t.cols) v := by
      have hcell : ∀ i j, i < r → j < c →
          t.cell i j =
            ({ data := List.replicate (r * c) v, rows := r, cols := c } : Tensor α).cell
              i j := by
        intro i j hi hj
        rw [t4 i j hi hj]
        simp [Tensor.cell, Tensor.read, List.getD_eq_getElem?_getD, row_major_lt hi hj]
      have := @Tensor.ext_cells α _ t
        ({ data := List.replicate (r * c) v, rows := r, cols := c } : Tensor α)
        (by rw [t3, t1, t2]) (by simp) t1 t2 hcell
      rw [t1, t2]
      exact congrArg Tensor.data this
    refine ⟨t, e, by rw [t1], by rw [t2], by rw [t3]; push_cast; rfl, hdata, ?_,
      fun i j hi hj => t4 i j (by rw [← t1]; exact hi) (by rw [← t2]; exact hj)⟩
    intro x hx
    rw [hdata] at hx
    exact List.eq_of_mem_replicate hx
  · intro h
    unfold create_tensor_value _create_tensor
    rw [if_pos h]

end CreateValue
section ParamsLemmas
variable {α : Type}

/-- A property that every iteration preserves holds after the loop. -/
theorem for_range_inv {σ : Type} (P : σ → Prop) (n : Nat) (body : Nat → σ → σ) (s : σ)
    (h0 : P s) (hstep : ∀ i s, P s → P (body i s)) : P (for_range n body s) := by
  induction n with
  | zero => exact h0
  | succ n ih => rw [for_range_succ]; exact hstep n _ ih

/-- A state that the body maps to itself stays. -/
theorem for_range_fixed {σ : Type} (n : Nat) (body : Nat → σ → σ) (s : σ)
    (h : ∀ i, body i s = s) : for_range n body s = s := by
  induction n with
  | zero => rfl
  | succ n ih => rw [for_range_succ, ih, h]

/-- Once the loop has reached a state that the body maps to itself, it ends in it. -/
theorem for_range_stuck {σ : Type} (m n : Nat) (body : Nat → σ → σ) (s0 s : σ)
    (hm : for_range m body s0 = s) (h : ∀ i, body i s = s) (hmn : m ≤ n) :
    for_range n body s0 = s := by
  induction n with
  | zero =>
    have : m = 0 := by omega
    subst this
    exact hm
  | succ n ih =>
    by_cases hmn1 : m = n + 1
    · subst hmn1; exact hm
    · rw [for_range_succ, ih (by omega), h]

theorem forward_pass_params [Inhabited α] [Zero α] [Add α] [Mul α] (l : Layer α)
    (x : Tensor α) :
    (forward_pass l x).2.weights = l.weights ∧ (forward_pass l x).2.biases = l.biases := by
  unfold forward_pass
  cases tensor_transpose x with
  | none => exact ⟨rfl, rfl⟩
  | some itc =>
    simp only
    cases tensor_multiplication x l.weights with
    | none => exact ⟨rfl, rfl⟩
    | some m =>
      simp only
      cases tensor_deepcopy (tensor_row_addition_inplace m l.biases) with
      | none => exact ⟨rfl, rfl⟩
      | some res => exact ⟨rfl, rfl⟩

theorem backward_pass_params [Inhabited α] [Zero α] [Add α] [Mul α] (l : Layer α)
    (og : Tensor α) :
    (backward_pass l og).2.weights = l.weights ∧ (backward_pass l og).2.biases = l.biases := by
  obtain ⟨n, p, w, b, act, dw, db, itc, zc⟩ := l
  unfold backward_pass
  cases zc with
  | none => exact ⟨rfl, rfl⟩
  | some z =>
    simp only
    cases act.backward z with
    | none => exact ⟨rfl, rfl⟩
    | some ap =>
      simp only
      cases tensor_multiplication_hadamard og ap with
      | none => exact ⟨rfl, rfl⟩
      | some dz =>
        simp only
        cases itc with
        | none => exact ⟨rfl, rfl⟩
        | some itc =>
          simp only
          cases tensor_transpose w with
          | none => exact ⟨rfl, rfl⟩
          | some wt =>
            simp only
            cases tensor_multiplication dz wt with
            | none => exact ⟨rfl, rfl⟩
            | some dx => exact ⟨rfl, rfl⟩

/-- Writing back a layer with the weights and biases of the layer it replaces keeps the
parameters of the network. -/
theorem setLayer_params (net : Network α) (i : Nat) (l l1 : Layer α)
    (hl : net.layers.get? i = some l) (hw : l1.weights = l.weights)
    (hb : l1.biases = l.biases) : (net.setLayer i l1).params = net.params := by
  unfold Network.setLayer Network.params
  simp only
  apply List.ext_getElem?
  intro k
  rw [List.getElem?_map, List.getElem?_map, List.getElem?_set]
  by_cases hk : i = k
  · subst hk
    rw [if_pos rfl]
    rw [List.get?_eq_getElem?] at hl
    rw [hl]
    have hlt : i < net.layers.length := by
      by_contra hge
      rw [List.getElem?_eq_none (by omega)] at hl
      exact absurd hl (by simp)
    simp [hlt, hw, hb]
  · rw [if_neg hk]

end ParamsLemmas
section ParamsLemmas2
variable {α : Type}

theorem network_predict_params [Inhabited α] [Zero α] [Add α] [Mul α] (net : Network α)
    (x : Tensor α) : (network_predict net x).2.params = net.params := by
  unfold network_predict
  by_cases h : net.n_layers = 0 ∨ (x.cols : Int) ≠ net.input_feature_size
  · rw [if_pos h]
  · rw [if_neg h]
    apply for_range_inv (fun st : Option (Tensor α) × Network α => st.2.params = net.params)
    · rfl
    · rintro i ⟨o, n1⟩ hP
      simp only at hP
      cases o with
      | none => exact hP
      | some inp =>
        simp only
        cases hl : n1.layers.get? i with
        | none => exact hP
        | some layer =>
          simp only
          have hfp := forward_pass_params layer inp
          rcases hf : forward_pass layer inp with ⟨_ | out, l1⟩
          · rw [hf] at hfp
            simp only
            rw [setLayer_params n1 i layer l1 hl hfp.1 hfp.2]
            exact hP
          · rw [hf] at hfp
            simp only
            rw [setLayer_params n1 i layer l1 hl hfp.1 hfp.2]
            exact hP

theorem backward_loop_params [Inhabited α] [Zero α] [Add α] [Mul α] (net : Network α)
    (g : Tensor α) : (backward_loop net g).2.params = net.params := by
  unfold backward_loop
  apply for_range_inv (fun st : Option (Tensor α) × Network α => st.2.params = net.params)
  · rfl
  · rintro i ⟨o, n1⟩ hP
    simp only at hP
    cases o with
    | none => exact hP
    | some og =>
      simp only
      cases hl : n1.layers.get? (net.n_layers - 1 - i) with
      | none => exact hP
      | some layer =>
        simp only
        have hbp := backward_pass_params layer og
        rcases hf : backward_pass layer og with ⟨_ | out, l1⟩
        · rw [hf] at hbp
          simp only
          rw [setLayer_params n1 _ layer l1 hl hbp.1 hbp.2]
          exact hP
        · rw [hf] at hbp
          simp only
          rw [setLayer_params n1 _ layer l1 hl hbp.1 hbp.2]
          exact hP

/-- A batch step that fails leaves the weights and biases of every layer as they were: it
ends before the update loop, and the forward and backward passes write only caches and
gradients. -/
theorem train_batch_none_params [Inhabited α] [Zero α] [Add α] [Mul α] [Neg α]
    (net net1 : Network α) (x y : Tensor α) (h : train_batch net x y = (none, net1)) :
    net1.params = net.params := by
  unfold train_batch at h
  have hp := network_predict_params net x
  rcases hpr : network_predict net x with ⟨_ | pred, n1⟩
  · rw [hpr] at h hp
    simp only at h hp
    rw [← (Prod.mk.inj h).2]
    exact hp
  · rw [hpr] at h hp
    simp only at h hp
    cases hd : n1.loss_func.derivative pred y with
    | none =>
      rw [hd] at h
      simp only at h
      rw [← (Prod.mk.inj h).2]
      exact hp
    | some g =>
      rw [hd] at h
      simp only at h
      have hb := backward_loop_params n1 g
      rcases hbl : backward_loop n1 g with ⟨_ | dx, n2⟩
      · rw [hbl] at h hb
        simp only at h hb
        rw [← (Prod.mk.inj h).2, hb]
        exact hp
      · rw [hbl] at h
        simp only at h
        exact absurd (Prod.mk.inj h).1 (by simp)

/-- A batch step on an input of the wrong width fails at once and returns the network as
it was. -/
theorem train_batch_cols [Inhabited α] [Zero α] [Add α] [Mul α] [Neg α]
    (net : Network α) (x y : Tensor α) (h : net.input_feature_size ≠ (x.cols : Int)) :
    train_batch net x y = (none, net) := by
  unfold train_batch network_predict
  rw [if_pos (Or.inr (fun e => h e.symm))]

end ParamsLemmas2
section FirstFailure
variable {α : Type}

/-- The batch loop over m batches whose steps all succeed ends with the network of the last
step. -/
theorem train_epoch_ok [Inhabited α] [Zero α] [Add α] [Mul α] [Neg α]
    (x_train y_train : List (Tensor α)) (X Y : Nat → Tensor α) (nb : Nat)
    (hx : ∀ i, i < nb → x_train.get? i = some (X i))
    (hy : ∀ i, i < nb → y_train.get? i = some (Y i))
    (nets : Nat → Network α) (losses : Nat → α) (base m : Nat) (hm : m ≤ nb)
    (hok : ∀ b, b < m →
      train_batch (nets (base + b)) (X b) (Y b) =
        (some (losses (base + b)), nets (base + b + 1))) :
    ∃ L : α, train_epoch (nets base) x_train y_train (m : Int) = (some L, nets (base + m)) := by
  induction m with
  | zero => exact ⟨0, rfl⟩
  | succ m ih =>
    obtain ⟨L, e⟩ := ih (by omega) (fun b hb => hok b (by omega))
    unfold train_epoch at e ⊢
    rw [Int.toNat_ofNat] at e ⊢
    rw [for_range_succ, e]
    simp only [hx m (by omega), hy m (by omega), hok m (by omega)]
    exact ⟨_, rfl⟩

/-- The batch loop whose step b is the first to fail ends, at once, with the network that
step leaves. -/
theorem train_epoch_fail [Inhabited α] [Zero α] [Add α] [Mul α] [Neg α]
    (x_train y_train : List (Tensor α)) (X Y : Nat → Tensor α) (nb : Nat)
    (hx : ∀ i, i < nb → x_train.get? i = some (X i))
    (hy : ∀ i, i < nb → y_train.get? i = some (Y i))
    (nets : Nat → Network α) (losses : Nat → α) (base b : Nat) (hb : b < nb)
    (net1 : Network α)
    (hok : ∀ c, c < b →
      train_batch (nets (base + c)) (X c) (Y c) =
        (some (losses (base + c)), nets (base + c + 1)))
    (hfail : train_batch (nets (base + b)) (X b) (Y b) = (none, net1)) :
    train_epoch (nets base) x_train y_train (nb : Int) = (none, net1) := by
  obtain ⟨L, e⟩ := train_epoch_ok x_train y_train X Y nb hx hy nets losses base b (by omega) hok
  unfold train_epoch at e ⊢
  rw [Int.toNat_ofNat] at e ⊢
  apply for_range_stuck (b + 1) nb _ _ _ _ (fun _ => rfl) (by omega)
  rw [for_range_succ, e]
  simp only [hx b hb, hy b hb, hfail]

end FirstFailure
section C21
variable {α : Type}

/-- C21: let batch b of epoch e be the first batch step of a network_train call that fails
(its predict, loss derivative or a backward_pass fails), all steps before it, in the order
of the two loops, having succeeded and led to the network netk. Then network_train returns
0 at once, with only the e completed epochs logged and the network as the failed step left
it; no optimiser update is applied for that batch, and the weights and biases of every
layer are those of netk, the values produced by the completed steps (not rolled back). -/
theorem network_train_first_failure [Inhabited α] [LinearOrderedField α]
    (net netk net1 : Network α) (x_train y_train : List (Tensor α)) (X Y : Nat → Tensor α)
    (number_of_batches epochs : Int) (nb E e b : Nat)
    (hnb : number_of_batches = (nb : Int)) (hE : epochs = (E : Int))
    (hx : ∀ i, i < nb → x_train.get? i = some (X i))
    (hy : ∀ i, i < nb → y_train.get? i = some (Y i))
    (he : e < E) (hb : b < nb)
    (nets : Nat → Network α) (losses : Nat → α) (h0 : nets 0 = net)
    (hk : nets (e * nb + b) = netk)
    (hok : ∀ s, s < e * nb + b →
      train_batch (nets s) (X (s % nb)) (Y (s % nb)) = (some (losses s), nets (s + 1)))
    (hfail : train_batch netk (X b) (Y b) = (none, net1)) :
    ∃ log : List α,
      network_train net x_train y_train number_of_batches epochs = (0, net1, log) ∧
      log.length = e ∧ net1.params = netk.params ∧
      net1.layers.length = netk.layers.length ∧
      ∀ (i : Nat) (l lk : Layer α), net1.layers.get? i = some l →
        netk.layers.get? i = some lk → l.weights = lk.weights ∧ l.biases = lk.biases := by
  subst hnb hE h0 hk
  have hpar := train_batch_none_params _ _ _ _ hfail
  have hlen : net1.layers.length = (nets (e * nb + b)).layers.length := by
    have := congrArg List.length hpar
    simpa [Network.params] using this
  have hlayers : ∀ (i : Nat) (l lk : Layer α), net1.layers.get? i = some l →
      (nets (e * nb + b)).layers.get? i = some lk →
      l.weights = lk.weights ∧ l.biases = lk.biases := by
    intro i l lk h1 h2
    have := congrArg (fun ps => ps.get? i) hpar
    simp only [Network.params, List.get?_eq_getElem?, List.getElem?_map] at this h1 h2
    rw [h1, h2] at this
    simp only [Option.map_some', Option.some.injEq, Prod.mk.injEq] at this
    exact this
  have hmod : ∀ j c, c < nb → (j * nb + c) % nb = c := by
    intro j c hc
    rw [Nat.mul_add_mod_of_lt hc]
  have hep : ∀ j, j < e → ∃ L : α,
      train_epoch (nets (j * nb)) x_train y_train (nb : Int) =
        (some L, nets ((j + 1) * nb)) := by
    intro j hj
    have hle : (j + 1) * nb ≤ e * nb := Nat.mul_le_mul_right nb hj
    obtain ⟨L, eL⟩ := train_epoch_ok x_train y_train X Y nb hx hy nets losses (j * nb) nb
      (Nat.le_refl nb) (fun c hc => by
        have hlt : j * nb + c < e * nb + b := by
          rw [Nat.succ_mul] at hle
          omega
        have := hok (j * nb + c) hlt
        rw [hmod j c hc] at this
        exact this)
    rw [Nat.succ_mul]
    exact ⟨L, eL⟩
  have hef : train_epoch (nets (e * nb)) x_train y_train (nb : Int) = (none, net1) :=
    train_epoch_fail x_train y_train X Y nb hx hy nets losses (e * nb) b hb net1
      (fun c hc => by
        have := hok (e * nb + c) (by omega)
        rw [hmod e c (by omega)] at this
        exact this) hfail
  have hloop : ∀ m, m ≤ e → ∃ log : List α,
      for_range m (fun _e (st : Int × Network α × List α) =>
        match st with
        | (0, net, log) => (0, net, log)
        | (_, net, log) =>
          match train_epoch net x_train y_train (nb : Int) with
          | (none, net) => (0, net, log)
          | (some epoch_loss, net) => (1, net, log ++ [epoch_loss]))
        (1, nets 0, []) = (1, nets (m * nb), log) ∧ log.length = m := by
    intro m
    induction m with
    | zero =>
      intro _
      refine ⟨[], ?_, rfl⟩
      rw [Nat.zero_mul]
      rfl
    | succ m ih =>
      intro hm
      obtain ⟨log, e1, hl⟩ := ih (by omega)
      obtain ⟨L, eL⟩ := hep m (by omega)
      refine ⟨log ++ [L], ?_, by simp [hl]⟩
      rw [for_range_succ, e1]
      simp only [eL]
  obtain ⟨log, e1, hl⟩ := hloop e (Nat.le_refl e)
  have hnb0 : 0 < nb := by omega
  unfold network_train
  rw [if_neg (by omega), hx 0 hnb0]
  simp only
  by_cases hcol : (nets 0).input_feature_size ≠ ((X 0).cols : Int)
  · rw [if_pos hcol]
    have hcols := fun y => train_batch_cols (nets 0) (X 0) y hcol
    have hz : e * nb + b = 0 := by
      by_contra hne
      have := hok 0 (by omega)
      rw [Nat.zero_mod, hcols] at this
      exact absurd (Prod.mk.inj this).1 (by simp)
    have he0 : e = 0 := by
      rcases Nat.eq_zero_or_pos e with h | h
      · exact h
      · have : nb ≤ e * nb := Nat.le_mul_of_pos_left nb h
        omega
    have hb0 : b = 0 := by omega
    subst he0 hb0
    rw [Nat.zero_mul, Nat.add_zero] at hfail hpar hlen hlayers
    rw [hcols] at hfail
    have hn : nets 0 = net1 := (Prod.mk.inj hfail).2
    refine ⟨[], ?_, rfl, ?_, ?_, ?_⟩
    · rw [hn]
    · rw [Nat.zero_mul, Nat.add_zero]; exact hpar
    · rw [Nat.zero_mul, Nat.add_zero]; exact hlen
    · rw [Nat.zero_mul, Nat.add_zero]; exact hlayers
  · rw [if_neg hcol, Int.toNat_ofNat]
    refine ⟨log, ?_, hl, hpar, hlen, hlayers⟩
    apply for_range_stuck (e + 1) E _ _ _ _ (fun _ => rfl) (by omega)
    rw [for_range_succ, e1]
    simp only [hef]

end C21
section C21Witness

theorem sample_step1 :
    train_batch sample_network sample_input sample_target = (some (65 / 16), sample_net_step1) :=
  Prod.ext (by decide!) rfl

theorem sample_step2_fails :
    train_batch sample_net_step1 sample_input sample_gradient = (none, sample_net_failed) :=
  Prod.ext (by decide!) rfl

theorem sample_failed_params :
    sample_net_failed.params =
      [({ data := [26 / 25, 49 / 25, 1193 / 400, 1607 / 400, 1009 / 200, 1191 / 200],
          rows := 3, cols := 2 },
        { data := [101 / 200, -201 / 200], rows := 1, cols := 2 }),
       ({ data := [243 / 200, -29 / 40], rows := 2, cols := 1 },
        { data := [51 / 200], rows := 1, cols := 1 })] := by decide!

theorem network_train_first_failure_witness :
    (∃ log : List ℚ,
      network_train sample_network [sample_input, sample_input]
        [sample_target, sample_gradient] 2 3 = (0, sample_net_failed, log) ∧
      log.length = 0 ∧ sample_net_failed.params = sample_net_step1.params ∧
      sample_net_failed.layers.length = sample_net_step1.layers.length ∧
      ∀ (i : Nat) (l lk : Layer ℚ), sample_net_failed.layers.get? i = some l →
        sample_net_step1.layers.get? i = some lk →
        l.weights = lk.weights ∧ l.biases = lk.biases) ∧
    sample_net_failed.params =
      [({ data := [26 / 25, 49 / 25, 1193 / 400, 1607 / 400, 1009 / 200, 1191 / 200],
          rows := 3, cols := 2 },
        { data := [101 / 200, -201 / 200], rows := 1, cols := 2 }),
       ({ data := [243 / 200, -29 / 40], rows := 2, cols := 1 },
        { data := [51 / 200], rows := 1, cols := 1 })] :=
  ⟨network_train_first_failure sample_network sample_net_step1 sample_net_failed
      [sample_input, sample_input] [sample_target, sample_gradient]
      (fun _ => sample_input) (fun i => if i = 0 then sample_target else sample_gradient)
      2 3 2 3 0 1 rfl rfl
      (fun i hi => by interval_cases i <;> rfl)
      (fun i hi => by interval_cases i <;> rfl)
      (by decide) (by decide)
      (fun s => if s = 0 then sample_network else sample_net_step1) (fun _ => 65 / 16)
      rfl rfl
      (fun s hs => by
        have : s = 0 := by omega
        subst this
        exact sample_step1)
      sample_step2_fails,
    sample_failed_params⟩

end C21Witness
section MatmulV1
variable {α : Type}

theorem Tensor.write_of_le (t : Tensor α) (idx : Nat) (v : α) (h : t.data.length ≤ idx) :
    t.write idx v = t := by
  unfold Tensor.write
  rw [List.set_eq_of_length_le h]

theorem Tensor.write_read_self [Inhabited α] (t : Tensor α) (idx : Nat) :
    t.write idx (t.read idx) = t := by
  obtain ⟨d, r, c⟩ := t
  unfold Tensor.write Tensor.read
  simp only [Tensor.mk.injEq, and_true]
  apply List.ext_getElem?
  intro k
  rw [List.getElem?_set]
  by_cases hk : idx = k
  · subst hk
    by_cases hl : idx < d.length
    · simp [hl, List.getD_eq_getElem?_getD]
    · have hle : d.length ≤ idx := by omega
      rw [if_neg hl, List.getElem?_eq_none hle]
      simp
  · rw [if_neg hk]

theorem Tensor.write_write (t : Tensor α) (idx : Nat) (v w : α) :
    (t.write idx v).write idx w = t.write idx w := by
  unfold Tensor.write
  simp only [List.set_set]

/-- The innermost loop of tensor_multiplication_v1, `t[i][j] += a k` for k = 0..n-1, writes
into the cell the left-to-right sum started from the old value of the cell. -/
theorem for_range_accumulate [Inhabited α] [Add α] (i j n : Nat) (a : Nat → α)
    (t : Tensor α) :
    for_range n (fun k s => s.setCell i j (s.cell i j + a k)) t =
      t.write (i * t.cols + j)
        (for_range n (fun k x => x + a k) (t.read (i * t.cols + j))) := by
  induction n with
  | zero => exact (Tensor.write_read_self t _).symm
  | succ n ih =>
    rw [for_range_succ, ih, for_range_succ]
    unfold Tensor.setCell Tensor.cell
    have hc : ∀ v, (t.write (i * t.cols + j) v).cols = t.cols := fun _ => rfl
    rw [hc, Tensor.write_write]
    by_cases h : i * t.cols + j < t.data.length
    · rw [Tensor.read_write t _ _ _ h, if_pos rfl]
    · rw [Tensor.write_of_le t _ _ (by omega), Tensor.write_of_le t _ _ (by omega)]

theorem tensor_multiplication_v1_spec [Inhabited α] [Zero α] [Add α] [Mul α]
    (t1 t2 : Tensor α) (h1 : t1.WF) (h2 : t2.WF) (hc : t1.cols = t2.rows) :
    ∃ r : Tensor α, tensor_multiplication_v1 t1 t2 = some r ∧ r.rows = t1.rows ∧
      r.cols = t2.cols ∧ r.WF ∧
      ∀ i j, i < t1.rows → j < t2.cols →
        r.cell i j = for_range t1.cols (fun k sum => sum + t1.cell i k * t2.cell k j) 0 := by
  unfold tensor_multiplication_v1
  rw [if_neg (by simpa using hc)]
  obtain ⟨res, e1, r1, r2, r3, r4⟩ :=
    create_tensor_value_spec t1.rows t2.cols h1.1 h2.2.1 (0 : α)
  rw [e1]
  simp only
  obtain ⟨k1, k2, k3, k4⟩ := loop_cells t2.cols
    (fun i j x => for_range t1.cols (fun k sum => sum + t1.cell i k * t2.cell k j) x)
    (fun i j t => for_range t1.cols (fun k t =>
      t.setCell i j (t.cell i j + t1.cell i k * t2.cell k j)) t)
    (fun i j s hs => by
      have := for_range_accumulate i j t1.cols (fun k => t1.cell i k * t2.cell k j) s
      rw [hs] at this
      exact this)
    t1.rows res r2 (by rw [r3])
  refine ⟨_, rfl, k1.trans r1, k2, ⟨?_, ?_, ?_⟩, fun i j hi hj => ?_⟩
  · rw [k1, r1]; exact h1.1
  · rw [k2]; exact h2.2.1
  · rw [k3, r3, k1, r1, k2]
  · rw [k4 i j hi hj, r4 i j hi hj]

end MatmulV1
section C31
variable {α : Type}

/-- C31: for all well-formed tensors t1 and t2, the optimised tensor_multiplication and the
naive tensor_multiplication_v1 agree: both return no result exactly when
t1.cols ≠ t2.rows, and otherwise both return the same tensor, of shape t1.rows × t2.cols,
whose cell (i,j) is the sum of t1[i][k] * t2[k][j] accumulated from 0 in the order
k = 0..n-1. No law of arithmetic is used: the two sums have the same terms in the same
order. -/
theorem tensor_multiplication_eq_v1 [Inhabited α] [Zero α] [Add α] [Mul α]
    (t1 t2 : Tensor α) (h1 : t1.WF) (h2 : t2.WF) :
    tensor_multiplication t1 t2 = tensor_multiplication_v1 t1 t2 ∧
    (tensor_multiplication t1 t2 = none ↔ t1.cols ≠ t2.rows) ∧
    (tensor_multiplication_v1 t1 t2 = none ↔ t1.cols ≠ t2.rows) ∧
    (t1.cols = t2.rows →
      ∃ r : Tensor α, tensor_multiplication t1 t2 = some r ∧
        tensor_multiplication_v1 t1 t2 = some r ∧ r.rows = t1.rows ∧ r.cols = t2.cols ∧
        ∀ i j, i < t1.rows → j < t2.cols →
          r.cell i j =
            for_range t1.cols (fun k sum => sum + t1.cell i k * t2.cell k j) 0) := by
  by_cases hc : t1.cols = t2.rows
  · obtain ⟨r, e, r1, r2, rwf, r4⟩ := tensor_multiplication_spec t1 t2 h1 h2 hc
    obtain ⟨s, e', s1, s2, swf, s4⟩ := tensor_multiplication_v1_spec t1 t2 h1 h2 hc
    have hrs : r = s := by
      apply Tensor.ext_cells rwf.2.2 swf.2.2 (by rw [r1, s1]) (by rw [r2, s2])
      intro i j hi hj
      rw [s1] at hi
      rw [s2] at hj
      rw [r4 i j hi hj, s4 i j hi hj]
    subst hrs
    refine ⟨by rw [e, e'], ?_, ?_, fun _ => ⟨r, e, e', r1, r2, r4⟩⟩
    · rw [e]; simp [hc]
    · rw [e']; simp [hc]
  · have e : tensor_multiplication t1 t2 = none := tensor_multiplication_none t1 t2 hc
    have e' : tensor_multiplication_v1 t1 t2 = none := by
      unfold tensor_multiplication_v1
      rw [if_pos hc]
    refine ⟨by rw [e, e'], ?_, ?_, fun h => absurd h hc⟩
    · rw [e]; simp [hc]
    · rw [e']; simp [hc]

theorem tensor_multiplication_eq_v1_witness :
    sample_input.WF ∧ sample_weights.WF ∧
    tensor_multiplication sample_input sample_weights =
      tensor_multiplication_v1 sample_input sample_weights ∧
    tensor_multiplication_v1 sample_input sample_weights =
      some { data := [11, 14, 2, 2], rows := 2, cols := 2 } ∧
    tensor_multiplication sample_weights sample_input =
      tensor_multiplication_v1 sample_weights sample_input ∧
    (tensor_multiplication_v1 sample_input sample_input = none ↔
      sample_input.cols ≠ sample_input.rows) :=
  ⟨by decide, by decide,
    (tensor_multiplication_eq_v1 sample_input sample_weights (by decide) (by decide)).1,
    by decide!,
    (tensor_multiplication_eq_v1 sample_weights sample_input (by decide) (by decide)).1,
    (tensor_multiplication_eq_v1 sample_input sample_input (by decide) (by decide)).2.2.1⟩

end C31

section C32
variable {α : Type}

/-- C32: for every well-formed tensor t of shape r×c, tensor_transpose returns a new tensor
of shape c×r, holding c*r cells, whose cell (j,i) equals t[i][j] for all i < r and j < c;
t is only read. -/
theorem tensor_transpose_cells [Inhabited α] (t : Tensor α) (h : t.WF) :
    ∃ r : Tensor α, tensor_transpose t = some r ∧ r.rows = t.cols ∧ r.cols = t.rows ∧
      r.data.length = t.cols * t.rows ∧
      ∀ i j, i < t.rows → j < t.cols → r.cell j i = t.cell i j := by
  obtain ⟨r, e, r1, r2, rwf, r4⟩ := tensor_transpose_spec t h
  refine ⟨r, e, r1, r2, ?_, fun i j hi hj => r4 j i hj hi⟩
  rw [rwf.2.2, r1, r2]

theorem tensor_transpose_cells_witness :
    sample_input.WF ∧
    tensor_transpose sample_input =
      some { data := [1, -1, 0, 1, 2, 0], rows := 3, cols := 2 } ∧
    ∃ r : Tensor ℚ, tensor_transpose sample_input = some r ∧ r.rows = sample_input.cols ∧
      r.cols = sample_input.rows ∧ r.data.length = sample_input.cols * sample_input.rows ∧
      ∀ i j, i < sample_input.rows → j < sample_input.cols →
        r.cell j i = sample_input.cell i j :=
  ⟨by decide, by decide!, tensor_transpose_cells sample_input (by decide)⟩

end C32
section C33
variable {α : Type}

/-- C33: after a successful forward_pass on an input of shape b × n_neurons_prev followed
by a backward_pass with an output_gradient of shape b × n_neurons (both succeed on a
well-formed layer), d_weights has the shape of weights (n_neurons_prev × n_neurons),
d_biases has the shape of biases (1 × n_neurons) and the returned dx has the shape of the
input; so a following SGD update passes both shape tests and rewrites every cell of weights
and biases. -/
theorem backward_pass_gradient_shapes [Inhabited α] [LinearOrderedField α] (layer : Layer α)
    (func : activation_function) (input og : Tensor α) (opt : Optimiser α) (idx : Int)
    (hl : layer.WF) (ha : layer.activation = create_activation func) (hin : input.WF)
    (hc : (input.cols : Int) = layer.n_neurons_prev) (hr : og.rows = input.rows)
    (hoc : (og.cols : Int) = layer.n_neurons) (hopt : opt.type = OptimiserType.SGD) :
    ∃ (out : Tensor α) (l1 : Layer α) (dx : Tensor α) (l2 : Layer α) (dW dB : Tensor α),
      forward_pass layer input = (some out, l1) ∧ backward_pass l1 og = (some dx, l2) ∧
      l2.d_weights = some dW ∧ l2.d_biases = some dB ∧
      l2.weights = layer.weights ∧ l2.biases = layer.biases ∧
      dW.rows = layer.weights.rows ∧ dW.cols = layer.weights.cols ∧
      (dW.rows : Int) = layer.n_neurons_prev ∧ (dW.cols : Int) = layer.n_neurons ∧
      dB.rows = layer.biases.rows ∧ dB.cols = layer.biases.cols ∧
      dB.rows = 1 ∧ (dB.cols : Int) = layer.n_neurons ∧
      dx.rows = input.rows ∧ dx.cols = input.cols ∧
      (optimiser_update opt l2 idx).weights.UpdatedBy layer.weights
        (fun i j => layer.weights.cell i j + -opt.learning_rate * dW.cell i j) ∧
      (optimiser_update opt l2 idx).biases.UpdatedBy layer.biases
        (fun i j => layer.biases.cell i j + -opt.learning_rate * dB.cell i j) := by
  obtain ⟨hw, hb, hwr, hwc, hb1, hbc⟩ := hl
  have hc1 : input.cols = layer.weights.rows := by
    have : (input.cols : Int) = (layer.weights.rows : Int) := by rw [hc, hwr]
    exact_mod_cast this
  have hbc1 : layer.biases.cols = layer.weights.cols := by
    have : (layer.biases.cols : Int) = (layer.weights.cols : Int) := by rw [hbc, hwc]
    exact_mod_cast this
  have hoc1 : og.cols = layer.weights.cols := by
    have : (og.cols : Int) = (layer.weights.cols : Int) := by rw [hoc, hwc]
    exact_mod_cast this
  obtain ⟨z, itc, -, iwf, i1, i2, -, zwf, z1, z2, -, e⟩ :=
    forward_pass_ok layer input hw hb1 hbc1 hin hc1
  obtain ⟨a1, a2, -, -⟩ := tensor_apply_func_inplace_spec z
    (if func = .LINEAR then _apply_d_linear_element else _apply_d_relu_to_element : α → α)
    zwf.2.2
  obtain ⟨dx, dW, dB, e2, -, w1, w2, -, -, b1, b2, -, -, x1, x2, -⟩ := backward_pass_ok
    ({ layer with input_transpose_cache := some itc, z_cache := some z } : Layer α) og z itc _
    rfl rfl (by rw [ha]; exact create_activation_backward func z zwf) a1 a2 zwf iwf
    (by rw [i2, z1]) hw z2.symm (by rw [hr, z1]) (by rw [hoc1, z2])
  have hdW1 : dW.rows = layer.weights.rows := by rw [w1, i1, hc1]
  have hdW2 : dW.cols = layer.weights.cols := by rw [w2, z2]
  have hdB2 : dB.cols = layer.biases.cols := by rw [b2, z2, hbc1]
  have hupd : optimiser_update opt
      ({ layer with input_transpose_cache := some itc, z_cache := some z,
                    d_weights := some dW, d_biases := some dB } : Layer α) idx =
      _sgd_update opt
        ({ layer with input_transpose_cache := some itc, z_cache := some z,
                      d_weights := some dW, d_biases := some dB } : Layer α) := by
    unfold optimiser_update
    rw [hopt]
  refine ⟨_, _, dx, _, dW, dB, e, e2, rfl, rfl, rfl, rfl, hdW1, hdW2, by rw [hdW1, hwr],
    by rw [hdW2, hwc], by rw [b1, hb1], hdB2, b1, by rw [hdB2, hbc], by rw [x1, z1],
    by rw [x2, hc1], ?_, ?_⟩
  · rw [hupd]
    exact tensor_add_scaled_inplace_spec layer.weights dW (-opt.learning_rate) hw.2.2
      hdW1.symm hdW2.symm
  · rw [hupd]
    exact tensor_add_scaled_inplace_spec layer.biases dB (-opt.learning_rate) hb.2.2
      (by rw [b1, hb1]) hdB2.symm

theorem backward_pass_gradient_shapes_witness :
    (sample_layer activation_function.RELU).WF ∧ sample_input.WF ∧
    ∃ (out : Tensor ℚ) (l1 : Layer ℚ) (dx : Tensor ℚ) (l2 : Layer ℚ) (dW dB : Tensor ℚ),
      forward_pass (sample_layer activation_function.RELU) sample_input = (some out, l1) ∧
      backward_pass l1 sample_gradient = (some dx, l2) ∧
      l2.d_weights = some dW ∧ l2.d_biases = some dB ∧
      dW.rows = sample_weights.rows ∧ dW.cols = sample_weights.cols ∧
      dB.rows = sample_biases.rows ∧ dB.cols = sample_biases.cols ∧
      dx.rows = sample_input.rows ∧ dx.cols = sample_input.cols :=
  ⟨by decide, by decide,
    (backward_pass_gradient_shapes (sample_layer activation_function.RELU)
      activation_function.RELU sample_input sample_gradient sample_sgd 0 (by decide) rfl
      (by decide) (by decide) (by decide) (by decide) rfl).imp
      (fun _ h => h.imp (fun _ h => h.imp (fun _ h => h.imp (fun _ h => h.imp (fun _ h =>
        h.imp (fun _ h => ⟨h.1, h.2.1, h.2.2.1, h.2.2.2.1, h.2.2.2.2.2.2.1,
          h.2.2.2.2.2.2.2.1, h.2.2.2.2.2.2.2.2.2.2.1, h.2.2.2.2.2.2.2.2.2.2.2.1,
          h.2.2.2.2.2.2.2.2.2.2.2.2.2.2.1, h.2.2.2.2.2.2.2.2.2.2.2.2.2.2.2.1⟩))))))⟩

end C33
section ChainTotal
variable {α : Type}

end ChainTotal
section UpdateTotal
variable {α : Type}

/-- The in-place scaled addition keeps the shape and the buffer length of its left operand,
whatever the right operand is. -/
theorem tensor_add_scaled_inplace_wf [Inhabited α] [Add α] [Mul α] (t1 : Tensor α)
    (t2 : Option (Tensor α)) (scaler : α) (h : t1.WF) :
    (tensor_add_scaled_inplace t1 t2 scaler).WF ∧
    (tensor_add_scaled_inplace t1 t2 scaler).rows = t1.rows ∧
    (tensor_add_scaled_inplace t1 t2 scaler).cols = t1.cols := by
  cases t2 with
  | none => exact ⟨h, rfl, rfl⟩
  | some t2 =>
    by_cases hs : t1.rows ≠ t2.rows ∨ t1.cols ≠ t2.cols
    · have e : tensor_add_scaled_inplace t1 (some t2) scaler = t1 := by
        unfold tensor_add_scaled_inplace
        simp only
        rw [if_pos hs]
      rw [e]
      exact ⟨h, rfl, rfl⟩
    · have hr : t1.rows = t2.rows := by
        by_contra hne
        exact hs (Or.inl hne)
      have hc : t1.cols = t2.cols := by
        by_contra hne
        exact hs (Or.inr hne)
      obtain ⟨a1, a2, a3, -⟩ := tensor_add_scaled_inplace_spec t1 t2 scaler h.2.2 hr hc
      exact ⟨⟨by rw [a1]; exact h.1, by rw [a2]; exact h.2.1, by rw [a3, a1, a2]; exact h.2.2⟩,
        a1, a2⟩

end UpdateTotal
section TrainTotal
variable {α : Type}

end TrainTotal
section LoopsTotal
variable {α : Type}

/-- A property indexed by the iteration count that every iteration carries one step
further holds, at the count n, after the loop. -/
theorem for_range_inv_idx {σ : Type} (P : Nat → σ → Prop) (n : Nat) (body : Nat → σ → σ)
    (s : σ) (h0 : P 0 s) (hstep : ∀ i s, i < n → P i s → P (i + 1) (body i s)) :
    P n (for_range n body s) := by
  induction n with
  | zero => exact h0
  | succ n ih =>
    rw [for_range_succ]
    exact hstep n _ (Nat.lt_succ_self n) (ih (fun i s hi => hstep i s (by omega)))

end LoopsTotal
section C34
variable {α : Type}

end C34
section C34Witness

end C34Witness
section C35
variable {α : Type}

end C35
section FrameLemmas
variable {α : Type}

/-- Writing back a layer that agrees with the layer it replaces under `f` keeps the image
of the layers under `f`. -/
theorem setLayer_map {β : Type} (f : Layer α → β) (net : Network α) (i : Nat)
    (l l1 : Layer α) (hl : net.layers.get? i = some l) (h : f l1 = f l) :
    (net.setLayer i l1).layers.map f = net.layers.map f := by
  unfold Network.setLayer
  simp only
  apply List.ext_getElem?
  intro k
  rw [List.getElem?_map, List.getElem?_map, List.getElem?_set]
  by_cases hk : i = k
  · subst hk
    rw [if_pos rfl]
    rw [List.get?_eq_getElem?] at hl
    rw [hl]
    have hlt : i < net.layers.length := by
      by_contra hge
      rw [List.getElem?_eq_none (by omega)] at hl
      exact absurd hl (by simp)
    simp [hlt, h]
  · rw [if_neg hk]

theorem forward_pass_clearCaches [Inhabited α] [Zero α] [Add α] [Mul α] (l : Layer α)
    (x : Tensor α) : (forward_pass l x).2.clearCaches = l.clearCaches := by
  unfold forward_pass
  cases tensor_transpose x with
  | none => rfl
  | some itc =>
    simp only
    cases tensor_multiplication x l.weights with
    | none => rfl
    | some m =>
      simp only
      cases tensor_deepcopy (tensor_row_addition_inplace m l.biases) with
      | none => rfl
      | some res => rfl

end FrameLemmas

section C36
variable {α : Type}

/-- C36: network_predict changes only the input_transpose_cache and z_cache of the layers:
for every network and input, whether the call returns a tensor or not, the layer count, the
loss, the optimiser, input_feature_size and capacity are the same after the call, and every
layer has the weights, biases, d_weights, d_biases, n_neurons, n_neurons_prev and
activation it had before. -/
theorem network_predict_frame [Inhabited α] [Zero α] [Add α] [Mul α] (net : Network α)
    (input : Tensor α) :
    ∃ (o : Option (Tensor α)) (net1 : Network α), network_predict net input = (o, net1) ∧
      net1.n_layers = net.n_layers ∧ net1.loss_func = net.loss_func ∧
      net1.optimiser = net.optimiser ∧
      net1.input_feature_size = net.input_feature_size ∧ net1.capacity = net.capacity ∧
      net1.layers.map Layer.clearCaches = net.layers.map Layer.clearCaches ∧
      ∀ (i : Nat) (l l1 : Layer α), net.layers.get? i = some l →
        net1.layers.get? i = some l1 →
        l1.weights = l.weights ∧ l1.biases = l.biases ∧ l1.d_weights = l.d_weights ∧
        l1.d_biases = l.d_biases ∧ l1.n_neurons = l.n_neurons ∧
        l1.n_neurons_prev = l.n_neurons_prev ∧ l1.activation = l.activation := by
  have hinv : (network_predict net input).2.layers.map Layer.clearCaches =
        net.layers.map Layer.clearCaches ∧
      (network_predict net input).2.loss_func = net.loss_func ∧
      (network_predict net input).2.optimiser = net.optimiser ∧
      (network_predict net input).2.input_feature_size = net.input_feature_size ∧
      (network_predict net input).2.capacity = net.capacity := by
    unfold network_predict
    by_cases h : net.n_layers = 0 ∨ (input.cols : Int) ≠ net.input_feature_size
    · rw [if_pos h]
      exact ⟨rfl, rfl, rfl, rfl, rfl⟩
    · rw [if_neg h]
      apply for_range_inv (fun st : Option (Tensor α) × Network α =>
        st.2.layers.map Layer.clearCaches = net.layers.map Layer.clearCaches ∧
        st.2.loss_func = net.loss_func ∧ st.2.optimiser = net.optimiser ∧
        st.2.input_feature_size = net.input_feature_size ∧ st.2.capacity = net.capacity)
      · exact ⟨rfl, rfl, rfl, rfl, rfl⟩
      · rintro i ⟨o, n1⟩ hP
        simp only at hP
        cases o with
        | none => exact hP
        | some inp =>
          simp only
          cases hl : n1.layers.get? i with
          | none => exact hP
          | some layer =>
            simp only
            have hfp := forward_pass_clearCaches layer inp
            rcases hf : forward_pass layer inp with ⟨_ | out, l1⟩
            · rw [hf] at hfp
              simp only
              rw [setLayer_map Layer.clearCaches n1 i layer l1 hl hfp]
              exact hP
            · rw [hf] at hfp
              simp only
              rw [setLayer_map Layer.clearCaches n1 i layer l1 hl hfp]
              exact hP
  obtain ⟨h1, h2, h3, h4, h5⟩ := hinv
  refine ⟨(network_predict net input).1, (network_predict net input).2, rfl, ?_, h2, h3, h4,
    h5, h1, fun i l l1 hl hl1 => ?_⟩
  · have := congrArg List.length h1
    simpa [Network.n_layers] using this
  · have := congrArg (fun ls => ls.get? i) h1
    simp only [List.get?_eq_getElem?, List.getElem?_map] at this hl hl1
    rw [hl, hl1] at this
    simp only [Option.map_some', Option.some.injEq] at this
    have hw := congrArg Layer.weights this
    have hb := congrArg Layer.biases this
    have hdw := congrArg Layer.d_weights this
    have hdb := congrArg Layer.d_biases this
    have hn := congrArg Layer.n_neurons this
    have hp := congrArg Layer.n_neurons_prev this
    have ha := congrArg Layer.activation this
    exact ⟨hw, hb, hdw, hdb, hn, hp, ha⟩

theorem network_predict_frame_witness :
    (∃ (o : Option (Tensor ℚ)) (net1 : Network ℚ),
      network_predict sample_net_step1 sample_input = (o, net1) ∧
      net1.n_layers = sample_net_step1.n_layers ∧
      net1.layers.map Layer.clearCaches = sample_net_step1.layers.map Layer.clearCaches) ∧
    ∃ (o : Option (Tensor ℚ)) (net1 : Network ℚ),
      network_predict sample_net_step1 sample_gradient = (o, net1) ∧
      net1.n_layers = sample_net_step1.n_layers ∧
      net1.layers.map Layer.clearCaches = sample_net_step1.layers.map Layer.clearCaches :=
  ⟨(network_predict_frame sample_net_step1 sample_input).imp (fun _ h =>
      h.imp (fun _ h => ⟨h.1, h.2.1, h.2.2.2.2.2.2.1⟩)),
    (network_predict_frame sample_net_step1 sample_gradient).imp (fun _ h =>
      h.imp (fun _ h => ⟨h.1, h.2.1, h.2.2.2.2.2.2.1⟩))⟩

end C36
section C37
variable {α : Type}

/-- C37: forward_pass is not atomic on failure. On a layer that holds the caches of an
earlier successful forward_pass, a call with a well-formed input whose cols differ from
n_neurons_prev returns no tensor, yet input_transpose_cache now holds the transpose of the
rejected input while z_cache still holds the value of the earlier call; the new
input_transpose_cache has another number of rows than the old one, so the two caches no
longer come from one forward call. -/
theorem forward_pass_not_atomic [Inhabited α] [LinearOrderedField α]
    (layer0 layer : Layer α) (x0 out0 input : Tensor α) (hl : layer0.WF) (hx0 : x0.WF)
    (hprev : forward_pass layer0 x0 = (some out0, layer)) (hin : input.WF)
    (hc : (input.cols : Int) ≠ layer.n_neurons_prev) :
    ∃ (z0 itc0 xT : Tensor α) (layer1 : Layer α),
      layer.z_cache = some z0 ∧ layer.input_transpose_cache = some itc0 ∧
      forward_pass layer input = (none, layer1) ∧
      tensor_transpose input = some xT ∧
      layer1.input_transpose_cache = some xT ∧ layer1.z_cache = some z0 ∧
      xT.rows = input.cols ∧ xT.cols = input.rows ∧
      (∀ i j, i < input.rows → j < input.cols → xT.cell j i = input.cell i j) ∧
      xT.rows ≠ itc0.rows ∧ xT ≠ itc0 ∧
      layer1 = { layer with input_transpose_cache := some xT } := by
  obtain ⟨hw, hb, hwr, hwc, hb1, hbc⟩ := hl
  have hbc1 : layer0.biases.cols = layer0.weights.cols := by
    have : (layer0.biases.cols : Int) = (layer0.weights.cols : Int) := by rw [hbc, hwc]
    exact_mod_cast this
  obtain ⟨z, itc, e, -, -, -, i1, -, -, -⟩ :=
    forward_pass_success layer0 layer x0 out0 hw hb1 hbc1 hx0 hprev
  subst e
  simp only at hc
  have hc1 : input.cols ≠ layer0.weights.rows := by
    intro h
    apply hc
    rw [h, hwr]
  obtain ⟨xT, e1, r1, r2, -, r4⟩ := tensor_transpose_spec input hin
  have e2 : tensor_multiplication input layer0.weights = none :=
    tensor_multiplication_none input layer0.weights hc1
  have hrows : xT.rows ≠ itc.rows := by rw [r1, i1]; exact hc1
  refine ⟨z, itc, xT, _, rfl, rfl, ?_, e1, rfl, rfl, r1, r2,
    fun i j hi hj => r4 j i hj hi, hrows, fun h => hrows (by rw [h]), rfl⟩
  unfold forward_pass
  simp only [e1, e2]

theorem forward_pass_not_atomic_witness :
    (sample_layer activation_function.LINEAR).WF ∧ sample_input.WF ∧ sample_gradient.WF ∧
    (sample_gradient.cols : Int) ≠
      (sample_layer_ready activation_function.LINEAR).n_neurons_prev ∧
    (forward_pass (sample_layer_ready activation_function.LINEAR) sample_gradient).1 = none ∧
    (forward_pass (sample_layer_ready activation_function.LINEAR)
      sample_gradient).2.input_transpose_cache =
      some { data := [1, 0, -2, 3], rows := 2, cols := 2 } ∧
    (sample_layer_ready activation_function.LINEAR).input_transpose_cache =
      some { data := [1, -1, 0, 1, 2, 0], rows := 3, cols := 2 } ∧
    ∃ (z0 itc0 xT : Tensor ℚ) (layer1 : Layer ℚ),
      (sample_layer_ready activation_function.LINEAR).z_cache = some z0 ∧
      (sample_layer_ready activation_function.LINEAR).input_transpose_cache = some itc0 ∧
      forward_pass (sample_layer_ready activation_function.LINEAR) sample_gradient =
        (none, layer1) ∧
      tensor_transpose sample_gradient = some xT ∧
      layer1.input_transpose_cache = some xT ∧ layer1.z_cache = some z0 ∧
      xT.rows = sample_gradient.cols ∧ xT.cols = sample_gradient.rows ∧
      (∀ i j, i < sample_gradient.rows → j < sample_gradient.cols →
        xT.cell j i = sample_gradient.cell i j) ∧
      xT.rows ≠ itc0.rows ∧ xT ≠ itc0 ∧
      layer1 = { sample_layer_ready activation_function.LINEAR with
        input_transpose_cache := some xT } :=
  ⟨by decide, by decide, by decide, by decide, by decide!, by decide!, by decide!,
    forward_pass_not_atomic (sample_layer activation_function.LINEAR)
      (sample_layer_ready activation_function.LINEAR) sample_input sample_z sample_gradient
      (by decide) (by decide) sample_forward (by decide) (by decide)⟩

end C37
section C38
variable {α : Type}

/-- C38: for an optimiser of type SGD and a layer on which no backward_pass has run
(d_weights and d_biases absent), optimiser_update leaves weights and biases unchanged in
every cell; the layer is handed back as it was. -/
theorem optimiser_update_sgd_no_gradient [Inhabited α] [Add α] [Mul α] [Neg α]
    (opt : Optimiser α) (layer : Layer α) (layer_index : Int)
    (h : opt.type = OptimiserType.SGD) (hdw : layer.d_weights = none)
    (hdb : layer.d_biases = none) :
    (optimiser_update opt layer layer_index).weights = layer.weights ∧
    (optimiser_update opt layer layer_index).biases = layer.biases ∧
    (∀ i j, (optimiser_update opt layer layer_index).weights.cell i j =
      layer.weights.cell i j) ∧
    (∀ i j, (optimiser_update opt layer layer_index).biases.cell i j =
      layer.biases.cell i j) ∧
    optimiser_update opt layer layer_index = layer := by
  have e : optimiser_update opt layer layer_index = layer := by
    obtain ⟨n, p, w, b, act, dw, db, itc, zc⟩ := layer
    simp only at hdw hdb
    subst hdw hdb
    unfold optimiser_update
    rw [h]
    rfl
  rw [e]
  exact ⟨rfl, rfl, fun _ _ => rfl, fun _ _ => rfl, rfl⟩

theorem optimiser_update_sgd_no_gradient_witness :
    sample_sgd.type = OptimiserType.SGD ∧
    (optimiser_update sample_sgd (sample_layer activation_function.RELU) 0).weights =
      sample_weights ∧
    (optimiser_update sample_sgd (sample_layer activation_function.RELU) 0).biases =
      sample_biases :=
  ⟨rfl,
    (optimiser_update_sgd_no_gradient sample_sgd (sample_layer activation_function.RELU) 0
      rfl rfl rfl).1,
    (optimiser_update_sgd_no_gradient sample_sgd (sample_layer activation_function.RELU) 0
      rfl rfl rfl).2.1⟩

end C38

section Capacity
variable {α : Type}

theorem tdiv_three_halves (c : Int) (h : 4 ≤ c) : c + 2 ≤ Int.tdiv (c * 3) 2 := by
  rw [Int.tdiv_eq_ediv (by omega) (by omega)]
  omega

/-- Every reachable network has at most `capacity` layers and at least four slots. -/
theorem reachable_capacity_inv [Inhabited α] [LinearOrderedField α] (sqrt : α → α)
    (net : Network α) (h : net.Reachable sqrt) :
    (net.n_layers : Int) ≤ net.capacity ∧ 4 ≤ net.capacity := by
  induction h with
  | create ifs lt ot lr net hc =>
    unfold create_network at hc
    by_cases hi : ifs ≤ 0
    · rw [if_pos hi] at hc; exact absurd hc (by simp)
    · rw [if_neg hi] at hc
      rcases ho : create_optimiser ot lr with _ | o
      · rw [ho] at hc; exact absurd hc (by simp)
      · rw [ho] at hc
        simp only [Option.some.injEq] at hc
        subst hc
        exact ⟨by simp [Network.n_layers, INITIAL_NETWORK_SIZE],
          by simp [INITIAL_NETWORK_SIZE]⟩
  | add_layer net rand n func _ ih =>
    obtain ⟨h1, h2⟩ := ih
    rw [network_add_layer_eq]
    rcases hcl : create_layer sqrt rand n _ func with _ | l
    · exact ⟨h1, h2⟩
    · simp only [Network.n_layers, List.length_append, List.length_singleton]
      unfold Network.n_layers at h1
      by_cases hcap : (net.layers.length : Int) = net.capacity
      · rw [if_pos hcap]
        have := tdiv_three_halves net.capacity h2
        constructor
        · push_cast; omega
        · omega
      · rw [if_neg hcap]
        constructor
        · push_cast; omega
        · exact h2

end Capacity
section C39
variable {α : Type}

/-- C39: every network reachable from create_network by network_add_layer calls satisfies
0 ≤ n_layers ≤ capacity with capacity ≥ 4; when a successful add_layer grows the capacity
(n_layers = capacity) the new capacity (int)(capacity*1.5) is strictly greater than the old
one, and otherwise the capacity stays; so the slot layers[n_layers] that add_layer writes
is always within the capacity in force, and n_layers grows by one. -/
theorem reachable_capacity_bounds [Inhabited α] [LinearOrderedField α] (sqrt : α → α)
    (net : Network α) (h : net.Reachable sqrt) :
    0 ≤ (net.n_layers : Int) ∧ (net.n_layers : Int) ≤ net.capacity ∧ 4 ≤ net.capacity ∧
    INITIAL_NETWORK_SIZE ≤ net.capacity ∧
    ∀ (rand : Nat → α) (n_neurons : Int) (func : activation_function),
      (network_add_layer sqrt rand net n_neurons func).1 = 1 →
        (net.n_layers : Int) < (network_add_layer sqrt rand net n_neurons func).2.capacity ∧
        (network_add_layer sqrt rand net n_neurons func).2.n_layers = net.n_layers + 1 ∧
        ((net.n_layers : Int) = net.capacity →
          (network_add_layer sqrt rand net n_neurons func).2.capacity =
            Int.tdiv (net.capacity * 3) 2 ∧
          net.capacity < (network_add_layer sqrt rand net n_neurons func).2.capacity) ∧
        ((net.n_layers : Int) ≠ net.capacity →
          (network_add_layer sqrt rand net n_neurons func).2.capacity = net.capacity) := by
  obtain ⟨h1, h2⟩ := reachable_capacity_inv sqrt net h
  refine ⟨Int.ofNat_nonneg _, h1, h2, h2, fun rand n func => ?_⟩
  rw [network_add_layer_eq]
  rcases hcl : create_layer sqrt rand n _ func with _ | l
  · intro hflag
    simp only at hflag
    exact absurd hflag (by decide)
  · intro _
    simp only
    have hgrow := tdiv_three_halves net.capacity h2
    refine ⟨?_, ?_, fun hcap => ?_, fun hcap => ?_⟩
    · by_cases hcap : (net.n_layers : Int) = net.capacity
      · rw [if_pos hcap]; omega
      · rw [if_neg hcap]; omega
    · simp [Network.n_layers]
    · rw [if_pos hcap]
      exact ⟨rfl, by omega⟩
    · rw [if_neg hcap]

theorem sample_network_full_reachable : Network.Reachable sample_sqrt sample_network_full :=
  Network.Reachable.add_layer _ _ _ _
    (Network.Reachable.add_layer _ _ _ _
      (Network.Reachable.add_layer _ _ _ _
        (Network.Reachable.add_layer _ _ _ _
          (Network.Reachable.create 3 .MSE .SGD (1 / 100) _ sample_create_network))))

theorem sample_network_full_size :
    sample_network_full.n_layers = 4 ∧ sample_network_full.capacity = 4 ∧
    (network_add_layer sample_sqrt sample_rand sample_network_full 2
      activation_function.RELU).1 = 1 ∧
    (network_add_layer sample_sqrt sample_rand sample_network_full 2
      activation_function.RELU).2.capacity = 6 := by
  refine ⟨by decide!, by decide!, by decide!, by decide!⟩

theorem reachable_capacity_bounds_witness :
    Network.Reachable sample_sqrt sample_network_full ∧
    sample_network_full.n_layers = 4 ∧ sample_network_full.capacity = 4 ∧
    (network_add_layer sample_sqrt sample_rand sample_network_full 2
      activation_function.RELU).2.capacity = 6 ∧
    (sample_network_full.n_layers : Int) ≤ sample_network_full.capacity ∧
    ((sample_network_full.n_layers : Int) <
        (network_add_layer sample_sqrt sample_rand sample_network_full 2
          activation_function.RELU).2.capacity ∧
      (network_add_layer sample_sqrt sample_rand sample_network_full 2
        activation_function.RELU).2.n_layers = sample_network_full.n_layers + 1 ∧
      ((sample_network_full.n_layers : Int) = sample_network_full.capacity →
        (network_add_layer sample_sqrt sample_rand sample_network_full 2
          activation_function.RELU).2.capacity =
          Int.tdiv (sample_network_full.capacity * 3) 2 ∧
        sample_network_full.capacity <
          (network_add_layer sample_sqrt sample_rand sample_network_full 2
            activation_function.RELU).2.capacity) ∧
      ((sample_network_full.n_layers : Int) ≠ sample_network_full.capacity →
        (network_add_layer sample_sqrt sample_rand sample_network_full 2
          activation_function.RELU).2.capacity = sample_network_full.capacity)) :=
  ⟨sample_network_full_reachable, sample_network_full_size.1, sample_network_full_size.2.1,
    sample_network_full_size.2.2.2,
    (reachable_capacity_bounds sample_sqrt sample_network_full
      sample_network_full_reachable).2.1,
    (reachable_capacity_bounds sample_sqrt sample_network_full
      sample_network_full_reachable).2.2.2.2 sample_rand 2 activation_function.RELU
      sample_network_full_size.2.2.1⟩

end C39
section C5
variable {α : Type}

/-- C5 fails as stated: the layer `sample_layer_stale`, reached by a forward_pass, a
rejected forward_pass and a backward_pass, holds both gradients, its d_weights being 2 × 2
against weights 3 × 2; the SGD update then leaves the weights as they were, so cell (0,0),
which is 1, is not its old value 1 plus d_weights' cell 1 times -0.01. -/
theorem optimiser_update_sgd_counterexample :
    sample_sgd.type = OptimiserType.SGD ∧
    (backward_pass
      (forward_pass (forward_pass (sample_layer activation_function.RELU) sample_input).2
        sample_gradient).2 sample_gradient).1 =
      some { data := [-3, -5, -7, 6, 12, 18], rows := 2, cols := 3 } ∧
    sample_layer_stale.d_weights = some { data := [1, -2, -2, 13], rows := 2, cols := 2 } ∧
    sample_layer_stale.d_biases = some { data := [1, 1], rows := 1, cols := 2 } ∧
    sample_layer_stale.weights = { data := [1, 2, 3, 4, 5, 6], rows := 3, cols := 2 } ∧
    (optimiser_update sample_sgd sample_layer_stale 0).weights =
      { data := [1, 2, 3, 4, 5, 6], rows := 3, cols := 2 } ∧
    (optimiser_update sample_sgd sample_layer_stale 0).weights.cell 0 0 ≠
      sample_layer_stale.weights.cell 0 0 +
        ({ data := [1, -2, -2, 13], rows := 2, cols := 2 } : Tensor ℚ).cell 0 0 *
          (-sample_sgd.learning_rate) := by
  refine ⟨rfl, by decide!, by decide!, by decide!, by decide!, by decide!, by decide!⟩

/-- C5, amended: for an SGD optimiser with learning rate lr and a well-formed layer whose
d_weights and d_biases are present, optimiser_update changes no field other than weights
and biases and keeps their shapes; when d_weights has the shape of weights every cell of
weights becomes its old value plus d_weights' cell times (-lr), and when its shape differs
the weights are left as they were; likewise for biases and d_biases. -/
theorem optimiser_update_sgd [Inhabited α] [CommRing α] (opt : Optimiser α)
    (layer : Layer α) (layer_index : Int) (dW dB : Tensor α)
    (ht : opt.type = OptimiserType.SGD)
    (hl : layer.WF) (hdw : layer.d_weights = some dW) (hdb : layer.d_biases = some dB) :
    ∃ w b : Tensor α,
      optimiser_update opt layer layer_index = { layer with weights := w, biases := b } ∧
      w.rows = layer.weights.rows ∧ w.cols = layer.weights.cols ∧
      w.data.length = layer.weights.data.length ∧
      (dW.rows = layer.weights.rows ∧ dW.cols = layer.weights.cols →
        ∀ i j, i < layer.weights.rows → j < layer.weights.cols →
          w.cell i j = layer.weights.cell i j + dW.cell i j * (-opt.learning_rate)) ∧
      (dW.rows ≠ layer.weights.rows ∨ dW.cols ≠ layer.weights.cols → w = layer.weights) ∧
      b.rows = layer.biases.rows ∧ b.cols = layer.biases.cols ∧
      b.data.length = layer.biases.data.length ∧
      (dB.rows = layer.biases.rows ∧ dB.cols = layer.biases.cols →
        ∀ i j, i < layer.biases.rows → j < layer.biases.cols →
          b.cell i j = layer.biases.cell i j + dB.cell i j * (-opt.learning_rate)) ∧
      (dB.rows ≠ layer.biases.rows ∨ dB.cols ≠ layer.biases.cols → b = layer.biases) := by
  obtain ⟨hw, hb, -⟩ := hl
  obtain ⟨⟨-, -, w3⟩, w1, w2⟩ := tensor_add_scaled_inplace_wf layer.weights (some dW)
    (-opt.learning_rate) hw
  obtain ⟨⟨-, -, b3⟩, b1, b2⟩ := tensor_add_scaled_inplace_wf layer.biases (some dB)
    (-opt.learning_rate) hb
  refine ⟨tensor_add_scaled_inplace layer.weights (some dW) (-opt.learning_rate),
    tensor_add_scaled_inplace layer.biases (some dB) (-opt.learning_rate), ?_, w1, w2,
    by rw [w3, w1, w2, hw.2.2], fun hs i j hi hj => ?_, fun hs => ?_, b1, b2,
    by rw [b3, b1, b2, hb.2.2], fun hs i j hi hj => ?_, fun hs => ?_⟩
  · simp only [optimiser_update, ht, _sgd_update, hdw, hdb]
  · obtain ⟨-, -, -, w4⟩ := tensor_add_scaled_inplace_spec layer.weights dW
      (-opt.learning_rate) hw.2.2 hs.1.symm hs.2.symm
    rw [w4 i j hi hj, mul_comm]
  · unfold tensor_add_scaled_inplace
    simp only
    rw [if_pos (hs.imp (fun h e => h e.symm) (fun h e => h e.symm))]
  · obtain ⟨-, -, -, b4⟩ := tensor_add_scaled_inplace_spec layer.biases dB
      (-opt.learning_rate) hb.2.2 hs.1.symm hs.2.symm
    rw [b4 i j hi hj, mul_comm]
  · unfold tensor_add_scaled_inplace
    simp only
    rw [if_pos (hs.imp (fun h e => h e.symm) (fun h e => h e.symm))]

theorem optimiser_update_sgd_witness :
    sample_sgd.type = OptimiserType.SGD ∧
    (sample_layer_graded activation_function.RELU).WF ∧
    (sample_layer_graded activation_function.RELU).d_weights = some sample_d_weights ∧
    (sample_layer_graded activation_function.RELU).d_biases = some sample_d_biases ∧
    (optimiser_update sample_sgd (sample_layer_graded activation_function.RELU) 0).weights =
      { data := [99 / 100, 201 / 100, 3, 199 / 50, 124 / 25, 6], rows := 3, cols := 2 } ∧
    ∃ w b : Tensor ℚ,
      optimiser_update sample_sgd (sample_layer_graded activation_function.RELU) 0 =
        { sample_layer_graded activation_function.RELU with weights := w, biases := b } ∧
      w.rows = (sample_layer_graded activation_function.RELU).weights.rows ∧
      w.cols = (sample_layer_graded activation_function.RELU).weights.cols ∧
      w.data.length = (sample_layer_graded activation_function.RELU).weights.data.length ∧
      (sample_d_weights.rows = (sample_layer_graded activation_function.RELU).weights.rows ∧
        sample_d_weights.cols = (sample_layer_graded activation_function.RELU).weights.cols →
        ∀ i j, i < (sample_layer_graded activation_function.RELU).weights.rows →
          j < (sample_layer_graded activation_function.RELU).weights.cols →
          w.cell i j = (sample_layer_graded activation_function.RELU).weights.cell i j +
            sample_d_weights.cell i j * (-sample_sgd.learning_rate)) ∧
      (sample_d_weights.rows ≠ (sample_layer_graded activation_function.RELU).weights.rows ∨
        sample_d_weights.cols ≠ (sample_layer_graded activation_function.RELU).weights.cols →
        w = (sample_layer_graded activation_function.RELU).weights) ∧
      b.rows = (sample_layer_graded activation_function.RELU).biases.rows ∧
      b.cols = (sample_layer_graded activation_function.RELU).biases.cols ∧
      b.data.length = (sample_layer_graded activation_function.RELU).biases.data.length ∧
      (sample_d_biases.rows = (sample_layer_graded activation_function.RELU).biases.rows ∧
        sample_d_biases.cols = (sample_layer_graded activation_function.RELU).biases.cols →
        ∀ i j, i < (sample_layer_graded activation_function.RELU).biases.rows →
          j < (sample_layer_graded activation_function.RELU).biases.cols →
          b.cell i j = (sample_layer_graded activation_function.RELU).biases.cell i j +
            sample_d_biases.cell i j * (-sample_sgd.learning_rate)) ∧
      (sample_d_biases.rows ≠ (sample_layer_graded activation_function.RELU).biases.rows ∨
        sample_d_biases.cols ≠ (sample_layer_graded activation_function.RELU).biases.cols →
        b = (sample_layer_graded activation_function.RELU).biases) :=
  ⟨rfl, by decide, rfl, rfl, by decide!,
   optimiser_update_sgd sample_sgd (sample_layer_graded activation_function.RELU) 0
     sample_d_weights sample_d_biases rfl (by decide) rfl rfl⟩

end C5
section C30
variable {α : Type}

/-- Two loops whose bodies agree at every index below the bound give the same result. -/
theorem for_range_congr {σ : Type} (n : Nat) (f g : Nat → σ → σ)
    (h : ∀ i, i < n → ∀ s, f i s = g i s) (s : σ) : for_range n f s = for_range n g s := by
  induction n with
  | zero => rfl
  | succ n ih =>
    rw [for_range_succ, for_range_succ, ih (fun i hi => h i (by omega)), h n (by omega)]

theorem int32_of_range (x : Int) (h0 : 0 ≤ x) (h1 : x ≤ INT_MAX) : int32 x = x := by
  unfold int32
  unfold INT_MAX at h1
  omega

/-- While rows*cols fits an int, the 32-bit allocation is the exact one. -/
theorem _create_tensor_int32_eq [Inhabited α] (rows cols : Int)
    (h : rows * cols ≤ INT_MAX) :
    (_create_tensor_int32 rows cols : Option (Tensor α)) = _create_tensor rows cols := by
  unfold _create_tensor_int32 _create_tensor
  by_cases hn : rows ≤ 0 ∨ cols ≤ 0
  · rw [if_pos hn, if_pos hn]
  · rw [if_neg hn, if_neg hn]
    obtain ⟨r, rfl⟩ := Int.eq_ofNat_of_zero_le (show 0 ≤ rows by omega)
    obtain ⟨c, rfl⟩ := Int.eq_ofNat_of_zero_le (show 0 ≤ cols by omega)
    have h0 : (0 : Int) ≤ (r : Int) * (c : Int) :=
      mul_nonneg (Int.ofNat_nonneg _) (Int.ofNat_nonneg _)
    simp only
    rw [int32_of_range _ h0 h, if_neg (by omega)]
    have : ((r : Int) * (c : Int)).toNat = r * c := by
      rw [← Nat.cast_mul, Int.toNat_ofNat]
    rw [this, Int.toNat_ofNat, Int.toNat_ofNat]

/-- While rows*cols fits an int, create_tensor_value with 32-bit arithmetic is
create_tensor_value with exact arithmetic. -/
theorem create_tensor_value_int32_eq [Inhabited α] (rows cols : Int) (v : α)
    (h : rows * cols ≤ INT_MAX) :
    create_tensor_value_int32 rows cols v = create_tensor_value rows cols v := by
  unfold create_tensor_value_int32 create_tensor_value
  rw [_create_tensor_int32_eq rows cols h]
  by_cases hn : rows ≤ 0 ∨ cols ≤ 0
  · unfold _create_tensor
    rw [if_pos hn]
  · obtain ⟨r, rfl⟩ := Int.eq_ofNat_of_zero_le (show 0 ≤ rows by omega)
    obtain ⟨c, rfl⟩ := Int.eq_ofNat_of_zero_le (show 0 ≤ cols by omega)
    rw [_create_tensor_pos r c (by omega) (by omega)]
    simp only [Int.toNat_ofNat]
    refine congrArg some (for_range_congr _ _ _ (fun i hi s =>
      for_range_congr _ _ _ (fun j hj s => ?_) s) _)
    have hlt : i * c + j < r * c := row_major_lt hi hj
    have hlt' : ((i * c + j : Nat) : Int) < ((r * c : Nat) : Int) := by exact_mod_cast hlt
    have hic : ((i * c : Nat) : Int) ≤ ((i * c + j : Nat) : Int) := by
      exact_mod_cast Nat.le_add_right _ _
    push_cast at hlt' hic
    have hp : (0 : Int) ≤ (i : Int) * (c : Int) :=
      mul_nonneg (Int.ofNat_nonneg _) (Int.ofNat_nonneg _)
    have hq : (0 : Int) ≤ (i : Int) * (c : Int) + (j : Int) :=
      add_nonneg hp (Int.ofNat_nonneg _)
    have h1 : int32 ((i : Int) * (c : Int)) = (i : Int) * (c : Int) :=
      int32_of_range _ hp (le_trans hic (le_trans (le_of_lt hlt') h))
    have h2 : int32 ((i : Int) * (c : Int) + (j : Int)) = (i : Int) * (c : Int) + (j : Int) :=
      int32_of_range _ hq (le_trans (le_of_lt hlt') h)
    have h3 : ¬ ((i : Int) * (c : Int) + (j : Int) < 0) := not_lt.mpr hq
    rw [h1, h2, if_neg h3]
    have : ((i : Int) * (c : Int) + (j : Int)).toNat = i * c + j := by
      rw [← Nat.cast_mul, ← Nat.cast_add, Int.toNat_ofNat]
    rw [this]

/-- C30 fails as stated: for rows = cols = 46341, both positive, the product 2147488281
exceeds INT_MAX, the int product of tensor.c:55 wraps to -2147479015, the allocation fails
and create_tensor_value returns no tensor. -/
theorem create_tensor_value_int32_counterexample :
    (0 : Int) < 46341 ∧ (46341 : Int) * 46341 = 2147488281 ∧ INT_MAX < (46341 : Int) * 46341 ∧
    int32 (46341 * 46341) = -2147479015 ∧
    create_tensor_value_int32 46341 46341 (1 : ℚ) = none := by
  refine ⟨by decide, by decide, by decide, by decide, ?_⟩
  unfold create_tensor_value_int32 _create_tensor_int32
  rw [if_neg (by decide)]
  simp only
  rw [if_pos (by decide)]

/-- C30, amended: for all int rows > 0 and cols > 0 whose product rows*cols does not exceed
INT_MAX, and every value v, create_tensor_value returns a tensor with exactly those rows
and cols whose data holds exactly rows*cols cells, each equal to v; for rows ≤ 0 or
cols ≤ 0, and for positive rows and cols whose int product wraps to a negative value, it
returns no tensor. -/
theorem create_tensor_value_int32_contract [Inhabited α] (rows cols : Int) (v : α) :
    (0 < rows → 0 < cols → rows * cols ≤ INT_MAX →
      ∃ t : Tensor α, create_tensor_value_int32 rows cols v = some t ∧
        (t.rows : Int) = rows ∧ (t.cols : Int) = cols ∧
        (t.data.length : Int) = rows * cols ∧
        t.data = List.replicate (t.rows * t.cols) v ∧
        (∀ x ∈ t.data, x = v) ∧
        ∀ i j, i < t.rows → j < t.cols → t.cell i j = v) ∧
    ((rows ≤ 0 ∨ cols ≤ 0) → create_tensor_value_int32 rows cols v = none) ∧
    (int32 (rows * cols) < 0 → create_tensor_value_int32 rows cols v = none) := by
  refine ⟨fun hr hc hb => ?_, fun h => ?_, fun h => ?_⟩
  · rw [create_tensor_value_int32_eq rows cols v hb]
    exact (create_tensor_value_exact rows cols v).1 hr hc
  · unfold create_tensor_value_int32 _create_tensor_int32
    rw [if_pos h]
  · unfold create_tensor_value_int32 _create_tensor_int32
    by_cases hn : rows ≤ 0 ∨ cols ≤ 0
    · rw [if_pos hn]
    · rw [if_neg hn]
      simp only
      rw [if_pos h]

theorem create_tensor_value_int32_contract_witness :
    create_tensor_value_int32 2 3 (7 / 2 : ℚ) =
      some { data := [7 / 2, 7 / 2, 7 / 2, 7 / 2, 7 / 2, 7 / 2], rows := 2, cols := 3 } ∧
    (∃ t : Tensor ℚ, create_tensor_value_int32 2 3 (7 / 2 : ℚ) = some t ∧
      (t.rows : Int) = 2 ∧ (t.cols : Int) = 3 ∧ (t.data.length : Int) = 2 * 3 ∧
      t.data = List.replicate (t.rows * t.cols) (7 / 2) ∧ (∀ x ∈ t.data, x = 7 / 2) ∧
      ∀ i j, i < t.rows → j < t.cols → t.cell i j = 7 / 2) ∧
    (∃ t : Tensor ℚ, create_tensor_value_int32 46340 46340 (7 / 2 : ℚ) = some t ∧
      (t.rows : Int) = 46340 ∧ (t.cols : Int) = 46340 ∧
      (t.data.length : Int) = 46340 * 46340 ∧
      t.data = List.replicate (t.rows * t.cols) (7 / 2) ∧ (∀ x ∈ t.data, x = 7 / 2) ∧
      ∀ i j, i < t.rows → j < t.cols → t.cell i j = 7 / 2) ∧
    create_tensor_value_int32 0 3 (7 / 2 : ℚ) = none ∧
    create_tensor_value_int32 2 (-1) (7 / 2 : ℚ) = none ∧
    create_tensor_value_int32 46341 46341 (7 / 2 : ℚ) = none :=
  ⟨by decide!,
    (create_tensor_value_int32_contract 2 3 (7 / 2 : ℚ)).1 (by decide) (by decide)
      (by decide),
    (create_tensor_value_int32_contract 46340 46340 (7 / 2 : ℚ)).1 (by decide) (by decide)
      (by decide),
    (create_tensor_value_int32_contract 0 3 (7 / 2 : ℚ)).2.1 (Or.inl (by decide)),
    (create_tensor_value_int32_contract 2 (-1) (7 / 2 : ℚ)).2.1 (Or.inr (by decide)),
    (create_tensor_value_int32_contract 46341 46341 (7 / 2 : ℚ)).2.2 (by decide)⟩

end C30
section FloatLemmas

theorem F32.add_def (x y : F32) : x + y = F32.add x y := rfl

theorem F32.sub_def (x y : F32) : x - y = F32.add x (F32.neg y) := rfl

theorem F32.mul_def (x y : F32) : x * y = F32.mul x y := rfl

theorem F32.div_def (x y : F32) : x / y = F32.div x y := rfl

theorem F32.zero_def : (0 : F32) = F32.fin 0 := rfl

theorem F32.natCast_def (n : Nat) : ((n : Nat) : F32) = F32.round (n : ℚ) := rfl

theorem F32.round_zero : F32.round 0 = F32.fin 0 := by
  unfold F32.round
  rw [if_pos rfl]

/-- The difference of a finite float and itself is +0. -/
theorem F32.sub_self_finite (x : F32) (h : x.isFinite = true) : x - x = F32.fin 0 := by
  rw [F32.sub_def]
  cases x with
  | fin q =>
    by_cases hq : q = 0
    · subst hq
      simp [F32.neg, F32.add]
    · simp only [F32.neg, if_neg hq, F32.add, add_neg_cancel, F32.round_zero]
  | negZero => simp [F32.neg, F32.add]
  | inf s => simp [F32.isFinite] at h
  | nan => simp [F32.isFinite] at h

/-- The difference of an infinity or a NaN and itself is a NaN. -/
theorem F32.sub_self_not_finite (x : F32) (h : x.isFinite = false) : x - x = F32.nan := by
  rw [F32.sub_def]
  cases x with
  | fin q => simp [F32.isFinite] at h
  | negZero => simp [F32.isFinite] at h
  | inf s => cases s <;> simp [F32.neg, F32.add]
  | nan => simp [F32.neg, F32.add]

theorem F32.nan_add (y : F32) : F32.nan + y = F32.nan := by
  rw [F32.add_def]; cases y <;> rfl

theorem F32.add_nan (x : F32) : x + F32.nan = F32.nan := by
  rw [F32.add_def]; cases x <;> rfl

theorem F32.nan_div (y : F32) : F32.nan / y = F32.nan := by
  rw [F32.div_def]; cases y <;> rfl

theorem F32.zero_add_zero : F32.fin 0 + F32.fin 0 = F32.fin 0 := by
  rw [F32.add_def]; simp [F32.add, F32.round_zero]

theorem F32.zero_mul_zero : F32.fin 0 * F32.fin 0 = F32.fin 0 := by
  rw [F32.mul_def]; simp [F32.mul, F32.isZero, F32.zero, F32.sign]

theorem F32.nan_mul_nan : F32.nan * F32.nan = F32.nan := rfl

theorem F32.log2Loop_le (fuel n : Nat) (h1 : 1 ≤ n) (h2 : n ≤ fuel) :
    2 ^ F32.log2Loop fuel n ≤ n := by
  induction fuel generalizing n with
  | zero => omega
  | succ fuel ih =>
    unfold F32.log2Loop
    by_cases hn : n < 2
    · rw [if_pos hn]; simpa using h1
    · rw [if_neg hn, pow_succ]
      have := ih (n / 2) (by omega) (by omega)
      omega

theorem F32.log2_le (n : Nat) (h1 : 1 ≤ n) : 2 ^ F32.log2 n ≤ n :=
  F32.log2Loop_le n n h1 (le_refl n)

theorem F32.pow2_pos (e : Int) : 0 < F32.pow2 e := by
  unfold F32.pow2
  split <;> positivity

theorem F32.pow2_natCast (k : Nat) : F32.pow2 (k : Int) = (2 : ℚ) ^ k := by
  unfold F32.pow2
  rw [if_pos (Int.ofNat_nonneg k)]
  simp

/-- Two to the power e, as a quotient of two powers of two. -/
theorem F32.pow2_sub (a b : Nat) :
    F32.pow2 ((a : Int) - (b : Int)) = (2 : ℚ) ^ a / 2 ^ b := by
  unfold F32.pow2
  by_cases h : (0 : Int) ≤ (a : Int) - (b : Int)
  · rw [if_pos h]
    have hba : b ≤ a := by omega
    have e : ((a : Int) - (b : Int)).toNat = a - b := by omega
    rw [e]
    push_cast
    rw [eq_div_iff (by positivity), ← pow_add, Nat.sub_add_cancel hba]
  · rw [if_neg h]
    have hab : a ≤ b := by omega
    have e : (-((a : Int) - (b : Int))).toNat = b - a := by omega
    rw [e]
    push_cast
    rw [div_eq_div_iff (by positivity) (by positivity), one_mul, ← pow_add,
      Nat.add_sub_cancel' hab]

/-- The conversion of a positive int to float is a positive finite float or +infinity. -/
theorem F32.round_natCast_pos (n : Nat) (hn : 0 < n) :
    F32.round (n : ℚ) = F32.inf false ∨ ∃ v : ℚ, 0 < v ∧ F32.round (n : ℚ) = F32.fin v := by
  have hq : (0 : ℚ) < (n : ℚ) := by exact_mod_cast hn
  have hq0 : ¬ ((n : ℚ) = 0) := ne_of_gt hq
  have hneg : ¬ ((n : ℚ) < 0) := not_lt.mpr (le_of_lt hq)
  have habs : |(n : ℚ)| = (n : ℚ) := abs_of_pos hq
  have hlog : (2 : ℚ) ^ F32.log2 n ≤ (n : ℚ) := by exact_mod_cast F32.log2_le n hn
  have hexp : F32.exponent (n : ℚ) = (F32.log2 n : Int) := by
    unfold F32.exponent
    have h1 : F32.log2 1 = 0 := rfl
    simp only [Rat.num_natCast, Int.natAbs_ofNat, Rat.den_natCast, h1, Nat.cast_zero, sub_zero]
    rw [if_pos (by rw [F32.pow2_natCast]; exact hlog)]
  have hmax : max (F32.log2 n : Int) (-126) = (F32.log2 n : Int) := by omega
  have hulp : F32.pow2 ((F32.log2 n : Int) - 23) = (2 : ℚ) ^ F32.log2 n / 2 ^ 23 :=
    F32.pow2_sub (F32.log2 n) 23
  have hulp_pos : (0 : ℚ) < (2 : ℚ) ^ F32.log2 n / 2 ^ 23 := by positivity
  have hr : (1 : ℚ) ≤ (n : ℚ) / ((2 : ℚ) ^ F32.log2 n / 2 ^ 23) := by
    rw [le_div_iff₀ hulp_pos, one_mul]
    calc (2 : ℚ) ^ F32.log2 n / 2 ^ 23 ≤ (2 : ℚ) ^ F32.log2 n :=
          div_le_self (by positivity) (by norm_num)
      _ ≤ (n : ℚ) := hlog
  unfold F32.round
  rw [if_neg hq0, habs, hexp, hmax, hulp]
  simp only [hneg, decide_False, if_false]
  generalize hrdef : (n : ℚ) / ((2 : ℚ) ^ F32.log2 n / 2 ^ 23) = r at hr
  have hfloor : 1 ≤ r.num.natAbs / r.den := by
    have hrpos : (0 : ℚ) < r := lt_of_lt_of_le one_pos hr
    have hnum : 0 < r.num := Rat.num_pos.mpr hrpos
    have hden : (0 : ℚ) < (r.den : ℚ) := by exact_mod_cast r.den_pos
    have h2 : (r.den : ℚ) ≤ (r.num : ℚ) := by
      have := hr
      rw [← Rat.num_div_den r, le_div_iff₀ hden, one_mul] at this
      exact this
    have h3 : (r.den : Int) ≤ r.num := by exact_mod_cast h2
    have h4 : r.den ≤ r.num.natAbs := by omega
    exact Nat.div_pos h4 r.den_pos
  generalize r.num.natAbs / r.den = k at hfloor
  generalize hm : (if r - (k : ℚ) < 1 / 2 then k
      else if 1 / 2 < r - (k : ℚ) then k + 1 else if k % 2 = 0 then k else k + 1) = m
  have hmk : 1 ≤ m := by
    rw [← hm]
    split
    · exact hfloor
    · split
      · omega
      · split <;> omega
  by_cases hov : F32.pow2 128 ≤ (m : ℚ) * ((2 : ℚ) ^ F32.log2 n / 2 ^ 23)
  · left
    rw [if_pos hov]
  · right
    rw [if_neg hov, if_neg (by omega)]
    exact ⟨_, by positivity, rfl⟩

/-- The quotient of +0 by the conversion of a positive int is +0. -/
theorem F32.zero_div_natCast (n : Nat) (hn : 0 < n) :
    F32.fin 0 / ((n : Nat) : F32) = F32.fin 0 := by
  rw [F32.div_def, F32.natCast_def]
  rcases F32.round_natCast_pos n hn with h | ⟨v, hv, h⟩
  · rw [h]; simp [F32.div, F32.zero, F32.sign]
  · rw [h]
    have hv0 : ¬ (v = 0) := ne_of_gt hv
    have hvn : ¬ (v < 0) := not_lt.mpr (le_of_lt hv)
    simp [F32.div, F32.zero, F32.sign, F32.isZero, hv0, hvn]

/-- The squared-error sum of _mse_loss for a tensor against itself is +0 when every cell
is finite. -/
theorem mse_self_error_finite (pred : Tensor F32)
    (hfin : ∀ i, i < pred.rows → ∀ j, j < pred.cols → (pred.cell i j).isFinite = true) :
    for_range pred.rows (fun input error =>
      for_range pred.cols (fun output_feature error =>
        error + (pred.cell input output_feature - pred.cell input output_feature)
              * (pred.cell input output_feature - pred.cell input output_feature)) error)
      (0 : F32) = F32.fin 0 := by
  refine for_range_inv_idx (fun _ s => s = F32.fin 0) _ _ _ rfl (fun i s hi hs => ?_)
  refine for_range_inv_idx (fun _ s => s = F32.fin 0) _ _ _ hs (fun j s hj hs => ?_)
  show s + _ = F32.fin 0
  rw [hs, F32.sub_self_finite _ (hfin i hi j hj), F32.zero_mul_zero, F32.zero_add_zero]

/-- The squared-error sum of _mse_loss for a tensor against itself is a NaN when a cell is
an infinity or a NaN. -/
theorem mse_self_error_nan (pred : Tensor F32) (i0 j0 : Nat) (hi0 : i0 < pred.rows)
    (hj0 : j0 < pred.cols) (hinf : (pred.cell i0 j0).isFinite = false) :
    for_range pred.rows (fun input error =>
      for_range pred.cols (fun output_feature error =>
        error + (pred.cell input output_feature - pred.cell input output_feature)
              * (pred.cell input output_feature - pred.cell input output_feature)) error)
      (0 : F32) = F32.nan := by
  refine for_range_inv_idx (fun i s => i0 < i → s = F32.nan) _ _ _ (fun h => by omega)
    (fun i s hi hs => ?_) hi0
  intro hlt
  by_cases hi : i0 < i
  · refine for_range_inv (fun s => s = F32.nan) _ _ _ (hs hi) (fun j s hs => ?_)
    show s + _ = F32.nan
    rw [hs, F32.nan_add]
  · have hi : i = i0 := by omega
    subst hi
    refine for_range_inv_idx (fun j s => j0 < j → s = F32.nan) _ _ _ (fun h => by omega)
      (fun j s hj hs => ?_) hj0
    intro hlt
    show s + _ = F32.nan
    by_cases hj : j0 < j
    · rw [hs hj, F32.nan_add]
    · have hj : j = j0 := by omega
      subst hj
      rw [F32.sub_self_not_finite _ hinf, F32.nan_mul_nan, F32.add_nan]

end FloatLemmas

section FloatSpec

theorem F32.log2Loop_lt (fuel n : Nat) (h2 : n ≤ fuel) :
    n < 2 ^ (F32.log2Loop fuel n + 1) := by
  induction fuel generalizing n with
  | zero =>
    have : n = 0 := by omega
    subst this
    simp
  | succ fuel ih =>
    unfold F32.log2Loop
    by_cases hn : n < 2
    · rw [if_pos hn]; simpa using hn
    · rw [if_neg hn, pow_succ]
      have := ih (n / 2) (by omega)
      omega

theorem F32.log2_lt (n : Nat) : n < 2 ^ (F32.log2 n + 1) :=
  F32.log2Loop_lt n n (le_refl n)

theorem F32.pow2_eq_zpow (e : Int) : F32.pow2 e = (2 : ℚ) ^ e := by
  unfold F32.pow2
  by_cases h : 0 ≤ e
  · rw [if_pos h]
    obtain ⟨k, rfl⟩ := Int.eq_ofNat_of_zero_le h
    simp
  · rw [if_neg h]
    obtain ⟨k, hk⟩ := Int.eq_ofNat_of_zero_le (show 0 ≤ -e by omega)
    have he : e = -(k : Int) := by omega
    subst he
    simp

/-- The exponent of a positive rational q brackets it: 2^e ≤ q < 2^(e+1). -/
theorem F32.exponent_spec (q : ℚ) (hq : 0 < q) :
    F32.pow2 (F32.exponent q) ≤ q ∧ q < F32.pow2 (F32.exponent q + 1) := by
  have hnum : 0 < q.num := Rat.num_pos.mpr hq
  have hden : 0 < q.den := q.den_pos
  obtain ⟨a, ha⟩ := Int.eq_ofNat_of_zero_le (le_of_lt hnum)
  have hapos : 1 ≤ a := by omega
  have hna : q.num.natAbs = a := by omega
  have hqa : q = (a : ℚ) / (q.den : ℚ) := by
    conv_lhs => rw [← Rat.num_div_den q, ha]
    simp
  have hdq : (0 : ℚ) < (q.den : ℚ) := by exact_mod_cast hden
  have la : ((2 : ℚ) ^ F32.log2 a) ≤ (a : ℚ) := by exact_mod_cast F32.log2_le a hapos
  have ua : (a : ℚ) < (2 : ℚ) ^ (F32.log2 a + 1) := by exact_mod_cast F32.log2_lt a
  have lb : ((2 : ℚ) ^ F32.log2 q.den) ≤ (q.den : ℚ) := by
    exact_mod_cast F32.log2_le q.den hden
  have ub : (q.den : ℚ) < (2 : ℚ) ^ (F32.log2 q.den + 1) := by
    exact_mod_cast F32.log2_lt q.den
  unfold F32.exponent
  simp only [hna]
  generalize F32.log2 a = A at la ua
  generalize F32.log2 q.den = B at lb ub
  have hlow : F32.pow2 ((A : Int) - (B : Int) - 1) ≤ q := by
    have e : (A : Int) - (B : Int) - 1 = (A : Int) - ((B + 1 : Nat) : Int) := by push_cast; ring
    rw [e, F32.pow2_sub, hqa, div_le_div_iff₀ (by positivity) hdq]
    calc (2 : ℚ) ^ A * (q.den : ℚ) ≤ (2 : ℚ) ^ A * 2 ^ (B + 1) :=
          mul_le_mul_of_nonneg_left (le_of_lt ub) (by positivity)
      _ ≤ (a : ℚ) * 2 ^ (B + 1) := mul_le_mul_of_nonneg_right la (by positivity)
  have hhigh : q < F32.pow2 ((A : Int) - (B : Int) + 1) := by
    have e : (A : Int) - (B : Int) + 1 = ((A + 1 : Nat) : Int) - (B : Int) := by push_cast; ring
    rw [e, F32.pow2_sub, hqa, div_lt_div_iff₀ hdq (by positivity)]
    calc (a : ℚ) * 2 ^ B < (2 : ℚ) ^ (A + 1) * 2 ^ B :=
          mul_lt_mul_of_pos_right ua (by positivity)
      _ ≤ (2 : ℚ) ^ (A + 1) * (q.den : ℚ) := mul_le_mul_of_nonneg_left lb (by positivity)
  by_cases h : F32.pow2 ((A : Int) - (B : Int)) ≤ q
  · rw [if_pos h]
    exact ⟨h, hhigh⟩
  · rw [if_neg h]
    refine ⟨hlow, ?_⟩
    have e : (A : Int) - (B : Int) - 1 + 1 = (A : Int) - (B : Int) := by ring
    rw [e]
    exact not_le.mp h

/-- Known values of the rounding: 0.01f and 1/3 to 24 bits; 2^24 + 1 and 2^24 + 3, ties
that go to the even neighbour; the largest float and the tie above it, which overflows;
the smallest subnormal, the tie below it, which goes to zero with the sign kept, and the
tie between the first two subnormals. -/
theorem F32.round_values :
    (0.01 : F32) = F32.fin (5368709 / 2 ^ 29) ∧
    F32.round (1 / 3) = F32.fin (11184811 / 2 ^ 25) ∧
    F32.round 16777217 = F32.fin 16777216 ∧
    F32.round 16777219 = F32.fin 16777220 ∧
    F32.round (2 ^ 128 - 2 ^ 103 - 1) = F32.fin (2 ^ 128 - 2 ^ 104) ∧
    F32.round (2 ^ 128 - 2 ^ 103) = F32.inf false ∧
    F32.round (-(2 ^ 128 - 2 ^ 103)) = F32.inf true ∧
    F32.round (1 / 2 ^ 149) = F32.fin (1 / 2 ^ 149) ∧
    F32.round (1 / 2 ^ 150) = F32.fin 0 ∧
    F32.round (-1 / 2 ^ 150) = F32.negZero ∧
    F32.round (3 / 2 ^ 150) = F32.fin (1 / 2 ^ 148) := by
  decide!

/-- The quotient num / den of a non-negative rational r is its integer part. -/
theorem F32.floor_spec (r : ℚ) (hr : 0 ≤ r) :
    ((r.num.natAbs / r.den : Nat) : ℚ) ≤ r ∧ r < ((r.num.natAbs / r.den : Nat) : ℚ) + 1 := by
  have hnum : 0 ≤ r.num := Rat.num_nonneg.mpr hr
  obtain ⟨a, ha⟩ := Int.eq_ofNat_of_zero_le hnum
  have hna : r.num.natAbs = a := by omega
  have hden : 0 < r.den := r.den_pos
  have hdq : (0 : ℚ) < (r.den : ℚ) := by exact_mod_cast hden
  have hra : r = (a : ℚ) / (r.den : ℚ) := by
    conv_lhs => rw [← Rat.num_div_den r, ha]
    simp
  rw [hna]
  have h0 := Nat.div_add_mod a r.den
  have h1 := Nat.mod_lt a hden
  generalize a / r.den = k at h0
  generalize a % r.den = t at h0 h1
  have h0q : (r.den : ℚ) * (k : ℚ) + (t : ℚ) = (a : ℚ) := by exact_mod_cast h0
  have h1q : (t : ℚ) < (r.den : ℚ) := by exact_mod_cast h1
  have htq : (0 : ℚ) ≤ (t : ℚ) := Nat.cast_nonneg t
  generalize (r.den : ℚ) = d at hdq hra h0q h1q
  rw [hra, le_div_iff₀ hdq, div_lt_iff₀ hdq]
  constructor <;> nlinarith

/-- The rounding error: a finite result of the rounding is a multiple m * ulp with m at most
2^24 of the unit ulp = 2^(max(e, -126) - 23), e the exponent of |q|, and differs from q by
at most half that unit. -/
theorem F32.round_near (q v : ℚ) (hq : q ≠ 0) (h : F32.round q = F32.fin v) :
    |v - q| ≤ F32.pow2 (max (F32.exponent |q|) (-126) - 23) / 2 ∧
    ∃ m : Nat, m ≤ 2 ^ 24 ∧ |v| = (m : ℚ) * F32.pow2 (max (F32.exponent |q|) (-126) - 23) := by
  have habs : 0 < |q| := abs_pos.mpr hq
  obtain ⟨elo, ehi⟩ := F32.exponent_spec |q| habs
  unfold F32.round at h
  rw [if_neg hq] at h
  simp only at h
  generalize hE : max (F32.exponent |q|) (-126) = E at h ⊢
  have hu : 0 < F32.pow2 (E - 23) := F32.pow2_pos _
  have hEe : F32.exponent |q| ≤ E := by rw [← hE]; exact le_max_left _ _
  -- the scaled magnitude r is below 2^24
  have hr0 : 0 ≤ |q| / F32.pow2 (E - 23) := div_nonneg (le_of_lt habs) (le_of_lt hu)
  have hr24 : |q| / F32.pow2 (E - 23) < 2 ^ 24 := by
    rw [div_lt_iff₀ hu]
    have e1 : (2 : ℚ) ^ 24 * F32.pow2 (E - 23) = F32.pow2 (E + 1) := by
      rw [F32.pow2_eq_zpow, F32.pow2_eq_zpow]
      rw [show E + 1 = 24 + (E - 23) by ring, zpow_add₀ (by norm_num : (2 : ℚ) ≠ 0)]
      norm_num
    rw [e1]
    refine lt_of_lt_of_le ehi ?_
    rw [F32.pow2_eq_zpow, F32.pow2_eq_zpow]
    exact zpow_le_zpow_right₀ (by norm_num) (by omega)
  obtain ⟨fl, fu⟩ := F32.floor_spec _ hr0
  generalize hrd : |q| / F32.pow2 (E - 23) = r at h hr0 hr24 fl fu
  have hqr : |q| = r * F32.pow2 (E - 23) := by
    rw [← hrd, div_mul_cancel₀ _ (ne_of_gt hu)]
  generalize r.num.natAbs / r.den = n at h fl fu
  generalize hm : (if r - (n : ℚ) < 1 / 2 then n
      else if 1 / 2 < r - (n : ℚ) then n + 1 else if n % 2 = 0 then n else n + 1) = m at h
  have hn24 : n < 2 ^ 24 := by
    have : (n : ℚ) < 2 ^ 24 := lt_of_le_of_lt fl hr24
    exact_mod_cast this
  have hmr : |(m : ℚ) - r| ≤ 1 / 2 ∧ m ≤ 2 ^ 24 := by
    rw [← hm]
    split
    · refine ⟨?_, by omega⟩
      rw [abs_le]; constructor <;> linarith
    · split
      · refine ⟨?_, by omega⟩
        push_cast
        rw [abs_le]; constructor <;> linarith
      · have e : r - (n : ℚ) = 1 / 2 := by linarith
        split
        · refine ⟨?_, by omega⟩
          rw [abs_le]; constructor <;> linarith
        · refine ⟨?_, by omega⟩
          push_cast
          rw [abs_le]; constructor <;> linarith
  obtain ⟨hmr1, hm24⟩ := hmr
  have key : |(m : ℚ) * F32.pow2 (E - 23) - abs q| ≤ F32.pow2 (E - 23) / 2 := by
    rw [hqr, ← sub_mul, abs_mul, abs_of_pos hu]
    calc |(m : ℚ) - r| * F32.pow2 (E - 23) ≤ 1 / 2 * F32.pow2 (E - 23) :=
          mul_le_mul_of_nonneg_right hmr1 (le_of_lt hu)
      _ = F32.pow2 (E - 23) / 2 := by ring
  have hmv : (0 : ℚ) ≤ (m : ℚ) * F32.pow2 (E - 23) :=
    mul_nonneg (Nat.cast_nonneg m) (le_of_lt hu)
  by_cases hov : F32.pow2 128 ≤ (m : ℚ) * F32.pow2 (E - 23)
  · rw [if_pos hov] at h
    exact absurd h (by simp)
  · rw [if_neg hov] at h
    by_cases hm0 : m = 0
    · rw [if_pos hm0] at h
      by_cases hneg : q < 0
      · rw [if_pos hneg] at h
        exact absurd h (by simp)
      · rw [if_neg hneg] at h
        have hv : v = 0 := (F32.fin.inj h).symm
        subst hv
        subst hm0
        refine ⟨?_, 0, by norm_num, by simp⟩
        simpa using key
    · rw [if_neg hm0] at h
      have hv := (F32.fin.inj h).symm
      by_cases hneg : q < 0
      · rw [if_pos hneg] at hv
        subst hv
        refine ⟨?_, m, hm24, ?_⟩
        · rw [abs_of_neg hneg] at key
          rw [show -((m : ℚ) * F32.pow2 (E - 23)) - q = -((m : ℚ) * F32.pow2 (E - 23) - -q) by
            ring, abs_neg]
          exact key
        · rw [abs_neg, abs_of_nonneg hmv]
      · rw [if_neg hneg] at hv
        subst hv
        refine ⟨?_, m, hm24, ?_⟩
        · rw [abs_of_nonneg (not_lt.mp hneg)] at key
          exact key
        · rw [abs_of_nonneg hmv]

end FloatSpec
section C15

/-- C15 fails as stated: for the 1 × 1 tensors holding +infinity, -infinity and a NaN the
difference of the cell and itself is a NaN, and so is the MSE loss of the tensor against
itself, not 0.0. -/
theorem _mse_loss_self_counterexample :
    _mse_loss ({ data := [F32.inf false], rows := 1, cols := 1 } : Tensor F32)
      { data := [F32.inf false], rows := 1, cols := 1 } = F32.nan ∧
    _mse_loss ({ data := [F32.inf true], rows := 1, cols := 1 } : Tensor F32)
      { data := [F32.inf true], rows := 1, cols := 1 } = F32.nan ∧
    _mse_loss ({ data := [F32.nan], rows := 1, cols := 1 } : Tensor F32)
      { data := [F32.nan], rows := 1, cols := 1 } = F32.nan ∧
    F32.nan ≠ (0 : F32) ∧ ¬ (F32.nan < (0 : F32)) ∧ ¬ ((0 : F32) < F32.nan) := by
  decide!

/-- C15, amended: for every float tensor pred with positive extents whose cells are all
finite (no infinity and no NaN), the MSE loss of pred against itself is exactly 0.0, both
for the function _mse_loss and for the loss entry of the object made by create_loss; when a
cell is an infinity or a NaN, the loss is a NaN. -/
theorem _mse_loss_self (pred : Tensor F32) (hr : 0 < pred.rows) (hc : 0 < pred.cols) :
    ((∀ i, i < pred.rows → ∀ j, j < pred.cols → (pred.cell i j).isFinite = true) →
      _mse_loss pred pred = 0 ∧ (create_loss loss_function_type.MSE).loss pred pred = 0) ∧
    ((∃ i, i < pred.rows ∧ ∃ j, j < pred.cols ∧ (pred.cell i j).isFinite = false) →
      _mse_loss pred pred = F32.nan ∧
      (create_loss loss_function_type.MSE).loss pred pred = F32.nan) := by
  have hn : 0 < pred.cols * pred.rows := Nat.mul_pos hc hr
  refine ⟨fun hfin => ?_, fun ⟨i0, hi0, j0, hj0, hinf⟩ => ?_⟩
  · have h : _mse_loss pred pred = 0 := by
      unfold _mse_loss
      rw [if_neg (by simp)]
      simp only
      rw [mse_self_error_finite pred hfin, F32.zero_div_natCast _ hn]
      rfl
    exact ⟨h, h⟩
  · have h : _mse_loss pred pred = F32.nan := by
      unfold _mse_loss
      rw [if_neg (by simp)]
      simp only
      rw [mse_self_error_nan pred i0 j0 hi0 hj0 hinf, F32.nan_div]
    exact ⟨h, h⟩

theorem _mse_loss_self_witness :
    (0 < 2 ∧ 0 < 2) ∧
    _mse_loss ({ data := [1.5, -0.01, F32.negZero, 16777216.0], rows := 2, cols := 2 } :
        Tensor F32)
      { data := [1.5, -0.01, F32.negZero, 16777216.0], rows := 2, cols := 2 } = 0 ∧
    (create_loss loss_function_type.MSE).loss
      ({ data := [1.5, -0.01, F32.negZero, 16777216.0], rows := 2, cols := 2 } : Tensor F32)
      { data := [1.5, -0.01, F32.negZero, 16777216.0], rows := 2, cols := 2 } = 0 ∧
    _mse_loss ({ data := [1.5, F32.inf true], rows := 1, cols := 2 } : Tensor F32)
      { data := [1.5, F32.inf true], rows := 1, cols := 2 } = F32.nan :=
  ⟨⟨by decide, by decide⟩,
   ((_mse_loss_self
      { data := [1.5, -0.01, F32.negZero, 16777216.0], rows := 2, cols := 2 }
      (by decide) (by decide)).1 (by decide!)).1,
   ((_mse_loss_self
      { data := [1.5, -0.01, F32.negZero, 16777216.0], rows := 2, cols := 2 }
      (by decide) (by decide)).1 (by decide!)).2,
   ((_mse_loss_self { data := [1.5, F32.inf true], rows := 1, cols := 2 }
      (by decide) (by decide)).2 ⟨0, by decide, 1, by decide, by decide!⟩).1⟩

end C15
section C10

end C10
end DLF
